import Mathlib

/-!
# BQI.P11 client database (`src/client/js/database.js`) and service worker
(`src/service-worker.js`)

A shallow embedding of the `Database` class and of the part of the IndexedDB
object-store semantics that it relies on, of the upgrade handler of
`initDatabase`, and of the `activate` and `fetch` listeners of the service
worker over a model of the cache storage, followed by theorems about them.

Conventions of the embedding

* JavaScript values are `Val`; numbers are integers (`Date.now()` readings,
  generated keys, counters); records are `Obj`, ordered property lists.
* IndexedDB keys are `Key`: numbers and strings (Date, binary and array keys
  are outside the modelled universe).  Arguments that the source passes on as
  a key (`email`, `postId`, ...) range over `Key`.
* Every `await` runs to completion before the next statement, so an operation
  is a function of the database state; an operation that writes returns the
  outcome together with the state it leaves behind.  A failed request aborts
  its transaction, which leaves the store as it was.
* `Date.now()` readings and the SHA-256 digest of `crypto.subtle` are inputs.
-/

namespace BQI

/-! ## Values -/

/-- JavaScript values that occur in records of the database. -/
inductive Val where
  | undef
  | null
  | bool (b : Bool)
  | num (n : Int)
  | str (s : String)
  | arr (xs : List Val)
  | blob (mime : String) (bytes : List Nat)

namespace Val

mutual
/-- Decision of equality between two values. -/
def decEq : (a b : Val) → Decidable (a = b)
  | undef, b => by
    cases b <;> first | exact isTrue rfl | exact isFalse (fun h => Val.noConfusion h)
  | null, b => by
    cases b <;> first | exact isTrue rfl | exact isFalse (fun h => Val.noConfusion h)
  | bool x, b => by
    cases b with
    | bool y =>
      exact if h : x = y then isTrue (congrArg bool h) else isFalse (fun e => h (bool.inj e))
    | _ => exact isFalse (fun h => Val.noConfusion h)
  | num x, b => by
    cases b with
    | num y =>
      exact if h : x = y then isTrue (congrArg num h) else isFalse (fun e => h (num.inj e))
    | _ => exact isFalse (fun h => Val.noConfusion h)
  | str x, b => by
    cases b with
    | str y =>
      exact if h : x = y then isTrue (congrArg str h) else isFalse (fun e => h (str.inj e))
    | _ => exact isFalse (fun h => Val.noConfusion h)
  | arr xs, b => by
    cases b with
    | arr ys =>
      exact match decEqList xs ys with
        | isTrue h => isTrue (congrArg arr h)
        | isFalse h => isFalse (fun e => h (arr.inj e))
    | _ => exact isFalse (fun h => Val.noConfusion h)
  | blob m x, b => by
    cases b with
    | blob n y =>
      exact if h : m = n ∧ x = y then isTrue (by rw [h.1, h.2])
        else isFalse (fun e => h (blob.inj e))
    | _ => exact isFalse (fun h => Val.noConfusion h)
/-- Decision of equality between two lists of values. -/
def decEqList : (a b : List Val) → Decidable (a = b)
  | [], [] => isTrue rfl
  | [], _ :: _ => isFalse (fun h => List.noConfusion h)
  | _ :: _, [] => isFalse (fun h => List.noConfusion h)
  | x :: xs, y :: ys =>
    match decEq x y, decEqList xs ys with
    | isTrue h₁, isTrue h₂ => isTrue (by rw [h₁, h₂])
    | isFalse h₁, _ => isFalse (fun e => h₁ (List.cons.inj e).1)
    | _, isFalse h₂ => isFalse (fun e => h₂ (List.cons.inj e).2)
end
instance : DecidableEq Val := decEq

/-- The strict equality operator `===` between a freshly read record field and
an argument: value equality on primitives; arrays and blobs are objects, equal
only to themselves, and a value read back from a store is a new copy. -/
def strictEq : Val → Val → Bool
  | undef, undef => true
  | null, null => true
  | bool a, bool b => a == b
  | num a, num b => a == b
  | str a, str b => a == b
  | _, _ => false

mutual
/-- The string conversion `String(v)` of a value. -/
def jsToString : Val → String
  | undef => "undefined"
  | null => "null"
  | bool b => if b then "true" else "false"
  | num n => toString n
  | str s => s
  | arr xs => joinElems xs
  | blob _ _ => "[object Blob]"
/-- The comma-separated join of the elements of an array, as `Array.prototype.join`
does it: `undefined` and `null` elements contribute the empty string. -/
def joinElems : List Val → String
  | [] => ""
  | [x] => elemToString x
  | x :: y :: rest => elemToString x ++ "," ++ joinElems (y :: rest)
/-- The contribution of one array element to the join. -/
def elemToString : Val → String
  | undef => ""
  | null => ""
  | bool b => if b then "true" else "false"
  | num n => toString n
  | str s => s
  | arr xs => joinElems xs
  | blob _ _ => "[object Blob]"
end

end Val

/-! ## Keys -/

/-- Keys of the object stores: numbers and strings. -/
inductive Key where
  | num (n : Int)
  | str (s : String)
  deriving DecidableEq

namespace Key

/-- A key as a JavaScript value. -/
def toVal : Key → Val
  | num n => Val.num n
  | str s => Val.str s

/-- The UTF-16 code units of a string, the order in which IndexedDB compares
string keys. -/
def utf16Units (s : String) : List Nat :=
  s.toList.flatMap fun c =>
    if c.toNat < 0x10000 then [c.toNat]
    else [0xD800 + (c.toNat - 0x10000) / 0x400, 0xDC00 + (c.toNat - 0x10000) % 0x400]

/-- Lexicographic order on lists of code units. -/
def lexLt : List Nat → List Nat → Bool
  | _, [] => false
  | [], _ :: _ => true
  | a :: as, b :: bs => a < b || (a == b && lexLt as bs)

/-- The key order of IndexedDB: numbers before strings, numbers by value,
strings by code units. -/
def lt : Key → Key → Bool
  | num a, num b => decide (a < b)
  | num _, str _ => true
  | str _, num _ => false
  | str a, str b => lexLt (utf16Units a) (utf16Units b)

end Key

/-- Conversion of a value to a key: `none` when the value is not a valid key
(`undefined`, `null`, booleans, blobs; arrays too, array keys not being
modelled). -/
def Val.toKey? : Val → Option Key
  | Val.num n => some (Key.num n)
  | Val.str s => some (Key.str s)
  | _ => none

/-! ## Records -/

/-- A record (a plain JavaScript object): its properties in insertion order. -/
abbrev Obj := List (String × Val)

namespace Obj

/-- The own property `k` of an object, if it has one.  Should a list name a
property twice, the later entry is the one in force, as in an object literal. -/
def lookup? : Obj → String → Option Val
  | [], _ => none
  | kv :: rest, k =>
    match lookup? rest k with
    | some w => some w
    | none => if kv.1 = k then some kv.2 else none

/-- The property read `o.k`: `undefined` when the property is absent. -/
def prop (o : Obj) (k : String) : Val := (lookup? o k).getD Val.undef

/-- Whether the object has an own property `k`. -/
def hasProp (o : Obj) (k : String) : Bool := (lookup? o k).isSome

/-- The assignment `o.k = v`: an existing property keeps its place, a new one
is appended. -/
def setProp (o : Obj) (k : String) (v : Val) : Obj :=
  if o.any (fun kv => kv.1 == k) then o.map (fun kv => (kv.1, if kv.1 = k then v else kv.2))
  else o ++ [(k, v)]

/-- The spread `{...target, ...src}`: the properties of `src` are assigned onto
`target` in order. -/
def assign (target src : Obj) : Obj :=
  src.foldl (fun o kv => setProp o kv.1 kv.2) target

/-- The statement `delete o.k`. -/
def deleteProp (o : Obj) (k : String) : Obj := o.filter (fun kv => kv.1 != k)

end Obj

/-! ## Object stores -/

deriving instance DecidableEq for Except

/-- Errors with which a request or an operation fails: the IndexedDB exceptions
and the `Error` objects thrown by the `Database` class itself. -/
inductive Err where
  | ConstraintError
  | DataError
  | NotFoundError
  | Error (message : String)
  deriving DecidableEq

/-- An index of an object store, as declared by `createIndex`: its name, the
properties of its key path (one property, or several for a compound path) and
its `unique` flag. -/
structure IndexSpec where
  name : String
  keyPath : List String
  unique : Bool
  deriving DecidableEq

/-- The declaration of an object store: `createObjectStore` options and indexes. -/
structure Schema where
  keyPath : String
  autoIncrement : Bool
  indexes : List IndexSpec
  deriving DecidableEq

/-- The key of a record: the value at the key path of its store. -/
def Schema.keyOf (sch : Schema) (r : Obj) : Option Key := (r.prop sch.keyPath).toKey?

/-- The key under which an index files a record; a record whose key path gives
no valid key is not in the index.  Compound paths give array keys, which are
not modelled: no operation of the class queries such an index. -/
def IndexSpec.keyOf (ix : IndexSpec) (r : Obj) : Option Key :=
  match ix.keyPath with
  | [f] => (r.prop f).toKey?
  | _ => none

/-- An object store: its records in ascending key order, and the current number
of its key generator. -/
structure Store where
  records : List Obj
  keyGen : Nat
  deriving DecidableEq

/-- The largest number a key generator hands out. -/
def maxGeneratedKey : Nat := 2 ^ 53

namespace Store

/-- A new, empty object store. -/
def empty : Store := { records := [], keyGen := 1 }

/-- The request `store.get(key)`. -/
def get (sch : Schema) (s : Store) (k : Key) : Option Obj :=
  s.records.find? (fun r => sch.keyOf r == some k)

/-- Insertion of a record at its place in the key order. -/
def insertByKey (sch : Schema) (k : Key) (v : Obj) : List Obj → List Obj
  | [] => [v]
  | r :: rs =>
    if (sch.keyOf r).any (fun k' => k.lt k') then v :: r :: rs
    else r :: insertByKey sch k v rs

/-- Replacement of the record stored under a key. -/
def replaceByKey (sch : Schema) (k : Key) (v : Obj) : List Obj → List Obj
  | [] => []
  | r :: rs => if sch.keyOf r = some k then v :: rs else r :: replaceByKey sch k v rs

/-- The key generator after a record with the explicit key `k` was stored. -/
def bumpKeyGen (g : Nat) : Key → Nat
  | Key.num n => if (g : Int) ≤ n then (min n (maxGeneratedKey : Int)).toNat + 1 else g
  | Key.str _ => g

/-- The key of a record about to be stored, the record as it will be stored and
the key generator afterwards: the key is extracted from the record; when the
key path holds nothing, it is generated and written into the record. -/
def resolveKey (sch : Schema) (s : Store) (value : Obj) : Except Err (Key × Obj × Nat) :=
  if value.prop sch.keyPath = Val.undef then
    if sch.autoIncrement then
      if s.keyGen > maxGeneratedKey then Except.error Err.ConstraintError
      else Except.ok (Key.num s.keyGen, value.setProp sch.keyPath (Val.num s.keyGen), s.keyGen + 1)
    else Except.error Err.DataError
  else
    match (value.prop sch.keyPath).toKey? with
    | none => Except.error Err.DataError
    | some k => Except.ok (k, value, if sch.autoIncrement then bumpKeyGen s.keyGen k else s.keyGen)

/-- Whether storing `value` under `k` would put two records with different keys
under one key of a unique index. -/
def violatesUnique (sch : Schema) (s : Store) (k : Key) (value : Obj) : Bool :=
  sch.indexes.any fun ix =>
    ix.unique &&
      match ix.keyOf value with
      | none => false
      | some ik => s.records.any fun r => sch.keyOf r != some k && ix.keyOf r == some ik

/-- The request `store.add(value)`: fails when the key is already in the store. -/
def add (sch : Schema) (s : Store) (value : Obj) : Except Err (Key × Store) :=
  match resolveKey sch s value with
  | Except.error e => Except.error e
  | Except.ok (k, v, g) =>
    if s.records.any (fun r => sch.keyOf r == some k) then Except.error Err.ConstraintError
    else if violatesUnique sch s k v then Except.error Err.ConstraintError
    else Except.ok (k, { records := insertByKey sch k v s.records, keyGen := g })

/-- The request `store.put(value)`: replaces the record under the key, or
inserts the record when the key is not in the store. -/
def put (sch : Schema) (s : Store) (value : Obj) : Except Err (Key × Store) :=
  match resolveKey sch s value with
  | Except.error e => Except.error e
  | Except.ok (k, v, g) =>
    if violatesUnique sch s k v then Except.error Err.ConstraintError
    else if s.records.any (fun r => sch.keyOf r == some k) then
      Except.ok (k, { records := replaceByKey sch k v s.records, keyGen := g })
    else Except.ok (k, { records := insertByKey sch k v s.records, keyGen := g })

/-- The request `store.delete(key)`. -/
def delete (sch : Schema) (s : Store) (k : Key) : Store :=
  { s with records := s.records.filter (fun r => sch.keyOf r != some k) }

end Store

/-! ## The database of `initDatabase` -/

/-- The object stores created by the upgrade handler. -/
inductive StoreName where
  | users | posts | media | comments | likes | followers
  deriving DecidableEq

/-- The declaration of each store in `onupgradeneeded`. -/
def schemaOf : StoreName → Schema
  | StoreName.users =>
    { keyPath := "email", autoIncrement := false,
      indexes := [⟨"name", ["firstName", "lastName"], false⟩, ⟨"email", ["email"], true⟩] }
  | StoreName.posts =>
    { keyPath := "id", autoIncrement := true,
      indexes := [⟨"author", ["authorEmail"], false⟩, ⟨"timestamp", ["timestamp"], false⟩] }
  | StoreName.media =>
    { keyPath := "id", autoIncrement := true,
      indexes := [⟨"owner", ["ownerEmail"], false⟩, ⟨"type", ["type"], false⟩] }
  | StoreName.comments =>
    { keyPath := "id", autoIncrement := true,
      indexes := [⟨"post", ["postId"], false⟩, ⟨"author", ["authorEmail"], false⟩] }
  | StoreName.likes =>
    { keyPath := "id", autoIncrement := true,
      indexes := [⟨"post", ["postId"], false⟩, ⟨"user", ["userEmail"], false⟩] }
  | StoreName.followers =>
    { keyPath := "id", autoIncrement := true,
      indexes := [⟨"follower", ["followerEmail"], false⟩, ⟨"following", ["followingEmail"], false⟩] }

/-- The state of the database `mojiCodeDB`: its six object stores. -/
structure DB where
  users : Store
  posts : Store
  media : Store
  comments : Store
  likes : Store
  followers : Store
  deriving DecidableEq

namespace DB

/-- The database right after the upgrade handler ran on a new database. -/
def empty : DB :=
  { users := Store.empty, posts := Store.empty, media := Store.empty,
    comments := Store.empty, likes := Store.empty, followers := Store.empty }

/-- The object store of a name: `transaction.objectStore(storeName)`. -/
def store (db : DB) : StoreName → Store
  | StoreName.users => db.users
  | StoreName.posts => db.posts
  | StoreName.media => db.media
  | StoreName.comments => db.comments
  | StoreName.likes => db.likes
  | StoreName.followers => db.followers

/-- The database with one object store replaced: a committed transaction. -/
def setStore (db : DB) (n : StoreName) (s : Store) : DB :=
  match n with
  | StoreName.users => { db with users := s }
  | StoreName.posts => { db with posts := s }
  | StoreName.media => { db with media := s }
  | StoreName.comments => { db with comments := s }
  | StoreName.likes => { db with likes := s }
  | StoreName.followers => { db with followers := s }

end DB

/-! ## Generic store operations -/

/-- The method `addToStore(storeName, data)`: resolves with the key of the new
record. -/
def addToStore (storeName : StoreName) (data : Obj) (db : DB) : Except Err Val × DB :=
  match (db.store storeName).add (schemaOf storeName) data with
  | Except.ok (k, s) => (Except.ok k.toVal, db.setStore storeName s)
  | Except.error e => (Except.error e, db)

/-- The method `getFromStore(storeName, key)`: resolves with the record, or with
`undefined` (`none`) when there is none; a value that is no key is refused. -/
def getFromStore (storeName : StoreName) (key : Val) (db : DB) : Except Err (Option Obj) :=
  match key.toKey? with
  | none => Except.error Err.DataError
  | some k => Except.ok ((db.store storeName).get (schemaOf storeName) k)

/-- The method `getAllFromStore(storeName)`: all records, in key order. -/
def getAllFromStore (storeName : StoreName) (db : DB) : List Obj :=
  (db.store storeName).records

/-- The method `getAllFromIndex(storeName, indexName, key)`: the records that the
index files under the key, in key order. -/
def getAllFromIndex (storeName : StoreName) (indexName : String) (key : Key) (db : DB) :
    Except Err (List Obj) :=
  match (schemaOf storeName).indexes.find? (fun ix => ix.name == indexName) with
  | none => Except.error Err.NotFoundError
  | some ix => Except.ok ((db.store storeName).records.filter (fun r => ix.keyOf r == some key))

/-- The method `updateInStore(storeName, key, data)`: a `put` of `data`; the
parameter `key` is not used. -/
def updateInStore (storeName : StoreName) (_key : Val) (data : Obj) (db : DB) :
    Except Err Val × DB :=
  match (db.store storeName).put (schemaOf storeName) data with
  | Except.ok (k, s) => (Except.ok k.toVal, db.setStore storeName s)
  | Except.error e => (Except.error e, db)

/-- The method `deleteFromStore(storeName, key)`. -/
def deleteFromStore (storeName : StoreName) (key : Val) (db : DB) : Except Err Unit × DB :=
  match key.toKey? with
  | none => (Except.error Err.DataError, db)
  | some k => (Except.ok (), db.setStore storeName ((db.store storeName).delete (schemaOf storeName) k))

/-! ## Password hashing -/

/-- The bytes `TextEncoder.encode` produces for a string: its UTF-8 encoding. -/
def utf8Encode (s : String) : List Nat :=
  s.toList.flatMap fun c => (String.utf8EncodeChar c).map (fun b => b.toNat)

/-- The string that `encoder.encode(password)` encodes: the parameter defaults
to the empty string when the argument is `undefined`, and any other value is
converted to a string. -/
def encodeArg : Val → String
  | Val.undef => ""
  | v => v.jsToString

/-- The call `s.padStart(n, c)` with a one-character filler. -/
def padStart (s : String) (n : Nat) (c : Char) : String :=
  String.mk (List.replicate (n - s.length) c) ++ s

/-- The expression `b.toString(16).padStart(2, '0')`. -/
def hexByte (b : Nat) : String := padStart (String.mk (Nat.toDigits 16 b)) 2 '0'

/-- The method `hashPassword(password)`: the digest of the encoded password,
each byte of the `Uint8Array` view written as two hexadecimal digits.  The
digest function `crypto.subtle.digest('SHA-256', ·)` is the parameter `sha256`. -/
def hashPassword (sha256 : List Nat → List Nat) (password : Val) : String :=
  String.join ((sha256 (utf8Encode (encodeArg password))).map (fun b => hexByte (b % 256)))

/-- The method `verifyPassword(password, hash)`. -/
def verifyPassword (sha256 : List Nat → List Nat) (password hash : Val) : Bool :=
  Val.strictEq (Val.str (hashPassword sha256 password)) hash

/-! ## Entity operations of the `Database` class -/

/-- The method `createUser(userData)`; `now₁` and `now₂` are the two readings of
`Date.now()`. -/
def createUser (sha256 : List Nat → List Nat) (userData : Obj) (now₁ now₂ : Int) (db : DB) :
    Except Err Val × DB :=
  let hashedPassword := hashPassword sha256 (userData.prop "password")
  let user := (((Obj.assign [] userData).setProp "password" (Val.str hashedPassword)).setProp
    "createdAt" (Val.num now₁)).setProp "updatedAt" (Val.num now₂)
  addToStore StoreName.users user db

/-- The method `authenticateUser(email, password)`. -/
def authenticateUser (sha256 : List Nat → List Nat) (email : Key) (password : Val) (db : DB) :
    Except Err Obj :=
  match getFromStore StoreName.users email.toVal db with
  | Except.error e => Except.error e
  | Except.ok none => Except.error (Err.Error "User not found")
  | Except.ok (some user) =>
    if verifyPassword sha256 password (user.prop "password") then
      Except.ok (user.deleteProp "password")
    else Except.error (Err.Error "Invalid password")

/-- The method `updateUser(email, updates)`. -/
def updateUser (email : Key) (updates : Obj) (now : Int) (db : DB) : Except Err Val × DB :=
  match getFromStore StoreName.users email.toVal db with
  | Except.error e => (Except.error e, db)
  | Except.ok none => (Except.error (Err.Error "User not found"), db)
  | Except.ok (some user) =>
    let updatedUser := (Obj.assign (Obj.assign [] user) updates).setProp "updatedAt" (Val.num now)
    updateInStore StoreName.users email.toVal updatedUser db

/-- The method `createPost(postData)`. -/
def createPost (postData : Obj) (now : Int) (db : DB) : Except Err Val × DB :=
  let post := (((Obj.assign [] postData).setProp "timestamp" (Val.num now)).setProp
    "likes" (Val.num 0)).setProp "comments" (Val.arr [])
  addToStore StoreName.posts post db

/-- The method `updatePost(postId, updates)`. -/
def updatePost (postId : Key) (updates : Obj) (now : Int) (db : DB) : Except Err Val × DB :=
  match getFromStore StoreName.posts postId.toVal db with
  | Except.error e => (Except.error e, db)
  | Except.ok none => (Except.error (Err.Error "Post not found"), db)
  | Except.ok (some post) =>
    let updatedPost := (Obj.assign (Obj.assign [] post) updates).setProp "updatedAt" (Val.num now)
    updateInStore StoreName.posts postId.toVal updatedPost db

/-- The method `deletePost(postId)`. -/
def deletePost (postId : Key) (db : DB) : Except Err Unit × DB :=
  deleteFromStore StoreName.posts postId.toVal db

/-- The method `addComment(comment)`. -/
def addComment (comment : Obj) (now : Int) (db : DB) : Except Err Val × DB :=
  addToStore StoreName.comments ((Obj.assign [] comment).setProp "timestamp" (Val.num now)) db

/-- The method `getComments(postId)`. -/
def getComments (postId : Key) (db : DB) : Except Err (List Obj) :=
  getAllFromIndex StoreName.comments "post" postId db

/-- The method `getLike(postId, userEmail)`: the first like of the pair in store
order, or `undefined` (`none`). -/
def getLike (postId userEmail : Key) (db : DB) : Option Obj :=
  (getAllFromStore StoreName.likes db).find? fun like =>
    Val.strictEq (like.prop "postId") postId.toVal &&
      Val.strictEq (like.prop "userEmail") userEmail.toVal

/-- The method `toggleLike(postId, userEmail)`. -/
def toggleLike (postId userEmail : Key) (now : Int) (db : DB) : Except Err Bool × DB :=
  match getLike postId userEmail db with
  | some existingLike =>
    match deleteFromStore StoreName.likes (existingLike.prop "id") db with
    | (Except.ok _, db') => (Except.ok false, db')
    | (Except.error e, db') => (Except.error e, db')
  | none =>
    match addToStore StoreName.likes
        [("postId", postId.toVal), ("userEmail", userEmail.toVal), ("timestamp", Val.num now)]
        db with
    | (Except.ok _, db') => (Except.ok true, db')
    | (Except.error e, db') => (Except.error e, db')

/-- The method `getFollow(followerEmail, followingEmail)`. -/
def getFollow (followerEmail followingEmail : Key) (db : DB) : Option Obj :=
  (getAllFromStore StoreName.followers db).find? fun f =>
    Val.strictEq (f.prop "followerEmail") followerEmail.toVal &&
      Val.strictEq (f.prop "followingEmail") followingEmail.toVal

/-- The method `toggleFollow(followerEmail, followingEmail)`. -/
def toggleFollow (followerEmail followingEmail : Key) (now : Int) (db : DB) :
    Except Err Bool × DB :=
  match getFollow followerEmail followingEmail db with
  | some existingFollow =>
    match deleteFromStore StoreName.followers (existingFollow.prop "id") db with
    | (Except.ok _, db') => (Except.ok false, db')
    | (Except.error e, db') => (Except.error e, db')
  | none =>
    match addToStore StoreName.followers
        [("followerEmail", followerEmail.toVal), ("followingEmail", followingEmail.toVal),
          ("timestamp", Val.num now)]
        db with
    | (Except.ok _, db') => (Except.ok true, db')
    | (Except.error e, db') => (Except.error e, db')

/-- The method `getFollowers(userEmail)`. -/
def getFollowers (userEmail : Key) (db : DB) : Except Err (List Obj) :=
  getAllFromIndex StoreName.followers "following" userEmail db

/-- The method `getFollowing(userEmail)`. -/
def getFollowing (userEmail : Key) (db : DB) : Except Err (List Obj) :=
  getAllFromIndex StoreName.followers "follower" userEmail db

/-- The method `storeMedia(blob, ownerEmail)`; the blob is given by its MIME
type (`blob.type`) and its bytes (`blob.size` is their number). -/
def storeMedia (mime : String) (bytes : List Nat) (ownerEmail : Val) (now : Int) (db : DB) :
    Except Err Val × DB :=
  addToStore StoreName.media
    [("blob", Val.blob mime bytes), ("ownerEmail", ownerEmail), ("type", Val.str mime),
      ("size", Val.num bytes.length), ("timestamp", Val.num now)] db

/-- A stand-in for the digest, used to evaluate the operations on examples: 32
bytes that depend on the message. -/
def sampleDigest : List Nat → List Nat :=
  fun m => (List.range 32).map (fun i => (m.sum + i) % 256)

/-- A second stand-in for the digest, with the shape of a hash that never gives
back its message: 32 equal bytes, `0x11` for a message that starts with the
character `0` and `0x00` for any other, so that the hexadecimal notation of a
digest never starts like its message. -/
def flippedDigest : List Nat → List Nat :=
  fun m => List.replicate 32 (if m.head? = some 48 then 17 else 0)

/-- The digits of `b.toString(16)`. -/
def hexDigits : List Char := "0123456789abcdef".toList

/-- A database with one user, Ann, used to evaluate the operations on examples. -/
def sampleUsers : DB :=
  DB.empty.setStore StoreName.users
    ⟨[[("email", Val.str "a@x.com"), ("firstName", Val.str "Ann"),
      ("password", Val.str "h"), ("createdAt", Val.num 1), ("updatedAt", Val.num 1)]], 1⟩

/-! ## Invariants of the relationship stores -/

/-- Whether a like record belongs to the pair `(postId, userEmail)`: the test of
`getLike`. -/
def isLikeOf (postId userEmail : Key) (like : Obj) : Bool :=
  Val.strictEq (like.prop "postId") postId.toVal &&
    Val.strictEq (like.prop "userEmail") userEmail.toVal

/-- Whether a follow record belongs to the pair `(followerEmail, followingEmail)`:
the test of `getFollow`. -/
def isFollowOf (followerEmail followingEmail : Key) (f : Obj) : Bool :=
  Val.strictEq (f.prop "followerEmail") followerEmail.toVal &&
    Val.strictEq (f.prop "followingEmail") followingEmail.toVal

/-- At most one Like record per `(postId, userEmail)` pair. -/
def UniqueLikes (db : DB) : Prop :=
  ∀ p u : Key, (db.likes.records.filter (isLikeOf p u)).length ≤ 1

/-- At most one Follow record per `(followerEmail, followingEmail)` pair. -/
def UniqueFollows (db : DB) : Prop :=
  ∀ a b : Key, (db.followers.records.filter (isFollowOf a b)).length ≤ 1

/-- The invariant of the relationship stores: at most one Like per pair and at
most one Follow per pair. -/
def UniqueToggles (db : DB) : Prop := UniqueLikes db ∧ UniqueFollows db

/-- The invariant of a key generator that is still in use: every numeric key of
the store is below the current number of the generator. -/
def KeysBelowGen (n : StoreName) (db : DB) : Prop :=
  (db.store n).keyGen ≤ maxGeneratedKey →
    ∀ r ∈ (db.store n).records, ∀ m : Int,
      r.prop (schemaOf n).keyPath = Val.num m → m < (db.store n).keyGen

/-! ## The upgrade handler of `initDatabase` -/

/-- An object store of the database under upgrade: its name, its declaration
and its contents. -/
structure ObjectStore where
  name : String
  schema : Schema
  store : Store
  deriving DecidableEq

/-- The database that the upgrade transaction sees: its object stores, in the
order of their creation. -/
abbrev IDBDatabase := List ObjectStore

/-- The test `db.objectStoreNames.contains(name)`. -/
def objectStoreNamesContains (db : IDBDatabase) (name : String) : Bool :=
  db.any (fun s => s.name == name)

/-- The call `db.createObjectStore(name, { keyPath, autoIncrement })`: a new,
empty store without indexes; a name already in use is refused. -/
def createObjectStore (db : IDBDatabase) (name keyPath : String) (autoIncrement : Bool) :
    Except Err IDBDatabase :=
  if objectStoreNamesContains db name then Except.error Err.ConstraintError
  else Except.ok (db ++ [⟨name, ⟨keyPath, autoIncrement, []⟩, Store.empty⟩])

/-- The call `store.createIndex(indexName, keyPath, { unique })` on the store of
the name `storeName`: the index is added to the declaration of the store; an
index name already in use in the store is refused. -/
def createIndex (db : IDBDatabase) (storeName : String) (ix : IndexSpec) :
    Except Err IDBDatabase :=
  if !objectStoreNamesContains db storeName then Except.error Err.NotFoundError
  else if db.any (fun s => s.name == storeName && s.schema.indexes.any (fun i => i.name == ix.name))
  then Except.error Err.ConstraintError
  else Except.ok (db.map fun s =>
    if s.name = storeName then
      { s with schema := { s.schema with indexes := s.schema.indexes ++ [ix] } }
    else s)

/-- One block of the upgrade handler:
`if (!db.objectStoreNames.contains(name)) { const store = db.createObjectStore(name, ...);
store.createIndex(...); store.createIndex(...); }`. -/
def upgradeStore (db : IDBDatabase) (name keyPath : String) (autoIncrement : Bool)
    (ix₁ ix₂ : IndexSpec) : Except Err IDBDatabase :=
  if !objectStoreNamesContains db name then
    match createObjectStore db name keyPath autoIncrement with
    | Except.error e => Except.error e
    | Except.ok db₁ =>
      match createIndex db₁ name ix₁ with
      | Except.error e => Except.error e
      | Except.ok db₂ => createIndex db₂ name ix₂
  else Except.ok db

/-- The handler `request.onupgradeneeded` of `initDatabase`: its six blocks in
order.  An exception aborts the upgrade transaction. -/
def onupgradeneeded (db : IDBDatabase) : Except Err IDBDatabase := do
  let db ← upgradeStore db "users" "email" false
    ⟨"name", ["firstName", "lastName"], false⟩ ⟨"email", ["email"], true⟩
  let db ← upgradeStore db "posts" "id" true
    ⟨"author", ["authorEmail"], false⟩ ⟨"timestamp", ["timestamp"], false⟩
  let db ← upgradeStore db "media" "id" true
    ⟨"owner", ["ownerEmail"], false⟩ ⟨"type", ["type"], false⟩
  let db ← upgradeStore db "comments" "id" true
    ⟨"post", ["postId"], false⟩ ⟨"author", ["authorEmail"], false⟩
  let db ← upgradeStore db "likes" "id" true
    ⟨"post", ["postId"], false⟩ ⟨"user", ["userEmail"], false⟩
  upgradeStore db "followers" "id" true
    ⟨"follower", ["followerEmail"], false⟩ ⟨"following", ["followingEmail"], false⟩

/-- The name under which a store of `StoreName` is created. -/
def StoreName.name : StoreName → String
  | StoreName.users => "users"
  | StoreName.posts => "posts"
  | StoreName.media => "media"
  | StoreName.comments => "comments"
  | StoreName.likes => "likes"
  | StoreName.followers => "followers"

/-- The six stores of the handler as it creates them: empty, with the
declaration of `schemaOf`. -/
def declaredStores : List ObjectStore :=
  [StoreName.users, StoreName.posts, StoreName.media, StoreName.comments, StoreName.likes,
    StoreName.followers].map fun n => ⟨n.name, schemaOf n, Store.empty⟩

/-- A database extended by those of the given stores whose name it lacks. -/
def addMissing (db : IDBDatabase) (decl : List ObjectStore) : IDBDatabase :=
  decl.foldl (fun d s => if objectStoreNamesContains d s.name then d else d ++ [s]) db

/-! ## The service worker (`src/service-worker.js`) -/

/-- A request as the worker and the caches see it; `url` is the URL without
its fragment and `method` the normalised method name. -/
structure Request where
  url : String
  method : String
  headers : List (String × String)
  body : String
  deriving DecidableEq

/-- The `type` of a response. -/
inductive ResponseType where
  | basic | cors | error | opaqueType | opaqueRedirect
  deriving DecidableEq

/-- A response; responses carry no `Vary` header in this model. -/
structure Response where
  status : Nat
  type : ResponseType
  body : String
  deriving DecidableEq

/-- A cache: its entries, request and response, in insertion order. -/
abbrev Cache := List (Request × Response)

/-- The cache storage `caches`: the named caches in the order of their creation. -/
abbrev CacheStorage := List (String × Cache)

/-- The constant `CACHE_NAME` of this version of the script. -/
def CACHE_NAME : String := "moji-code-v1"

/-- The call `s.startsWith(start)`. -/
def startsWith (s start : String) : Bool := start.toList.isPrefixOf s.toList

/-- The call `s.includes(part)`. -/
def includes (s part : String) : Bool := s.toList.tails.any (fun t => part.toList.isPrefixOf t)

/-- The call `cache.match(request)`: the response of the first entry with the
URL of the request; only a `GET` request matches an entry. -/
def cacheMatch (cache : Cache) (request : Request) : Option Response :=
  if request.method = "GET" then
    (cache.find? (fun e => e.1.url == request.url)).map (fun e => e.2)
  else none

/-- The call `caches.match(request)`: the first match over the caches in the
order of their creation, `undefined` (`none`) when no cache has one. -/
def cachesMatch (caches : CacheStorage) (request : Request) : Option Response :=
  caches.findSome? (fun c => cacheMatch c.2 request)

/-- The call `caches.keys()`. -/
def cachesKeys (caches : CacheStorage) : List String := caches.map (fun c => c.1)

/-- The call `caches.delete(cacheName)`. -/
def cachesDelete (caches : CacheStorage) (cacheName : String) : CacheStorage :=
  caches.filter (fun c => c.1 != cacheName)

/-- The call `caches.open(cacheName)`, as far as the storage goes: a cache of
that name is created, empty, when there is none. -/
def cachesOpen (caches : CacheStorage) (cacheName : String) : CacheStorage :=
  if caches.any (fun c => c.1 == cacheName) then caches else caches ++ [(cacheName, [])]

/-- The call `cache.put(request, response)`: the entries of the same URL are
replaced by the new entry.  The promise is rejected (`none`) for a request
whose method is not `GET` and for a response of status 206. -/
def cachePut (cache : Cache) (request : Request) (response : Response) : Option Cache :=
  if request.method ≠ "GET" then none
  else if response.status = 206 then none
  else some (cache.filter (fun e => e.1.url != request.url) ++ [(request, response)])

/-- The chain `caches.open(cacheName).then((cache) => { cache.put(request, response); })`:
nothing waits for the `put` and a rejection of it is dropped, the cache then
staying as it was. -/
def openAndPut (caches : CacheStorage) (cacheName : String) (request : Request)
    (response : Response) : CacheStorage :=
  (cachesOpen caches cacheName).map fun c =>
    if c.1 = cacheName then (c.1, (cachePut c.2 request response).getD c.2) else c

/-- The `activate` listener, as far as the caches go: every cache whose name is
not `cacheName` (the constant `CACHE_NAME` of the script) is deleted.  The
deletions of `Promise.all` are separate requests; they are applied in the order
of `caches.keys()`. -/
def onActivate (cacheName : String) (caches : CacheStorage) : CacheStorage :=
  (cachesKeys caches).foldl
    (fun cs name => if name ≠ cacheName then cachesDelete cs name else cs) caches

/-- What the page gets for a request that passed through the `fetch` listener. -/
inductive Responded where
  /-- The listener returned without `respondWith`: the browser handles the request. -/
  | notIntercepted
  /-- The promise given to `respondWith` resolved with a response. -/
  | response (r : Response)
  /-- The promise was rejected or resolved with `undefined`: a network error. -/
  | networkError
  deriving DecidableEq

/-- The outcome of the `fetch` listener on one request: what the page gets, the
network fetches that were issued, and the cache storage once the promises of
the listener have settled. -/
structure FetchOutcome where
  responded : Responded
  fetched : List Request
  caches : CacheStorage
  deriving DecidableEq

/-- The promise that the `fetch` listener gives to `respondWith` for a static
asset.  `fetch` is the network: `none` when the fetch fails. -/
def respondStatic (cacheName : String) (fetch : Request → Option Response) (request : Request)
    (caches : CacheStorage) : FetchOutcome :=
  match cachesMatch caches request with
  | some response => ⟨Responded.response response, [], caches⟩
  | none =>
    match fetch request with
    | none => ⟨Responded.networkError, [request], caches⟩
    | some response =>
      if response.status ≠ 200 ∨ response.type ≠ ResponseType.basic then
        ⟨Responded.response response, [request], caches⟩
      else
        ⟨Responded.response response, [request], openAndPut caches cacheName request response⟩

/-- The `fetch` listener.  `origin` is `self.location.origin`, `cacheName` the
constant `CACHE_NAME`, and `handleApiRequest` the function of that name, to
which the requests with `/api/` in their URL go. -/
def onFetch (origin cacheName : String) (fetch : Request → Option Response)
    (handleApiRequest : Request → CacheStorage → FetchOutcome) (request : Request)
    (caches : CacheStorage) : FetchOutcome :=
  if !startsWith request.url origin then ⟨Responded.notIntercepted, [], caches⟩
  else if includes request.url "/api/" then handleApiRequest request caches
  else respondStatic cacheName fetch request caches

/-! ## The two steps of `toggleLike` -/

/-- The part of `toggleLike` that runs after `await this.getLike(postId, userEmail)`
resolved with `existingLike`: the write that the check decides.  Other
operations may run between the check and this write. -/
def toggleLikeWrite (postId userEmail : Key) (now : Int) (existingLike : Option Obj) (db : DB) :
    Except Err Bool × DB :=
  match existingLike with
  | some existingLike =>
    match deleteFromStore StoreName.likes (existingLike.prop "id") db with
    | (Except.ok _, db') => (Except.ok false, db')
    | (Except.error e, db') => (Except.error e, db')
  | none =>
    match addToStore StoreName.likes
        [("postId", postId.toVal), ("userEmail", userEmail.toVal), ("timestamp", Val.num now)]
        db with
    | (Except.ok _, db') => (Except.ok true, db')
    | (Except.error e, db') => (Except.error e, db')

/-- The invariant of an object store: every record has a key, and no two
records have the same key. -/
def KeysUnique (n : StoreName) (db : DB) : Prop :=
  (∀ r ∈ (db.store n).records, (schemaOf n).keyOf r ≠ none) ∧
    (db.store n).records.Pairwise (fun a b => (schemaOf n).keyOf a ≠ (schemaOf n).keyOf b)

/-! ## The service worker: API requests and background sync -/

/-- Modelled from the spec: `saveRequestForSync(request)`, which `handleApiRequest`
calls and the sources do not define.  The spec: a failed request "is serialized
(method, URL, headers, body) and persisted to a durable pending-request list";
the list is kept "in the order they were queued". -/
def saveRequestForSync (request : Request) (pending : List Request) : List Request :=
  pending ++ [request]

/-- Modelled from the spec: `getPendingRequests()`, which the `sync` listener
calls and the sources do not define.  The spec: the engine "reads all pending
requests in the order they were queued". -/
def getPendingRequests (pending : List Request) : List Request := pending

/-- The outcome of `handleApiRequest` on one request: what the page gets, the
network fetches issued, the `caches.match` lookups issued, the cache storage
and the pending-request list afterwards. -/
structure ApiOutcome where
  responded : Responded
  fetched : List Request
  matched : List Request
  caches : CacheStorage
  pending : List Request
  deriving DecidableEq

/-- The part of an outcome that the `fetch` listener passes on. -/
def ApiOutcome.toFetchOutcome (o : ApiOutcome) : FetchOutcome :=
  ⟨o.responded, o.fetched, o.caches⟩

/-- The function `handleApiRequest(event)`.  `syncSupported` is the test
`'sync' in self.registration`, `fetch` the network (`none` when the fetch
fails) and `save` the function `saveRequestForSync`, which acts on the
pending-request list. -/
def handleApiRequest (syncSupported : Bool) (fetch : Request → Option Response)
    (save : Request → List Request → List Request) (request : Request)
    (caches : CacheStorage) (pending : List Request) : ApiOutcome :=
  if syncSupported then
    match fetch request with
    | some response => ⟨Responded.response response, [request], [], caches, pending⟩
    | none =>
      match cachesMatch caches request with
      | some cached => ⟨Responded.response cached, [request], [request], caches, save request pending⟩
      | none => ⟨Responded.networkError, [request], [request], caches, save request pending⟩
  else ⟨Responded.notIntercepted, [], [], caches, pending⟩

/-- The outcome of the `sync` listener: the requests re-issued, in order, what
the network answered to each, and the pending-request list afterwards. -/
structure SyncOutcome where
  fetched : List Request
  responses : List (Option Response)
  pending : List Request
  deriving DecidableEq

/-- The `sync` listener.  `getPending` is the function `getPendingRequests`,
which reads the pending-request list.  The responses of the fetches are not
looked at, and the listener does nothing to the list. -/
def onSync (tag : String) (fetch : Request → Option Response)
    (getPending : List Request → List Request) (pending : List Request) : SyncOutcome :=
  if tag = "sync-posts" then
    ⟨getPending pending, (getPending pending).map fetch, pending⟩
  else ⟨[], [], pending⟩

/-! ## `sanitizeInput` of `src/client/js/ai-assistant.js` -/

/-- A word character, `\w`. -/
def isWordChar (c : Char) : Bool := c.isAlphanum || c == '_'

/-- Whether the text starts with the word `w`, given in lower case, whatever
the case of its ASCII letters: a literal of a pattern with the flag `i`. -/
def startsWithNoCase (w text : List Char) : Bool :=
  w.isPrefixOf ((text.take w.length).map Char.toLower)

/-- The position of the first occurrence of `w`, letter case ignored. -/
def findNoCase (w : List Char) : List Char → Option Nat
  | [] => none
  | c :: cs =>
    if startsWithNoCase w (c :: cs) then some 0 else (findNoCase w cs).map (fun i => i + 1)

/-- The length of the match of the pattern
`<script\b[^<]*(?:(?!<\/script>)<[^<]*)*<\/script>` at the start of the text:
`<script`, a word boundary, and everything up to and with the first `</script>`. -/
def matchScript (text : List Char) : Option Nat :=
  if startsWithNoCase "<script".toList text &&
      (match (text.drop 7).head? with
        | none => true
        | some c => !isWordChar c) then
    match findNoCase "</script>".toList (text.drop 7) with
    | some i => some (7 + i + 9)
    | none => none
  else none

/-- The length of the match of the pattern `javascript:` at the start of the text. -/
def matchJavascript (text : List Char) : Option Nat :=
  if startsWithNoCase "javascript:".toList text then some 11 else none

/-- The length of the match of the pattern `on\w+=` at the start of the text:
`on`, the whole run of word characters that follows (not empty), and `=`. -/
def matchOnHandler (text : List Char) : Option Nat :=
  if startsWithNoCase "on".toList text then
    if 1 ≤ ((text.drop 2).takeWhile isWordChar).length ∧
        (text.drop (2 + ((text.drop 2).takeWhile isWordChar).length)).head? = some '=' then
      some (2 + ((text.drop 2).takeWhile isWordChar).length + 1)
    else none
  else none

/-- The call `text.replace(pattern, '')` for a pattern with the flag `g`: the
matches are found from left to right, each search starting where the match
before it ended, and the text is not scanned again.  The first argument counts
the characters of the current match still to be dropped. -/
def removeMatches (matchAt : List Char → Option Nat) : Nat → List Char → List Char
  | _, [] => []
  | skip + 1, _ :: cs => removeMatches matchAt skip cs
  | 0, c :: cs =>
    match matchAt (c :: cs) with
    | some (n + 1) => removeMatches matchAt n cs
    | _ => c :: removeMatches matchAt 0 cs

/-- White space and line terminators, the characters that `trim` removes. -/
def isJsSpace (c : Char) : Bool :=
  c.toNat ∈ [0x9, 0xA, 0xB, 0xC, 0xD, 0x20, 0xA0, 0x1680, 0x2000, 0x2001, 0x2002, 0x2003, 0x2004,
    0x2005, 0x2006, 0x2007, 0x2008, 0x2009, 0x200A, 0x2028, 0x2029, 0x202F, 0x205F, 0x3000,
    0xFEFF]

/-- The call `s.trim()`. -/
def trim (s : List Char) : List Char :=
  ((s.dropWhile isJsSpace).reverse.dropWhile isJsSpace).reverse

/-- The method `sanitizeInput(input)` for a string `input`. -/
def sanitizeInput (input : String) : String :=
  String.mk (trim (removeMatches matchOnHandler 0
    (removeMatches matchJavascript 0 (removeMatches matchScript 0 input.toList))))

/-! ## The history of `MediaEditor` (`src/client/js/media-editor.js`) -/

/-- The state of the editor that the history acts on: the content
`editorContent.innerHTML` and the two stacks, their top at the end of the list. -/
structure Editor where
  innerHTML : String
  undoStack : List String
  redoStack : List String
  deriving DecidableEq

/-- The method `saveToHistory()`. -/
def saveToHistory (e : Editor) : Editor :=
  { e with
    undoStack :=
      if (e.undoStack ++ [e.innerHTML]).length > 100 then (e.undoStack ++ [e.innerHTML]).tail
      else e.undoStack ++ [e.innerHTML],
    redoStack := [] }

/-- The method `undo()`; a stack has a last entry exactly when it is not empty. -/
def undo (e : Editor) : Editor :=
  match e.undoStack.getLast? with
  | some previous =>
    { innerHTML := previous, undoStack := e.undoStack.dropLast,
      redoStack := e.redoStack ++ [e.innerHTML] }
  | none => e

/-- The method `redo()`. -/
def redo (e : Editor) : Editor :=
  match e.redoStack.getLast? with
  | some next =>
    { innerHTML := next, undoStack := e.undoStack ++ [e.innerHTML],
      redoStack := e.redoStack.dropLast }
  | none => e

/-- The method `executeCommand(command)`, as far as the content and the history
go.  The commands other than `undo` and `redo` act on the document; `dom` is
their effect on the content. -/
def executeCommand (dom : String → String → String) (command : String) (e : Editor) : Editor :=
  if command = "undo" then undo (saveToHistory e)
  else if command = "redo" then redo (saveToHistory e)
  else { saveToHistory e with innerHTML := dom command (saveToHistory e).innerHTML }

/-- The effect of an insertion under a generated key, from the state `db` to the
state `db'`: the key `key` is a number that is the key of no record of the
store before; the store holds its old records, in their order, and one new
record under that key; the other stores are as they were. -/
def InsertedFresh (n : StoreName) (db db' : DB) (key : Val) : Prop :=
  ∃ (g : Nat) (r : Obj), key = Val.num g ∧ r.prop (schemaOf n).keyPath = Val.num g ∧
    (∀ x ∈ (db.store n).records, x.prop (schemaOf n).keyPath ≠ Val.num g) ∧
    (∀ x, x ∈ (db'.store n).records ↔ x = r ∨ x ∈ (db.store n).records) ∧
    (db.store n).records.Sublist (db'.store n).records ∧
    ∀ m, m ≠ n → db'.store m = db.store m

/-! ## Lemmas on values and records -/

@[simp] theorem Key.toKey?_toVal (k : Key) : k.toVal.toKey? = some k := by
  cases k <;> rfl

theorem Val.toKey?_eq_some {v : Val} {k : Key} (h : v.toKey? = some k) : v = k.toVal := by
  cases v <;> simp [Val.toKey?] at h <;> subst h <;> rfl

theorem Key.toVal_injective {a b : Key} (h : a.toVal = b.toVal) : a = b := by
  have := congrArg Val.toKey? h
  simpa using this

@[simp] theorem Key.toVal_ne_undef (k : Key) : k.toVal ≠ Val.undef := by
  cases k <;> simp [Key.toVal]

/-- On a key, `===` is equality. -/
theorem Val.strictEq_toVal (v : Val) (k : Key) :
    Val.strictEq v k.toVal = true ↔ v = k.toVal := by
  cases v <;> cases k <;> simp [Val.strictEq, Key.toVal]

namespace Obj

theorem lookup?_append (a b : Obj) (k : String) :
    lookup? (a ++ b) k = (lookup? b k).orElse (fun _ => lookup? a k) := by
  induction a with
  | nil => cases h : lookup? b k <;> simp [lookup?, h]
  | cons kv a ih =>
    obtain ⟨k', v⟩ := kv
    have ih' : lookup? (a ++ b) k = (lookup? b k).orElse (fun _ => lookup? a k) := ih
    show lookup? ((k', v) :: (a ++ b)) k = _
    simp only [lookup?, ih']
    cases hb : lookup? b k <;> simp

theorem lookup?_eq_none_iff (o : Obj) (k : String) :
    lookup? o k = none ↔ o.any (fun kv => kv.1 == k) = false := by
  induction o with
  | nil => simp [lookup?]
  | cons kv o ih =>
    obtain ⟨k', v⟩ := kv
    simp only [lookup?, List.any_cons, Bool.or_eq_false_iff, beq_eq_false_iff_ne, ne_eq]
    cases h : lookup? o k with
    | some w =>
      have : ¬ (o.any (fun kv => kv.1 == k) = false) := fun h' => by simp [ih.2 h'] at h
      simp [this]
    | none =>
      have := ih.1 h
      by_cases hk : k' = k <;> simp [hk, this]

theorem lookup?_map_set (o : Obj) (k k' : String) (v : Val) :
    lookup? (o.map (fun kv => (kv.1, if kv.1 = k then v else kv.2))) k' =
      if k' = k then (if o.any (fun kv => kv.1 == k) then some v else none) else lookup? o k' := by
  induction o with
  | nil => simp [lookup?]
  | cons kv o ih =>
    obtain ⟨k₀, v₀⟩ := kv
    by_cases h0 : k₀ = k
    · subst h0
      simp only [List.map_cons, if_true, lookup?, ih, List.any_cons, beq_self_eq_true,
        Bool.true_or]
      by_cases hk : k' = k₀
      · subst hk
        cases ha : o.any (fun kv => kv.1 == k') <;> simp
      · have : ¬ k₀ = k' := fun e => hk e.symm
        simp [hk, this]
    · have hb : (k₀ == k) = false := by simp [h0]
      simp only [List.map_cons, h0, if_false, lookup?, ih, List.any_cons, hb, Bool.false_or]
      by_cases hk : k' = k
      · subst hk
        cases ha : o.any (fun kv => kv.1 == k') <;> simp [h0]
      · simp [hk]

theorem lookup?_setProp (o : Obj) (k k' : String) (v : Val) :
    lookup? (setProp o k v) k' = if k' = k then some v else lookup? o k' := by
  unfold setProp
  cases ha : o.any (fun kv => kv.1 == k)
  · simp only [Bool.false_eq_true, if_false, lookup?_append]
    by_cases hk : k' = k
    · subst hk; simp [lookup?]
    · have : ¬ k = k' := fun e => hk e.symm
      simp [lookup?, hk, this]
  · simp [lookup?_map_set, ha]

@[simp] theorem prop_setProp (o : Obj) (k k' : String) (v : Val) :
    prop (setProp o k v) k' = if k' = k then v else prop o k' := by
  unfold prop
  rw [lookup?_setProp]
  split <;> simp

@[simp] theorem hasProp_setProp (o : Obj) (k k' : String) (v : Val) :
    hasProp (setProp o k v) k' = if k' = k then true else hasProp o k' := by
  unfold hasProp
  rw [lookup?_setProp]
  split <;> simp

theorem lookup?_assign (t s : Obj) (k : String) :
    lookup? (assign t s) k = (lookup? s k).orElse (fun _ => lookup? t k) := by
  unfold assign
  induction s generalizing t with
  | nil => simp [lookup?]
  | cons kv s ih =>
    obtain ⟨k₀, v₀⟩ := kv
    simp only [List.foldl_cons, ih, lookup?, lookup?_setProp]
    cases hs : lookup? s k with
    | some w => simp
    | none =>
      by_cases hk : k = k₀
      · subst hk; simp
      · have : ¬ k₀ = k := fun e => hk e.symm
        simp [hk, this]

theorem prop_assign (t s : Obj) (k : String) :
    prop (assign t s) k = if hasProp s k then prop s k else prop t k := by
  unfold prop hasProp
  rw [lookup?_assign]
  cases lookup? s k <;> simp

theorem hasProp_assign (t s : Obj) (k : String) :
    hasProp (assign t s) k = (hasProp s k || hasProp t k) := by
  unfold hasProp
  rw [lookup?_assign]
  cases lookup? s k <;> simp

@[simp] theorem prop_assign_nil (s : Obj) (k : String) : prop (assign [] s) k = prop s k := by
  rw [prop_assign]
  unfold prop hasProp
  cases lookup? s k <;> simp [lookup?]

theorem lookup?_deleteProp (o : Obj) (k k' : String) :
    lookup? (deleteProp o k) k' = if k' = k then none else lookup? o k' := by
  unfold deleteProp
  induction o with
  | nil => simp [lookup?]
  | cons kv o ih =>
    obtain ⟨k₀, v₀⟩ := kv
    by_cases h0 : k₀ = k
    · subst h0
      simp only [List.filter_cons, bne_self_eq_false, Bool.false_eq_true, if_false, ih, lookup?]
      by_cases hk : k' = k₀
      · simp [hk]
      · have : ¬ k₀ = k' := fun e => hk e.symm
        simp [hk, this]
        cases lookup? o k' <;> rfl
    · have hb : (k₀ != k) = true := by simp [h0]
      simp only [List.filter_cons, hb, if_true, lookup?, ih]
      by_cases hk : k' = k
      · subst hk; simp [h0]
      · simp [hk]

end Obj

/-! ## Lemmas on the object stores -/

namespace Store

theorem insertByKey_split (sch : Schema) (k : Key) (v : Obj) (rs : List Obj) :
    ∃ l₁ l₂, rs = l₁ ++ l₂ ∧ insertByKey sch k v rs = l₁ ++ v :: l₂ := by
  induction rs with
  | nil => exact ⟨[], [], rfl, rfl⟩
  | cons r rs ih =>
    unfold insertByKey
    split
    · exact ⟨[], r :: rs, rfl, rfl⟩
    · obtain ⟨l₁, l₂, h₁, h₂⟩ := ih
      exact ⟨r :: l₁, l₂, by simp [h₁], by simp [h₂]⟩

theorem mem_insertByKey (sch : Schema) (k : Key) (v : Obj) (rs : List Obj) (r : Obj) :
    r ∈ insertByKey sch k v rs ↔ r = v ∨ r ∈ rs := by
  obtain ⟨l₁, l₂, h₁, h₂⟩ := insertByKey_split sch k v rs
  rw [h₂, h₁]
  simp only [List.mem_append, List.mem_cons]
  tauto

theorem filter_insertByKey (sch : Schema) (k : Key) (v : Obj) (rs : List Obj)
    (p : Obj → Bool) :
    ((insertByKey sch k v rs).filter p).length =
      (rs.filter p).length + (if p v then 1 else 0) := by
  obtain ⟨l₁, l₂, h₁, h₂⟩ := insertByKey_split sch k v rs
  rw [h₂, h₁]
  cases hp : p v
  · simp [List.filter_cons, hp]
  · simp [List.filter_cons, hp]; omega

theorem filter_insertByKey_of_false (sch : Schema) (k : Key) (v : Obj) (rs : List Obj)
    (p : Obj → Bool) (hv : p v = false) :
    (insertByKey sch k v rs).filter p = rs.filter p := by
  obtain ⟨l₁, l₂, h₁, h₂⟩ := insertByKey_split sch k v rs
  rw [h₂, h₁]
  simp [List.filter_cons, hv]

theorem find?_insertByKey_of_false (sch : Schema) (k : Key) (v : Obj) (rs : List Obj)
    (p : Obj → Bool) (hv : p v = false) :
    (insertByKey sch k v rs).find? p = rs.find? p := by
  induction rs with
  | nil => simp [insertByKey, hv]
  | cons r rs ih =>
    unfold insertByKey
    split
    · simp [List.find?_cons, hv]
    · simp only [List.find?_cons, ih]

theorem find?_insertByKey_of_new (sch : Schema) (k : Key) (v : Obj) (rs : List Obj)
    (p : Obj → Bool) (hv : p v = true) (hrs : ∀ r ∈ rs, p r = false) :
    (insertByKey sch k v rs).find? p = some v := by
  induction rs with
  | nil => simp [insertByKey, hv]
  | cons r rs ih =>
    have hr : p r = false := hrs r (List.mem_cons_self _ _)
    unfold insertByKey
    split
    · simp [List.find?_cons, hv]
    · simp only [List.find?_cons, hr]
      exact ih (fun x hx => hrs x (List.mem_cons_of_mem _ hx))

theorem find?_replaceByKey_same (sch : Schema) (k : Key) (v : Obj) (rs : List Obj)
    (hv : sch.keyOf v = some k) (hex : rs.any (fun r => sch.keyOf r == some k) = true) :
    (replaceByKey sch k v rs).find? (fun r => sch.keyOf r == some k) = some v := by
  induction rs with
  | nil => simp at hex
  | cons r rs ih =>
    unfold replaceByKey
    by_cases hr : sch.keyOf r = some k
    · simp [hr, List.find?_cons, hv]
    · have hex' : rs.any (fun r => sch.keyOf r == some k) = true := by
        simpa [List.any_cons, hr] using hex
      simp [hr, List.find?_cons, ih hex']

theorem find?_replaceByKey_other (sch : Schema) (k k' : Key) (v : Obj) (rs : List Obj)
    (hv : sch.keyOf v = some k) (hk : k' ≠ k) :
    (replaceByKey sch k v rs).find? (fun r => sch.keyOf r == some k') =
      rs.find? (fun r => sch.keyOf r == some k') := by
  have hk₂ : ¬ k = k' := fun e => hk e.symm
  induction rs with
  | nil => rfl
  | cons r rs ih =>
    unfold replaceByKey
    by_cases hr : sch.keyOf r = some k
    · simp [hr, List.find?_cons, hv, hk₂]
    · simp only [hr, if_false, List.find?_cons, ih]

end Store

theorem Schema.keyOf_eq_some_iff (sch : Schema) (r : Obj) (k : Key) :
    sch.keyOf r = some k ↔ r.prop sch.keyPath = k.toVal := by
  unfold Schema.keyOf
  constructor
  · exact Val.toKey?_eq_some
  · intro h; rw [h]; simp

namespace Store

theorem any_key_eq_false_iff (sch : Schema) (rs : List Obj) (k : Key) :
    rs.any (fun r => sch.keyOf r == some k) = false ↔
      ∀ r ∈ rs, r.prop sch.keyPath ≠ k.toVal := by
  simp only [List.any_eq_false, beq_iff_eq, Schema.keyOf_eq_some_iff, ne_eq]

theorem get_eq_none_iff (sch : Schema) (s : Store) (k : Key) :
    s.get sch k = none ↔ ∀ r ∈ s.records, r.prop sch.keyPath ≠ k.toVal := by
  unfold get
  simp only [List.find?_eq_none, beq_iff_eq, Schema.keyOf_eq_some_iff, ne_eq]

theorem get_eq_some_prop (sch : Schema) (s : Store) (k : Key) (r : Obj)
    (h : s.get sch k = some r) : r ∈ s.records ∧ r.prop sch.keyPath = k.toVal := by
  unfold get at h
  refine ⟨List.mem_of_find?_eq_some h, ?_⟩
  have := List.find?_some h
  simpa [Schema.keyOf_eq_some_iff] using this

theorem resolveKey_of_key (sch : Schema) (s : Store) (value : Obj) (k : Key)
    (h : value.prop sch.keyPath = k.toVal) :
    resolveKey sch s value =
      Except.ok (k, value, if sch.autoIncrement then bumpKeyGen s.keyGen k else s.keyGen) := by
  unfold resolveKey
  simp [h]

theorem resolveKey_generate (sch : Schema) (s : Store) (value : Obj)
    (h : value.prop sch.keyPath = Val.undef) (ha : sch.autoIncrement = true)
    (hg : s.keyGen ≤ maxGeneratedKey) :
    resolveKey sch s value =
      Except.ok (Key.num s.keyGen, value.setProp sch.keyPath (Val.num s.keyGen), s.keyGen + 1) := by
  unfold resolveKey
  have : ¬ s.keyGen > maxGeneratedKey := by omega
  simp [h, ha, this]

end Store

/-- No store of the database can reject a record for a unique index: the only
unique index, `email` on `users`, has the key path of its store. -/
theorem violatesUnique_schemaOf (n : StoreName) (s : Store) (k : Key) (v : Obj)
    (h : (schemaOf n).keyOf v = some k) : Store.violatesUnique (schemaOf n) s k v = false := by
  cases n <;> simp [Store.violatesUnique, schemaOf]
  have h' : (v.prop "email").toKey? = some k := h
  simp only [IndexSpec.keyOf, h']
  rw [List.any_eq_false]
  intro r _
  show ¬ ((((r.prop "email").toKey? != some k) && ((r.prop "email").toKey? == some k)) = true)
  by_cases hk : (r.prop "email").toKey? = some k <;> simp [hk]

/-- The outcome of `addToStore` for a record that carries its key, when the key
is already in the store. -/
theorem addToStore_of_present (n : StoreName) (data : Obj) (db : DB) (k : Key)
    (hk : data.prop (schemaOf n).keyPath = k.toVal) (r : Obj)
    (hr : r ∈ (db.store n).records) (hrk : r.prop (schemaOf n).keyPath = k.toVal) :
    addToStore n data db = (Except.error Err.ConstraintError, db) := by
  have hany : (db.store n).records.any (fun r => (schemaOf n).keyOf r == some k) = true := by
    rw [List.any_eq_true]
    exact ⟨r, hr, by simpa using (Schema.keyOf_eq_some_iff _ r k).2 hrk⟩
  unfold addToStore Store.add
  rw [Store.resolveKey_of_key _ _ _ k hk]
  simp [hany]

/-- The outcome of `addToStore` for a record that carries its key, when the key
is not yet in the store. -/
theorem addToStore_of_absent (n : StoreName) (data : Obj) (db : DB) (k : Key)
    (hk : data.prop (schemaOf n).keyPath = k.toVal)
    (hnew : ∀ r ∈ (db.store n).records, r.prop (schemaOf n).keyPath ≠ k.toVal) :
    addToStore n data db =
      (Except.ok k.toVal, db.setStore n
        { records := Store.insertByKey (schemaOf n) k data (db.store n).records,
          keyGen := if (schemaOf n).autoIncrement then
            Store.bumpKeyGen (db.store n).keyGen k else (db.store n).keyGen }) := by
  have hany := (Store.any_key_eq_false_iff (schemaOf n) _ k).2 hnew
  have hu := violatesUnique_schemaOf n (db.store n) k data
    ((Schema.keyOf_eq_some_iff _ data k).2 hk)
  unfold addToStore Store.add
  rw [Store.resolveKey_of_key _ _ _ k hk]
  simp [hany, hu]

/-- The outcome of `addToStore` on an auto-increment store for a record without
a key: the key generator supplies the key and writes it into the record. -/
theorem addToStore_generate (n : StoreName) (data : Obj) (db : DB)
    (ha : (schemaOf n).autoIncrement = true)
    (hk : data.prop (schemaOf n).keyPath = Val.undef)
    (hg : (db.store n).keyGen ≤ maxGeneratedKey)
    (hnew : ∀ r ∈ (db.store n).records,
      r.prop (schemaOf n).keyPath ≠ Val.num (db.store n).keyGen) :
    addToStore n data db =
      (Except.ok (Val.num (db.store n).keyGen), db.setStore n
        { records := Store.insertByKey (schemaOf n) (Key.num (db.store n).keyGen)
            (data.setProp (schemaOf n).keyPath (Val.num (db.store n).keyGen)) (db.store n).records,
          keyGen := (db.store n).keyGen + 1 }) := by
  have hany := (Store.any_key_eq_false_iff (schemaOf n) _ (Key.num (db.store n).keyGen)).2 hnew
  have hu := violatesUnique_schemaOf n (db.store n) (Key.num (db.store n).keyGen)
    (data.setProp (schemaOf n).keyPath (Val.num (db.store n).keyGen))
    ((Schema.keyOf_eq_some_iff _ _ _).2 (by simp [Key.toVal]))
  unfold addToStore Store.add
  rw [Store.resolveKey_generate _ _ _ hk ha hg]
  simp [hany, hu, Key.toVal]

@[simp] theorem DB.store_setStore_same (db : DB) (n : StoreName) (s : Store) :
    (db.setStore n s).store n = s := by
  cases n <;> rfl

theorem DB.store_setStore_other (db : DB) (n m : StoreName) (s : Store) (h : m ≠ n) :
    (db.setStore n s).store m = db.store m := by
  cases n <;> cases m <;> first | rfl | exact absurd rfl h

theorem DB.setStore_store (db : DB) (n : StoreName) : db.setStore n (db.store n) = db := by
  cases n <;> rfl

theorem Store.find?_filter_key_other (sch : Schema) (k k' : Key) (hk : k' ≠ k)
    (rs : List Obj) :
    (rs.filter (fun r => sch.keyOf r != some k)).find? (fun r => sch.keyOf r == some k') =
      rs.find? (fun r => sch.keyOf r == some k') := by
  induction rs with
  | nil => rfl
  | cons r rs ih =>
    by_cases h₂ : sch.keyOf r = some k'
    · have hb₁ : (sch.keyOf r != some k) = true := by
        rw [h₂]; simpa using hk
      have hb₂ : (sch.keyOf r == some k') = true := by simpa using h₂
      simp only [List.filter_cons, hb₁, if_true, List.find?_cons, hb₂]
    · have hb₂ : (sch.keyOf r == some k') = false := by simpa using h₂
      by_cases h₁ : sch.keyOf r = some k
      · have hb₁ : (sch.keyOf r != some k) = false := by simp [h₁]
        simp only [List.filter_cons, hb₁, Bool.false_eq_true, if_false, List.find?_cons, hb₂, ih]
      · have hb₁ : (sch.keyOf r != some k) = true := by simpa using h₁
        simp only [List.filter_cons, hb₁, if_true, List.find?_cons, hb₂, ih]

theorem getFromStore_toVal (n : StoreName) (k : Key) (db : DB) :
    getFromStore n k.toVal db = Except.ok ((db.store n).get (schemaOf n) k) := by
  simp [getFromStore]

/-- A record just inserted under a new key is the one a `get` of that key returns. -/
theorem getFromStore_insert_same (n : StoreName) (db : DB) (k : Key) (v : Obj) (g : Nat)
    (hv : v.prop (schemaOf n).keyPath = k.toVal)
    (hnew : ∀ r ∈ (db.store n).records, r.prop (schemaOf n).keyPath ≠ k.toVal) :
    getFromStore n k.toVal (db.setStore n
        { records := Store.insertByKey (schemaOf n) k v (db.store n).records, keyGen := g }) =
      Except.ok (some v) := by
  rw [getFromStore_toVal, DB.store_setStore_same]
  unfold Store.get
  rw [Store.find?_insertByKey_of_new]
  · simpa using (Schema.keyOf_eq_some_iff _ v k).2 hv
  · intro r hr
    have := hnew r hr
    simpa [Schema.keyOf_eq_some_iff] using this

/-- An insertion under the key `k` changes no `get` of another key. -/
theorem getFromStore_insert_other (n : StoreName) (db : DB) (k k' : Key) (v : Obj) (g : Nat)
    (hv : v.prop (schemaOf n).keyPath = k.toVal) (hk : k' ≠ k) :
    getFromStore n k'.toVal (db.setStore n
        { records := Store.insertByKey (schemaOf n) k v (db.store n).records, keyGen := g }) =
      getFromStore n k'.toVal db := by
  rw [getFromStore_toVal, getFromStore_toVal, DB.store_setStore_same]
  unfold Store.get
  rw [Store.find?_insertByKey_of_false]
  have : ¬ k = k' := fun e => hk e.symm
  simp [(Schema.keyOf_eq_some_iff _ v k).2 hv, this]

theorem Val.strictEq_str (h : String) (v : Val) :
    Val.strictEq (Val.str h) v = true ↔ v = Val.str h := by
  cases v with
  | str s => simp only [Val.strictEq, beq_iff_eq, Val.str.injEq]; exact eq_comm
  | _ => simp [Val.strictEq]

theorem hexByte_length (b : Nat) (h : b < 256) : (hexByte b).length = 2 := by
  interval_cases b <;> rfl

theorem join_length_of_forall (l : List String) (n : Nat) (h : ∀ s ∈ l, s.length = n) :
    (String.join l).length = n * l.length := by
  rw [String.join_eq]
  show ((l.map String.data).flatten).length = _
  induction l with
  | nil => simp
  | cons a l ih =>
    have ha : a.data.length = n := h a (List.mem_cons_self _ _)
    have := ih (fun s hs => h s (List.mem_cons_of_mem _ hs))
    simp only [List.map_cons, List.flatten_cons, List.length_append, List.length_cons, this, ha]
    ring

/-- The digest string of `hashPassword` has 64 characters when the digest has 32
bytes. -/
theorem hashPassword_length (sha256 : List Nat → List Nat)
    (hsha : ∀ m, (sha256 m).length = 32) (password : Val) :
    (hashPassword sha256 password).length = 64 := by
  unfold hashPassword
  rw [join_length_of_forall _ 2]
  · simp [hsha]
  · intro s hs
    obtain ⟨b, _, rfl⟩ := List.mem_map.1 hs
    exact hexByte_length _ (Nat.mod_lt _ (by norm_num))

theorem hexByte_hexDigits (b : Nat) (h : b < 256) :
    (hexByte b).data.all (fun c => hexDigits.contains c) = true := by
  interval_cases b <;> rfl

/-- The digest string of `hashPassword` is written with the digits `0`-`9` and
`a`-`f`. -/
theorem hashPassword_hexDigits (sha256 : List Nat → List Nat) (password : Val) :
    ∀ c ∈ (hashPassword sha256 password).toList, c ∈ hexDigits := by
  intro c hc
  unfold hashPassword at hc
  rw [String.join_eq] at hc
  have hc' : c ∈ (((sha256 (utf8Encode (encodeArg password))).map
      (fun b => hexByte (b % 256))).map String.data).flatten := hc
  obtain ⟨l, hl, hcl⟩ := List.mem_flatten.1 hc'
  obtain ⟨s', hs', rfl⟩ := List.mem_map.1 hl
  obtain ⟨b, _, rfl⟩ := List.mem_map.1 hs'
  have := hexByte_hexDigits (b % 256) (Nat.mod_lt _ (by norm_num))
  rw [List.all_eq_true] at this
  simpa using this c hcl

/-- A plaintext that is not a string of 64 hexadecimal digits differs from its
digest string. -/
theorem hashPassword_ne_of_not_hex (sha256 : List Nat → List Nat)
    (hsha : ∀ m, (sha256 m).length = 32) (p : String)
    (hp : ¬ (p.length = 64 ∧ ∀ c ∈ p.toList, c ∈ hexDigits)) :
    hashPassword sha256 (Val.str p) ≠ p := by
  intro h
  apply hp
  rw [← h]
  exact ⟨hashPassword_length sha256 hsha _, hashPassword_hexDigits sha256 _⟩

theorem flippedDigest_length (m : List Nat) : (flippedDigest m).length = 32 := by
  simp [flippedDigest]

/-- No string is the digest string of itself under `flippedDigest`. -/
theorem flippedDigest_no_fixed_point (p : String) :
    hashPassword flippedDigest (Val.str p) ≠ p := by
  intro h
  by_cases hc : (utf8Encode (encodeArg (Val.str p))).head? = some 48
  · have h₁ : hashPassword flippedDigest (Val.str p) =
        String.join ((List.replicate 32 17).map (fun b => hexByte (b % 256))) := by
      unfold hashPassword flippedDigest
      rw [if_pos hc]
    rw [h₁] at h
    subst h
    exact absurd hc (by decide)
  · have h₁ : hashPassword flippedDigest (Val.str p) =
        String.join ((List.replicate 32 0).map (fun b => hexByte (b % 256))) := by
      unfold hashPassword flippedDigest
      rw [if_neg hc]
    rw [h₁] at h
    subst h
    exact hc (by decide)

/-- The outcome of `updateInStore` for a record whose key is in the store: the
record under that key is replaced. -/
theorem updateInStore_of_present (n : StoreName) (key : Val) (data : Obj) (db : DB) (k : Key)
    (hk : data.prop (schemaOf n).keyPath = k.toVal)
    (hex : (db.store n).records.any (fun r => (schemaOf n).keyOf r == some k) = true) :
    updateInStore n key data db =
      (Except.ok k.toVal, db.setStore n
        { records := Store.replaceByKey (schemaOf n) k data (db.store n).records,
          keyGen := if (schemaOf n).autoIncrement then
            Store.bumpKeyGen (db.store n).keyGen k else (db.store n).keyGen }) := by
  have hu := violatesUnique_schemaOf n (db.store n) k data
    ((Schema.keyOf_eq_some_iff _ data k).2 hk)
  unfold updateInStore Store.put
  rw [Store.resolveKey_of_key _ _ _ k hk]
  simp [hex, hu]

/-- The outcome of `updateInStore` for a record whose key is not in the store:
the record is inserted. -/
theorem updateInStore_of_absent (n : StoreName) (key : Val) (data : Obj) (db : DB) (k : Key)
    (hk : data.prop (schemaOf n).keyPath = k.toVal)
    (hnew : ∀ r ∈ (db.store n).records, r.prop (schemaOf n).keyPath ≠ k.toVal) :
    updateInStore n key data db =
      (Except.ok k.toVal, db.setStore n
        { records := Store.insertByKey (schemaOf n) k data (db.store n).records,
          keyGen := if (schemaOf n).autoIncrement then
            Store.bumpKeyGen (db.store n).keyGen k else (db.store n).keyGen }) := by
  have hany := (Store.any_key_eq_false_iff (schemaOf n) _ k).2 hnew
  have hu := violatesUnique_schemaOf n (db.store n) k data
    ((Schema.keyOf_eq_some_iff _ data k).2 hk)
  unfold updateInStore Store.put
  rw [Store.resolveKey_of_key _ _ _ k hk]
  simp [hany, hu]

theorem getFromStore_eq_none_iff (n : StoreName) (k : Key) (db : DB) :
    getFromStore n k.toVal db = Except.ok none ↔
      ∀ r ∈ (db.store n).records, r.prop (schemaOf n).keyPath ≠ k.toVal := by
  rw [getFromStore_toVal]
  simp only [Except.ok.injEq]
  exact Store.get_eq_none_iff _ _ _

theorem getFromStore_eq_some (n : StoreName) (k : Key) (db : DB) (r : Obj)
    (h : getFromStore n k.toVal db = Except.ok (some r)) :
    r ∈ (db.store n).records ∧ r.prop (schemaOf n).keyPath = k.toVal := by
  rw [getFromStore_toVal] at h
  simp only [Except.ok.injEq] at h
  exact Store.get_eq_some_prop _ _ _ _ h

/-- A record just put in place of the one under its key is the one a `get` of
that key returns. -/
theorem getFromStore_replace_same (n : StoreName) (db : DB) (k : Key) (v : Obj) (g : Nat)
    (hv : v.prop (schemaOf n).keyPath = k.toVal)
    (hex : (db.store n).records.any (fun r => (schemaOf n).keyOf r == some k) = true) :
    getFromStore n k.toVal (db.setStore n
        { records := Store.replaceByKey (schemaOf n) k v (db.store n).records, keyGen := g }) =
      Except.ok (some v) := by
  rw [getFromStore_toVal, DB.store_setStore_same]
  unfold Store.get
  rw [Store.find?_replaceByKey_same _ _ _ _ ((Schema.keyOf_eq_some_iff _ v k).2 hv) hex]

/-! ## User operations -/

/-- C1. When the users store holds a record with email `e`, `createUser` on a
`userData` whose email is `e` fails with `ConstraintError` (the duplicate key is
rejected by `add`) and leaves the database exactly as it was. -/
theorem createUser_duplicate_email (sha256 : List Nat → List Nat) (userData : Obj)
    (now₁ now₂ : Int) (db : DB) (e : Key) (r : Obj)
    (hr : r ∈ db.users.records) (hre : r.prop "email" = e.toVal)
    (hu : userData.prop "email" = e.toVal) :
    createUser sha256 userData now₁ now₂ db = (Except.error Err.ConstraintError, db) := by
  simp only [createUser]
  exact addToStore_of_present StoreName.users _ db e (by simp [schemaOf, hu]) r hr hre

/-- Witness for C1: a second `createUser` with the email of a stored user. -/
theorem createUser_duplicate_email_witness :
    createUser sampleDigest [("email", Val.str "a@x.com"), ("password", Val.str "pw2")] 7 8
        ⟨⟨[[("email", Val.str "a@x.com"), ("password", Val.str "h")]], 1⟩, Store.empty,
          Store.empty, Store.empty, Store.empty, Store.empty⟩ =
      (Except.error Err.ConstraintError,
        ⟨⟨[[("email", Val.str "a@x.com"), ("password", Val.str "h")]], 1⟩, Store.empty,
          Store.empty, Store.empty, Store.empty, Store.empty⟩) :=
  createUser_duplicate_email sampleDigest _ 7 8 _ (Key.str "a@x.com")
    [("email", Val.str "a@x.com"), ("password", Val.str "h")] (by decide) (by decide) (by decide)

/-- C2. For every `userData` whose email is not yet in the users store,
`createUser(userData)` succeeds, and a `get` on that email then returns a record
whose password field is `hashPassword(userData.password)`, a string of 64
hexadecimal digits, and is not the plaintext password; `createdAt` and
`updatedAt` are the readings of the clock taken by the call, and every other
field is that of `userData`.  The digest is SHA-256 as far as two facts go: it
has 32 bytes, and no string of 64 hexadecimal digits is the hexadecimal notation
of its own digest. -/
theorem createUser_new_email (sha256 : List Nat → List Nat)
    (hsha : ∀ m, (sha256 m).length = 32)
    (hfix : ∀ p : String, p.length = 64 → (∀ c ∈ p.toList, c ∈ hexDigits) →
      hashPassword sha256 (Val.str p) ≠ p)
    (userData : Obj) (now₁ now₂ : Int) (db : DB)
    (e : Key) (hu : userData.prop "email" = e.toVal)
    (hnew : ∀ r ∈ db.users.records, r.prop "email" ≠ e.toVal) :
    ∃ db' user,
      createUser sha256 userData now₁ now₂ db = (Except.ok e.toVal, db') ∧
      getFromStore StoreName.users e.toVal db' = Except.ok (some user) ∧
      user.prop "password" = Val.str (hashPassword sha256 (userData.prop "password")) ∧
      (hashPassword sha256 (userData.prop "password")).length = 64 ∧
      (∀ c ∈ (hashPassword sha256 (userData.prop "password")).toList, c ∈ hexDigits) ∧
      user.prop "password" ≠ userData.prop "password" ∧
      user.prop "createdAt" = Val.num now₁ ∧ user.prop "updatedAt" = Val.num now₂ ∧
      ∀ f, f ≠ "password" → f ≠ "createdAt" → f ≠ "updatedAt" →
        user.prop f = userData.prop f := by
  have hlen := hashPassword_length sha256 hsha (userData.prop "password")
  have hhex := hashPassword_hexDigits sha256 (userData.prop "password")
  have hadd := addToStore_of_absent StoreName.users
    ((((Obj.assign [] userData).setProp "password"
      (Val.str (hashPassword sha256 (userData.prop "password")))).setProp
        "createdAt" (Val.num now₁)).setProp "updatedAt" (Val.num now₂))
    db e (by simp [schemaOf, hu]) hnew
  refine ⟨_, (((Obj.assign [] userData).setProp "password"
      (Val.str (hashPassword sha256 (userData.prop "password")))).setProp
        "createdAt" (Val.num now₁)).setProp "updatedAt" (Val.num now₂),
    hadd, ?_, ?_, hlen, hhex, ?_, ?_, ?_, ?_⟩
  · exact getFromStore_insert_same StoreName.users db e _ _ (by simp [schemaOf, hu]) hnew
  · simp
  · intro heq
    simp only [Obj.prop_setProp] at heq
    simp at heq
    have hp : hashPassword sha256 (Val.str (hashPassword sha256 (userData.prop "password"))) =
        hashPassword sha256 (userData.prop "password") := by
      rw [heq]
    exact hfix _ hlen hhex hp
  · simp
  · simp
  · intro f h₁ h₂ h₃
    simp [h₁, h₂, h₃]

/-- Witness for C2: a second user, Bob, is created next to Ann; his stored
password is not the plaintext `pw`. -/
theorem createUser_new_email_witness :
    ∃ db' user,
      createUser flippedDigest [("email", Val.str "b@x.com"), ("password", Val.str "pw")] 5 6
        sampleUsers = (Except.ok (Val.str "b@x.com"), db') ∧
      getFromStore StoreName.users (Val.str "b@x.com") db' = Except.ok (some user) ∧
      user.prop "password" ≠ Val.str "pw" := by
  obtain ⟨db', user, h₁, h₂, _, _, _, h₃, _⟩ := createUser_new_email flippedDigest
    flippedDigest_length (fun p _ _ => flippedDigest_no_fixed_point p)
    [("email", Val.str "b@x.com"), ("password", Val.str "pw")] 5 6 sampleUsers
    (Key.str "b@x.com") (by decide) (by decide)
  exact ⟨db', user, h₁, h₂, h₃⟩

/-- C3. `authenticateUser(email, password)` fails with `'User not found'` exactly
when no user record has that email, fails with `'Invalid password'` exactly when
the record of that email exists and its stored password differs from
`hashPassword(password)`, and succeeds exactly in the remaining case, when the
record exists and its stored password is `hashPassword(password)`. -/
theorem authenticateUser_outcome (sha256 : List Nat → List Nat) (email : Key)
    (password : Val) (db : DB) :
    (authenticateUser sha256 email password db = Except.error (Err.Error "User not found") ↔
        ∀ r ∈ db.users.records, r.prop "email" ≠ email.toVal) ∧
      (authenticateUser sha256 email password db = Except.error (Err.Error "Invalid password") ↔
        ∃ user, getFromStore StoreName.users email.toVal db = Except.ok (some user) ∧
          user.prop "password" ≠ Val.str (hashPassword sha256 password)) ∧
      ((∃ u, authenticateUser sha256 email password db = Except.ok u) ↔
        ∃ user, getFromStore StoreName.users email.toVal db = Except.ok (some user) ∧
          user.prop "password" = Val.str (hashPassword sha256 password)) := by
  have hnone : (db.store StoreName.users).get (schemaOf StoreName.users) email = none ↔
      ∀ r ∈ db.users.records, r.prop "email" ≠ email.toVal :=
    Store.get_eq_none_iff (schemaOf StoreName.users) db.users email
  unfold authenticateUser
  rw [getFromStore_toVal]
  cases hget : (db.store StoreName.users).get (schemaOf StoreName.users) email with
  | none =>
    have hno := hnone.1 hget
    refine ⟨?_, ?_, ?_⟩
    · simpa using hno
    · simp
    · simp
  | some user =>
    have hne : ¬ ∀ r ∈ db.users.records, r.prop "email" ≠ email.toVal := by
      intro h
      rw [hnone.2 h] at hget
      cases hget
    by_cases hv : user.prop "password" = Val.str (hashPassword sha256 password)
    · have hver : verifyPassword sha256 password (user.prop "password") = true :=
        (Val.strictEq_str _ _).2 hv
      simp only [hver, if_true]
      refine ⟨?_, ?_, ?_⟩
      · simpa using hne
      · simp [hv]
      · simp [hv]
    · have hver : verifyPassword sha256 password (user.prop "password") = false := by
        rw [Bool.eq_false_iff]
        exact fun h => hv ((Val.strictEq_str _ _).1 h)
      simp only [hver, Bool.false_eq_true, if_false]
      refine ⟨?_, ?_, ?_⟩
      · simpa using hne
      · simp [hv]
      · simp [hv]

/-- C4. For a stored user and the correct password, the record that
`authenticateUser` returns has no `password` field and agrees with the stored
record on every other field. -/
theorem authenticateUser_strips_password (sha256 : List Nat → List Nat) (email : Key)
    (password : Val) (db : DB) (user : Obj)
    (hget : getFromStore StoreName.users email.toVal db = Except.ok (some user))
    (hpw : user.prop "password" = Val.str (hashPassword sha256 password)) :
    ∃ u, authenticateUser sha256 email password db = Except.ok u ∧
      u.hasProp "password" = false ∧ u.prop "password" = Val.undef ∧
      ∀ f, f ≠ "password" → u.hasProp f = user.hasProp f ∧ u.prop f = user.prop f := by
  have hv : verifyPassword sha256 password (user.prop "password") = true :=
    (Val.strictEq_str _ _).2 hpw
  refine ⟨user.deleteProp "password", ?_, ?_, ?_, ?_⟩
  · unfold authenticateUser
    rw [hget]
    simp [hv]
  · simp [Obj.hasProp, Obj.lookup?_deleteProp]
  · simp [Obj.prop, Obj.lookup?_deleteProp]
  · intro f hf
    simp [Obj.hasProp, Obj.prop, Obj.lookup?_deleteProp, hf]

/-- Witness for C4: the user created by `createUser` logs in with the password. -/
theorem authenticateUser_strips_password_witness :
    ∃ u, authenticateUser sampleDigest (Key.str "a@x.com") (Val.str "pw")
        (createUser sampleDigest [("email", Val.str "a@x.com"), ("password", Val.str "pw")] 5 6
          DB.empty).2 = Except.ok u ∧ u.hasProp "password" = false := by
  obtain ⟨u, h, hno, _⟩ := authenticateUser_strips_password sampleDigest (Key.str "a@x.com")
    (Val.str "pw")
    (createUser sampleDigest [("email", Val.str "a@x.com"), ("password", Val.str "pw")] 5 6
      DB.empty).2
    [("email", Val.str "a@x.com"),
      ("password", Val.str (hashPassword sampleDigest (Val.str "pw"))),
      ("createdAt", Val.num 5), ("updatedAt", Val.num 6)]
    (by decide) (by decide)
  exact ⟨u, h, hno⟩

/-- C5, counterexample. A partial update that carries another email is written
under that other email: a `get` on the old key still returns the old record,
with its old email and its old `updatedAt`. -/
theorem updateUser_email_change_keeps_old_record :
    (updateUser (Key.str "a@x.com") [("email", Val.str "b@x.com")] 9 sampleUsers).1 =
        Except.ok (Val.str "b@x.com") ∧
      getFromStore StoreName.users (Val.str "a@x.com")
          (updateUser (Key.str "a@x.com") [("email", Val.str "b@x.com")] 9 sampleUsers).2 =
        getFromStore StoreName.users (Val.str "a@x.com") sampleUsers ∧
      ∃ r, getFromStore StoreName.users (Val.str "a@x.com")
          (updateUser (Key.str "a@x.com") [("email", Val.str "b@x.com")] 9 sampleUsers).2 =
            Except.ok (some r) ∧
        r.prop "email" ≠ Obj.prop [("email", Val.str "b@x.com")] "email" ∧
        r.prop "updatedAt" ≠ Val.num 9 :=
  ⟨by decide, by decide,
    [("email", Val.str "a@x.com"), ("firstName", Val.str "Ann"),
      ("password", Val.str "h"), ("createdAt", Val.num 1), ("updatedAt", Val.num 1)],
    by decide, by decide, by decide⟩

/-- C5, amended. For an existing user email `e` and a partial update that leaves
the email alone (it has no `email` field, or its email is `e`), after
`updateUser(e, u)` a `get` on `e` returns the previous record overlaid with the
fields of `u` in every field except `updatedAt`, which is the reading of the
clock. -/
theorem updateUser_get (email : Key) (updates : Obj) (now : Int) (db : DB) (user : Obj)
    (hget : getFromStore StoreName.users email.toVal db = Except.ok (some user))
    (hemail : updates.hasProp "email" = false ∨ updates.prop "email" = email.toVal) :
    ∃ db' user',
      updateUser email updates now db = (Except.ok email.toVal, db') ∧
      getFromStore StoreName.users email.toVal db' = Except.ok (some user') ∧
      user'.prop "updatedAt" = Val.num now ∧
      ∀ f, f ≠ "updatedAt" →
        user'.prop f = if updates.hasProp f then updates.prop f else user.prop f := by
  obtain ⟨hmem, hkey⟩ := getFromStore_eq_some _ _ _ _ hget
  have hkey' : user.prop "email" = email.toVal := hkey
  have hk : ((Obj.assign (Obj.assign [] user) updates).setProp "updatedAt" (Val.num now)).prop
      (schemaOf StoreName.users).keyPath = email.toVal := by
    show Obj.prop _ "email" = _
    rw [Obj.prop_setProp, Obj.prop_assign]
    rcases hemail with h | h
    · simp [h, hkey']
    · by_cases hh : updates.hasProp "email" = true <;> simp [hh, h, hkey']
  have hex : (db.store StoreName.users).records.any
      (fun r => (schemaOf StoreName.users).keyOf r == some email) = true := by
    rw [List.any_eq_true]
    exact ⟨user, hmem, by simpa using (Schema.keyOf_eq_some_iff _ user email).2 hkey⟩
  have hupd : updateUser email updates now db =
      updateInStore StoreName.users email.toVal
        ((Obj.assign (Obj.assign [] user) updates).setProp "updatedAt" (Val.num now)) db := by
    unfold updateUser
    rw [hget]
  rw [updateInStore_of_present StoreName.users _ _ db email hk hex] at hupd
  refine ⟨_, (Obj.assign (Obj.assign [] user) updates).setProp "updatedAt" (Val.num now),
    hupd, ?_, ?_, ?_⟩
  · exact getFromStore_replace_same StoreName.users db email _ _ hk hex
  · simp
  · intro f hf
    rw [Obj.prop_setProp, Obj.prop_assign]
    simp [hf]

/-- Witness for C5: Ann changes her first name. -/
theorem updateUser_get_witness :
    (updateUser (Key.str "a@x.com") [("firstName", Val.str "Anna")] 9 sampleUsers).1 =
      Except.ok (Val.str "a@x.com") := by
  obtain ⟨db', user', h, _⟩ := updateUser_get (Key.str "a@x.com")
    [("firstName", Val.str "Anna")] 9 sampleUsers
    [("email", Val.str "a@x.com"), ("firstName", Val.str "Ann"),
      ("password", Val.str "h"), ("createdAt", Val.num 1), ("updatedAt", Val.num 1)]
    (by decide) (Or.inl (by decide))
  rw [h]
  rfl

/-! ## Storage-level update and delete -/

/-- C6, counterexample. On a users store with no record under the key,
`updateInStore` does not fail: it succeeds and the store now holds the record. -/
theorem updateInStore_missing_key_succeeds :
    getFromStore StoreName.users (Val.str "a@x.com") DB.empty = Except.ok none ∧
      (updateInStore StoreName.users (Val.str "a@x.com") [("email", Val.str "a@x.com")]
        DB.empty).1 = Except.ok (Val.str "a@x.com") ∧
      (updateInStore StoreName.users (Val.str "a@x.com") [("email", Val.str "a@x.com")]
        DB.empty).2 ≠ DB.empty ∧
      getFromStore StoreName.users (Val.str "a@x.com")
        (updateInStore StoreName.users (Val.str "a@x.com") [("email", Val.str "a@x.com")]
          DB.empty).2 = Except.ok (some [("email", Val.str "a@x.com")]) :=
  ⟨by decide, by decide, by decide, by decide⟩

/-- C6, amended. `updateInStore(store, key, record)` is a `put` under the key
that the record carries, whatever `key` is: when the store holds no record with
that key, the call succeeds and returns the key, the store gains the record,
every other key of the store keeps its record and the other stores are as they
were. -/
theorem updateInStore_inserts_when_absent (n : StoreName) (key : Val) (data : Obj) (db : DB)
    (k : Key) (hk : data.prop (schemaOf n).keyPath = k.toVal)
    (habs : getFromStore n k.toVal db = Except.ok none) :
    ∃ db', updateInStore n key data db = (Except.ok k.toVal, db') ∧
      getFromStore n k.toVal db' = Except.ok (some data) ∧
      (∀ k', k' ≠ k → getFromStore n k'.toVal db' = getFromStore n k'.toVal db) ∧
      (∀ r, r ∈ (db'.store n).records ↔ r = data ∨ r ∈ (db.store n).records) ∧
      ∀ m, m ≠ n → db'.store m = db.store m := by
  have hnew := (getFromStore_eq_none_iff n k db).1 habs
  refine ⟨_, updateInStore_of_absent n key data db k hk hnew, ?_, ?_, ?_, ?_⟩
  · exact getFromStore_insert_same n db k data _ hk hnew
  · intro k' hk'
    exact getFromStore_insert_other n db k k' data _ hk hk'
  · intro r
    rw [DB.store_setStore_same]
    exact Store.mem_insertByKey _ _ _ _ _
  · intro m hm
    exact DB.store_setStore_other db n m _ hm

/-- Witness for C6: a `put` of a second user next to Ann. -/
theorem updateInStore_inserts_when_absent_witness :
    (updateInStore StoreName.users Val.undef [("email", Val.str "b@x.com")] sampleUsers).1 =
      Except.ok (Val.str "b@x.com") := by
  obtain ⟨db', h, _⟩ := updateInStore_inserts_when_absent StoreName.users Val.undef
    [("email", Val.str "b@x.com")] sampleUsers (Key.str "b@x.com") (by decide) (by decide)
  rw [h]
  rfl

/-- C7. `updateUser` with an email that has no user record fails with
`'User not found'`, `updatePost` with a post id that has no post record fails
with `'Post not found'`, and each leaves the database, the users and posts
stores included, as it was. -/
theorem update_missing_key_fails (email postId : Key) (updates : Obj) (now : Int) (db : DB) :
    ((∀ r ∈ db.users.records, r.prop "email" ≠ email.toVal) →
        updateUser email updates now db = (Except.error (Err.Error "User not found"), db)) ∧
      ((∀ r ∈ db.posts.records, r.prop "id" ≠ postId.toVal) →
        updatePost postId updates now db = (Except.error (Err.Error "Post not found"), db)) := by
  constructor
  · intro h
    have hget := (getFromStore_eq_none_iff StoreName.users email db).2 h
    unfold updateUser
    rw [hget]
  · intro h
    have hget := (getFromStore_eq_none_iff StoreName.posts postId db).2 h
    unfold updatePost
    rw [hget]

/-- Witness for C7: updates of a user and of a post that do not exist. -/
theorem update_missing_key_fails_witness :
    updateUser (Key.str "b@x.com") [("firstName", Val.str "Bob")] 9 sampleUsers =
        (Except.error (Err.Error "User not found"), sampleUsers) ∧
      updatePost (Key.num 3) [("content", Val.str "hi")] 9 sampleUsers =
        (Except.error (Err.Error "Post not found"), sampleUsers) :=
  ⟨(update_missing_key_fails (Key.str "b@x.com") (Key.num 3) [("firstName", Val.str "Bob")] 9
      sampleUsers).1 (by decide),
    (update_missing_key_fails (Key.str "b@x.com") (Key.num 3) [("content", Val.str "hi")] 9
      sampleUsers).2 (by decide)⟩

/-- C8. `deleteFromStore(store, key)` succeeds for every store and key.  The
store keeps exactly its records with another key, in their order, and its key
generator; the other stores are untouched.  Hence: a key that was absent leaves
the database unchanged, and a key that was present is absent afterwards while
every other key still has its record. -/
theorem deleteFromStore_spec (n : StoreName) (k : Key) (db : DB) :
    (deleteFromStore n k.toVal db).1 = Except.ok () ∧
      ((deleteFromStore n k.toVal db).2.store n).records =
        (db.store n).records.filter (fun r => (schemaOf n).keyOf r != some k) ∧
      ((deleteFromStore n k.toVal db).2.store n).keyGen = (db.store n).keyGen ∧
      (∀ m, m ≠ n → (deleteFromStore n k.toVal db).2.store m = db.store m) ∧
      (getFromStore n k.toVal db = Except.ok none → (deleteFromStore n k.toVal db).2 = db) ∧
      getFromStore n k.toVal (deleteFromStore n k.toVal db).2 = Except.ok none ∧
      (∀ k', k' ≠ k → getFromStore n k'.toVal (deleteFromStore n k.toVal db).2 =
        getFromStore n k'.toVal db) ∧
      ∀ r, r ∈ ((deleteFromStore n k.toVal db).2.store n).records ↔
        r ∈ (db.store n).records ∧ r.prop (schemaOf n).keyPath ≠ k.toVal := by
  have hdel : deleteFromStore n k.toVal db =
      (Except.ok (), db.setStore n ((db.store n).delete (schemaOf n) k)) := by
    simp [deleteFromStore]
  rw [hdel]
  refine ⟨rfl, ?_, ?_, ?_, ?_, ?_, ?_, ?_⟩
  · simp [Store.delete]
  · simp [Store.delete]
  · intro m hm
    exact DB.store_setStore_other db n m _ hm
  · intro habs
    have hnew := (Store.any_key_eq_false_iff _ _ _).2 ((getFromStore_eq_none_iff n k db).1 habs)
    have hfil : (db.store n).records.filter (fun r => (schemaOf n).keyOf r != some k) =
        (db.store n).records := by
      rw [List.filter_eq_self]
      intro r hr
      have := (List.any_eq_false.1 hnew) r hr
      simpa using this
    show db.setStore n ((db.store n).delete (schemaOf n) k) = db
    have : (db.store n).delete (schemaOf n) k = db.store n := by
      simp [Store.delete, hfil]
    rw [this, DB.setStore_store]
  · rw [getFromStore_toVal, DB.store_setStore_same]
    simp [Store.get, Store.delete, List.find?_eq_none]
  · intro k' hk'
    rw [getFromStore_toVal, getFromStore_toVal, DB.store_setStore_same]
    simp only [Store.get, Store.delete, Except.ok.injEq]
    exact Store.find?_filter_key_other _ k k' hk' _
  · intro r
    rw [DB.store_setStore_same]
    simp [Store.delete, Schema.keyOf_eq_some_iff]

/-! ## Likes and follows -/

theorem getLike_eq_none_iff (p u : Key) (db : DB) :
    getLike p u db = none ↔ ∀ r ∈ db.likes.records, isLikeOf p u r = false := by
  unfold getLike getAllFromStore
  rw [List.find?_eq_none]
  simp only [Bool.not_eq_true]
  rfl

theorem getFollow_eq_none_iff (a b : Key) (db : DB) :
    getFollow a b db = none ↔ ∀ r ∈ db.followers.records, isFollowOf a b r = false := by
  unfold getFollow getAllFromStore
  rw [List.find?_eq_none]
  simp only [Bool.not_eq_true]
  rfl

/-- The like record that `toggleLike` adds, as stored under the generated key. -/
theorem isLikeOf_new (p u p' u' : Key) (now : Int) (g : Nat) :
    isLikeOf p' u' (Obj.setProp
      [("postId", p.toVal), ("userEmail", u.toVal), ("timestamp", Val.num now)]
      "id" (Val.num g)) = decide (p = p' ∧ u = u') := by
  have h₁ : Obj.prop (Obj.setProp
      [("postId", p.toVal), ("userEmail", u.toVal), ("timestamp", Val.num now)]
      "id" (Val.num g)) "postId" = p.toVal := by
    rw [Obj.prop_setProp]; simp [Obj.prop, Obj.lookup?]
  have h₂ : Obj.prop (Obj.setProp
      [("postId", p.toVal), ("userEmail", u.toVal), ("timestamp", Val.num now)]
      "id" (Val.num g)) "userEmail" = u.toVal := by
    rw [Obj.prop_setProp]; simp [Obj.prop, Obj.lookup?]
  unfold isLikeOf
  rw [h₁, h₂]
  by_cases hp : p = p'
  · by_cases hu : u = u'
    · subst hp; subst hu
      simp [(Val.strictEq_toVal _ _).2 rfl]
    · have : Val.strictEq u.toVal u'.toVal = false := by
        rw [Bool.eq_false_iff]
        exact fun h => hu (Key.toVal_injective ((Val.strictEq_toVal _ _).1 h))
      simp [this, hu]
  · have : Val.strictEq p.toVal p'.toVal = false := by
      rw [Bool.eq_false_iff]
      exact fun h => hp (Key.toVal_injective ((Val.strictEq_toVal _ _).1 h))
    simp [this, hp]

/-- The follow record that `toggleFollow` adds, as stored under the generated key. -/
theorem isFollowOf_new (a b a' b' : Key) (now : Int) (g : Nat) :
    isFollowOf a' b' (Obj.setProp
      [("followerEmail", a.toVal), ("followingEmail", b.toVal), ("timestamp", Val.num now)]
      "id" (Val.num g)) = decide (a = a' ∧ b = b') := by
  have h₁ : Obj.prop (Obj.setProp
      [("followerEmail", a.toVal), ("followingEmail", b.toVal), ("timestamp", Val.num now)]
      "id" (Val.num g)) "followerEmail" = a.toVal := by
    rw [Obj.prop_setProp]; simp [Obj.prop, Obj.lookup?]
  have h₂ : Obj.prop (Obj.setProp
      [("followerEmail", a.toVal), ("followingEmail", b.toVal), ("timestamp", Val.num now)]
      "id" (Val.num g)) "followingEmail" = b.toVal := by
    rw [Obj.prop_setProp]; simp [Obj.prop, Obj.lookup?]
  unfold isFollowOf
  rw [h₁, h₂]
  by_cases hp : a = a'
  · by_cases hu : b = b'
    · subst hp; subst hu
      simp [(Val.strictEq_toVal _ _).2 rfl]
    · have : Val.strictEq b.toVal b'.toVal = false := by
        rw [Bool.eq_false_iff]
        exact fun h => hu (Key.toVal_injective ((Val.strictEq_toVal _ _).1 h))
      simp [this, hu]
  · have : Val.strictEq a.toVal a'.toVal = false := by
      rw [Bool.eq_false_iff]
      exact fun h => hp (Key.toVal_injective ((Val.strictEq_toVal _ _).1 h))
    simp [this, hp]

/-- The first `toggleLike` of a pair without a like: the like is added under the
next generated key. -/
theorem toggleLike_of_none (p u : Key) (now : Int) (db : DB)
    (hno : getLike p u db = none)
    (hgen : db.likes.keyGen ≤ maxGeneratedKey)
    (hfresh : ∀ r ∈ db.likes.records, r.prop "id" ≠ Val.num db.likes.keyGen) :
    toggleLike p u now db =
      (Except.ok true, db.setStore StoreName.likes
        { records := Store.insertByKey (schemaOf StoreName.likes) (Key.num db.likes.keyGen)
            (Obj.setProp [("postId", p.toVal), ("userEmail", u.toVal), ("timestamp", Val.num now)]
              "id" (Val.num db.likes.keyGen)) db.likes.records,
          keyGen := db.likes.keyGen + 1 }) := by
  unfold toggleLike
  rw [hno]
  simp only
  rw [addToStore_generate StoreName.likes _ db rfl (by simp [schemaOf, Obj.prop, Obj.lookup?])
    hgen hfresh]
  rfl

/-- A `toggleLike` of a pair with a like whose `id` is the key `k`: the record
under `k` is deleted. -/
theorem toggleLike_of_some (p u : Key) (now : Int) (db : DB) (like : Obj) (k : Key)
    (hsome : getLike p u db = some like) (hid : like.prop "id" = k.toVal) :
    toggleLike p u now db =
      (Except.ok false, db.setStore StoreName.likes
        ((db.store StoreName.likes).delete (schemaOf StoreName.likes) k)) := by
  unfold toggleLike
  rw [hsome]
  simp [deleteFromStore, hid]

/-- C9. On a likes store with no Like for the pair `(postId, userEmail)` (and
whose key generator can still hand out its current number as a new key), two
`toggleLike` calls in sequence return `true` and then `false`; after the second
call the lookup of the index `post` under `postId` holds no record of that user,
and the records of the likes store are those from before the two calls. -/
theorem toggleLike_twice (p u : Key) (now₁ now₂ : Int) (db : DB)
    (hno : getLike p u db = none)
    (hgen : db.likes.keyGen ≤ maxGeneratedKey)
    (hfresh : ∀ r ∈ db.likes.records, r.prop "id" ≠ Val.num db.likes.keyGen) :
    (toggleLike p u now₁ db).1 = Except.ok true ∧
      (toggleLike p u now₂ (toggleLike p u now₁ db).2).1 = Except.ok false ∧
      (∃ l, getAllFromIndex StoreName.likes "post" p
          (toggleLike p u now₂ (toggleLike p u now₁ db).2).2 = Except.ok l ∧
        ∀ r ∈ l, r.prop "userEmail" ≠ u.toVal) ∧
      (toggleLike p u now₂ (toggleLike p u now₁ db).2).2.likes.records = db.likes.records := by
  have hold := (getLike_eq_none_iff p u db).1 hno
  have h₁ := toggleLike_of_none p u now₁ db hno hgen hfresh
  have hnew : isLikeOf p u (Obj.setProp
      [("postId", p.toVal), ("userEmail", u.toVal), ("timestamp", Val.num now₁)]
      "id" (Val.num db.likes.keyGen)) = true := by
    rw [isLikeOf_new]; simp
  have hget : getLike p u (toggleLike p u now₁ db).2 = some (Obj.setProp
      [("postId", p.toVal), ("userEmail", u.toVal), ("timestamp", Val.num now₁)]
      "id" (Val.num db.likes.keyGen)) := by
    rw [h₁]
    exact Store.find?_insertByKey_of_new _ _ _ _ (isLikeOf p u) hnew hold
  have h₂ := toggleLike_of_some p u now₂ (toggleLike p u now₁ db).2 _ (Key.num db.likes.keyGen)
    hget (by simp [Key.toVal])
  have hrec : (toggleLike p u now₂ (toggleLike p u now₁ db).2).2.likes.records =
      db.likes.records := by
    rw [h₂, h₁]
    show (Store.insertByKey _ _ _ db.likes.records).filter _ = db.likes.records
    obtain ⟨l₁, l₂, hs₁, hs₂⟩ := Store.insertByKey_split (schemaOf StoreName.likes)
      (Key.num db.likes.keyGen) (Obj.setProp
        [("postId", p.toVal), ("userEmail", u.toVal), ("timestamp", Val.num now₁)]
        "id" (Val.num db.likes.keyGen)) db.likes.records
    have hk : (schemaOf StoreName.likes).keyOf (Obj.setProp
        [("postId", p.toVal), ("userEmail", u.toVal), ("timestamp", Val.num now₁)]
        "id" (Val.num db.likes.keyGen)) = some (Key.num db.likes.keyGen) :=
      (Schema.keyOf_eq_some_iff _ _ _).2 (by simp [schemaOf, Key.toVal])
    have hkeep : ∀ r ∈ db.likes.records,
        ((schemaOf StoreName.likes).keyOf r != some (Key.num db.likes.keyGen)) = true := by
      intro r hr
      have := hfresh r hr
      simpa [Schema.keyOf_eq_some_iff, schemaOf, Key.toVal] using this
    rw [hs₂, List.filter_append, List.filter_cons]
    simp only [hk, bne_self_eq_false, Bool.false_eq_true, if_false]
    rw [← List.filter_append, ← hs₁]
    exact List.filter_eq_self.2 hkeep
  refine ⟨by rw [h₁], by rw [h₂], ?_, hrec⟩
  refine ⟨_, rfl, ?_⟩
  intro r hr
  have hr' : r ∈ db.likes.records ∧ (r.prop "postId").toKey? = some p := by
    have := List.mem_filter.1 hr
    rw [show ((toggleLike p u now₂ (toggleLike p u now₁ db).2).2.store StoreName.likes).records
      = db.likes.records from hrec] at this
    exact ⟨this.1, by simpa [IndexSpec.keyOf] using this.2⟩
  intro hu
  have hp := Val.toKey?_eq_some hr'.2
  have := hold r hr'.1
  simp [isLikeOf, (Val.strictEq_toVal _ _).2 hp, (Val.strictEq_toVal _ _).2 hu] at this

/-- Witness for C9: the first like of post 1 by Ann in a new database. -/
theorem toggleLike_twice_witness :
    (toggleLike (Key.num 1) (Key.str "a@x.com") 7 DB.empty).1 = Except.ok true ∧
      (toggleLike (Key.num 1) (Key.str "a@x.com") 8
        (toggleLike (Key.num 1) (Key.str "a@x.com") 7 DB.empty).2).1 = Except.ok false :=
  have h := toggleLike_twice (Key.num 1) (Key.str "a@x.com") 7 8 DB.empty (by decide)
    (by decide) (by simp [DB.empty, Store.empty])
  ⟨h.1, h.2.1⟩

/-- The state after `addToStore` of a record without a key on an
auto-increment store: the input state when the request fails, and otherwise the
store with the record inserted under the generated key. -/
theorem addToStore_generate_state (n : StoreName) (data : Obj) (db : DB)
    (ha : (schemaOf n).autoIncrement = true)
    (hk : data.prop (schemaOf n).keyPath = Val.undef) :
    (addToStore n data db).2 = db ∨
      (addToStore n data db).2 = db.setStore n
        { records := Store.insertByKey (schemaOf n) (Key.num (db.store n).keyGen)
            (data.setProp (schemaOf n).keyPath (Val.num (db.store n).keyGen)) (db.store n).records,
          keyGen := (db.store n).keyGen + 1 } := by
  by_cases hg : (db.store n).keyGen > maxGeneratedKey
  · left; simp [addToStore, Store.add, Store.resolveKey, hk, ha, hg]
  · by_cases hany : (db.store n).records.any
        (fun r => (schemaOf n).keyOf r == some (Key.num (db.store n).keyGen)) = true
    · left; simp [addToStore, Store.add, Store.resolveKey, hk, ha, hg, hany]
    · by_cases hv : Store.violatesUnique (schemaOf n) (db.store n) (Key.num (db.store n).keyGen)
          (data.setProp (schemaOf n).keyPath (Val.num (db.store n).keyGen)) = true
      · left; simp [addToStore, Store.add, Store.resolveKey, hk, ha, hg, hany, hv]
      · right; simp [addToStore, Store.add, Store.resolveKey, hk, ha, hg, hany, hv]

/-- The state after `deleteFromStore`: the input state when the value is no key,
and otherwise the store without the records under the key. -/
theorem deleteFromStore_state (n : StoreName) (key : Val) (db : DB) :
    (deleteFromStore n key db).2 = db ∨
      ∃ k, (deleteFromStore n key db).2 =
        db.setStore n ((db.store n).delete (schemaOf n) k) := by
  unfold deleteFromStore
  cases key.toKey? with
  | none => left; rfl
  | some k => right; exact ⟨k, rfl⟩

theorem length_filter_delete_le (sch : Schema) (s : Store) (k : Key) (q : Obj → Bool) :
    ((s.delete sch k).records.filter q).length ≤ (s.records.filter q).length := by
  unfold Store.delete
  exact ((List.filter_sublist _).filter q).length_le

/-- The state after `toggleLike`: unchanged, or the likes store without the
records under one key, or (when the pair had no like) the likes store with the
new like of the pair inserted. -/
theorem toggleLike_state (p u : Key) (now : Int) (db : DB) :
    (toggleLike p u now db).2 = db ∨
      (∃ k, (toggleLike p u now db).2 =
        db.setStore StoreName.likes ((db.store StoreName.likes).delete (schemaOf StoreName.likes) k)) ∨
      (getLike p u db = none ∧ (toggleLike p u now db).2 =
        db.setStore StoreName.likes
          ⟨Store.insertByKey (schemaOf StoreName.likes) (Key.num db.likes.keyGen)
            (Obj.setProp [("postId", p.toVal), ("userEmail", u.toVal), ("timestamp", Val.num now)]
              "id" (Val.num db.likes.keyGen)) db.likes.records, db.likes.keyGen + 1⟩) := by
  unfold toggleLike
  cases hget : getLike p u db with
  | some like =>
    simp only
    rcases deleteFromStore_state StoreName.likes (like.prop "id") db with h | ⟨k, h⟩
    · left
      revert h
      generalize deleteFromStore StoreName.likes (like.prop "id") db = x
      rcases x with ⟨_ | _, db'⟩ <;> exact fun h => h
    · right; left
      refine ⟨k, ?_⟩
      revert h
      generalize deleteFromStore StoreName.likes (like.prop "id") db = x
      rcases x with ⟨_ | _, db'⟩ <;> exact fun h => h
  | none =>
    simp only
    rcases addToStore_generate_state StoreName.likes
      [("postId", p.toVal), ("userEmail", u.toVal), ("timestamp", Val.num now)] db rfl
      (by simp [schemaOf, Obj.prop, Obj.lookup?]) with h | h
    · left
      revert h
      generalize addToStore StoreName.likes
        [("postId", p.toVal), ("userEmail", u.toVal), ("timestamp", Val.num now)] db = x
      rcases x with ⟨_ | _, db'⟩ <;> exact fun h => h
    · right; right
      refine ⟨trivial, ?_⟩
      revert h
      generalize addToStore StoreName.likes
        [("postId", p.toVal), ("userEmail", u.toVal), ("timestamp", Val.num now)] db = x
      rcases x with ⟨_ | _, db'⟩ <;> exact fun h => h

/-- The state after `toggleFollow`, as for `toggleLike`. -/
theorem toggleFollow_state (a b : Key) (now : Int) (db : DB) :
    (toggleFollow a b now db).2 = db ∨
      (∃ k, (toggleFollow a b now db).2 =
        db.setStore StoreName.followers
          ((db.store StoreName.followers).delete (schemaOf StoreName.followers) k)) ∨
      (getFollow a b db = none ∧ (toggleFollow a b now db).2 =
        db.setStore StoreName.followers
          ⟨Store.insertByKey (schemaOf StoreName.followers) (Key.num db.followers.keyGen)
            (Obj.setProp [("followerEmail", a.toVal), ("followingEmail", b.toVal), ("timestamp", Val.num now)]
              "id" (Val.num db.followers.keyGen)) db.followers.records, db.followers.keyGen + 1⟩) := by
  unfold toggleFollow
  cases hget : getFollow a b db with
  | some f =>
    simp only
    rcases deleteFromStore_state StoreName.followers (f.prop "id") db with h | ⟨k, h⟩
    · left
      revert h
      generalize deleteFromStore StoreName.followers (f.prop "id") db = x
      rcases x with ⟨_ | _, db'⟩ <;> exact fun h => h
    · right; left
      refine ⟨k, ?_⟩
      revert h
      generalize deleteFromStore StoreName.followers (f.prop "id") db = x
      rcases x with ⟨_ | _, db'⟩ <;> exact fun h => h
  | none =>
    simp only
    rcases addToStore_generate_state StoreName.followers
      [("followerEmail", a.toVal), ("followingEmail", b.toVal), ("timestamp", Val.num now)] db
      rfl (by simp [schemaOf, Obj.prop, Obj.lookup?]) with h | h
    · left
      revert h
      generalize addToStore StoreName.followers
        [("followerEmail", a.toVal), ("followingEmail", b.toVal), ("timestamp", Val.num now)] db = x
      rcases x with ⟨_ | _, db'⟩ <;> exact fun h => h
    · right; right
      refine ⟨trivial, ?_⟩
      revert h
      generalize addToStore StoreName.followers
        [("followerEmail", a.toVal), ("followingEmail", b.toVal), ("timestamp", Val.num now)] db = x
      rcases x with ⟨_ | _, db'⟩ <;> exact fun h => h

/-- C10. The predicate "at most one Like record per `(postId, userEmail)` pair
and at most one Follow record per `(followerEmail, followingEmail)` pair" is
preserved by every `toggleLike` and every `toggleFollow` call: when it holds of
the state before the call, it holds of the state after it, whatever the
arguments and whatever the outcome. -/
theorem toggles_preserve_unique (db : DB) (h : UniqueToggles db) :
    (∀ (p u : Key) (now : Int), UniqueToggles (toggleLike p u now db).2) ∧
      ∀ (a b : Key) (now : Int), UniqueToggles (toggleFollow a b now db).2 := by
  obtain ⟨hl, hf⟩ := h
  constructor
  · intro p u now
    rcases toggleLike_state p u now db with h | ⟨k, h⟩ | ⟨hno, h⟩
    · rw [h]; exact ⟨hl, hf⟩
    · rw [h]
      refine ⟨fun p' u' => ?_, hf⟩
      exact le_trans (length_filter_delete_le _ _ k (isLikeOf p' u')) (hl p' u')
    · rw [h]
      refine ⟨fun p' u' => ?_, hf⟩
      show ((Store.insertByKey _ _ _ db.likes.records).filter (isLikeOf p' u')).length ≤ 1
      rw [Store.filter_insertByKey, isLikeOf_new]
      by_cases hpu : p = p' ∧ u = u'
      · obtain ⟨rfl, rfl⟩ := hpu
        have hnone := (getLike_eq_none_iff p u db).1 hno
        have : db.likes.records.filter (isLikeOf p u) = [] := by
          rw [List.filter_eq_nil_iff]
          intro r hr
          simp [hnone r hr]
        simp [this]
      · have := hl p' u'
        simp [hpu, this]
  · intro a b now
    rcases toggleFollow_state a b now db with h | ⟨k, h⟩ | ⟨hno, h⟩
    · rw [h]; exact ⟨hl, hf⟩
    · rw [h]
      refine ⟨hl, fun a' b' => ?_⟩
      exact le_trans (length_filter_delete_le _ _ k (isFollowOf a' b')) (hf a' b')
    · rw [h]
      refine ⟨hl, fun a' b' => ?_⟩
      show ((Store.insertByKey _ _ _ db.followers.records).filter (isFollowOf a' b')).length ≤ 1
      rw [Store.filter_insertByKey, isFollowOf_new]
      by_cases hab : a = a' ∧ b = b'
      · obtain ⟨rfl, rfl⟩ := hab
        have hnone := (getFollow_eq_none_iff a b db).1 hno
        have : db.followers.records.filter (isFollowOf a b) = [] := by
          rw [List.filter_eq_nil_iff]
          intro r hr
          simp [hnone r hr]
        simp [this]
      · have := hf a' b'
        simp [hab, this]

/-- Witness for C10: the new database satisfies the predicate, and so does the
state after a like. -/
theorem toggles_preserve_unique_witness :
    UniqueToggles (toggleLike (Key.num 1) (Key.str "a@x.com") 7 DB.empty).2 :=
  (toggles_preserve_unique DB.empty
    ⟨fun _ _ => by simp [DB.empty, Store.empty], fun _ _ => by simp [DB.empty, Store.empty]⟩).1
    (Key.num 1) (Key.str "a@x.com") 7

/-! ## The key generator of the likes store

The two side conditions on the likes store used for the double toggle hold in every state that the
class can reach while the generator has not run out: the numeric keys of the
store stay below the generator. -/

theorem keysBelowGen_empty (n : StoreName) : KeysBelowGen n DB.empty := by
  intro _ r hr
  cases n <;> simp [DB.empty, DB.store, Store.empty] at hr

theorem keysBelowGen_fresh (n : StoreName) (db : DB) (h : KeysBelowGen n db)
    (hg : (db.store n).keyGen ≤ maxGeneratedKey) :
    ∀ r ∈ (db.store n).records, r.prop (schemaOf n).keyPath ≠ Val.num (db.store n).keyGen := by
  intro r hr heq
  have := h hg r hr _ heq
  omega

theorem toggleLike_keysBelowGen (p u : Key) (now : Int) (db : DB)
    (h : KeysBelowGen StoreName.likes db) :
    KeysBelowGen StoreName.likes (toggleLike p u now db).2 := by
  rcases toggleLike_state p u now db with hs | ⟨k, hs⟩ | ⟨_, hs⟩
  · rw [hs]; exact h
  · rw [hs]
    intro hg r hr m hm
    rw [DB.store_setStore_same] at hg hr
    exact h hg r (List.mem_of_mem_filter hr) m hm
  · rw [hs]
    intro hg r hr m hm
    rw [DB.store_setStore_same] at hg hr
    have hg' : db.likes.keyGen ≤ maxGeneratedKey := Nat.le_of_succ_le hg
    show m < ((db.likes.keyGen + 1 : Nat) : Int)
    rcases (Store.mem_insertByKey _ _ _ _ _).1 hr with rfl | hold
    · have : (Val.num (db.likes.keyGen : Int)) = Val.num m := by
        rw [← hm]; simp [schemaOf]
      have := Val.num.inj this
      omega
    · have := h hg' r hold m hm
      have : m < (db.likes.keyGen : Int) := this
      omega

/-! ## What a toggle reports -/

/-- The outcome of `addToStore` of a record without a key on an auto-increment
store: an error that leaves the state as it was, or the generated key and the
store with the record inserted under it. -/
theorem addToStore_generate_cases (n : StoreName) (data : Obj) (db : DB)
    (ha : (schemaOf n).autoIncrement = true)
    (hk : data.prop (schemaOf n).keyPath = Val.undef) :
    (∃ e, addToStore n data db = (Except.error e, db)) ∨
      addToStore n data db = (Except.ok (Val.num (db.store n).keyGen), db.setStore n
        { records := Store.insertByKey (schemaOf n) (Key.num (db.store n).keyGen)
            (data.setProp (schemaOf n).keyPath (Val.num (db.store n).keyGen)) (db.store n).records,
          keyGen := (db.store n).keyGen + 1 }) := by
  by_cases hg : (db.store n).keyGen > maxGeneratedKey
  · left; exact ⟨Err.ConstraintError, by simp [addToStore, Store.add, Store.resolveKey, hk, ha, hg]⟩
  · by_cases hany : (db.store n).records.any
        (fun r => (schemaOf n).keyOf r == some (Key.num (db.store n).keyGen)) = true
    · left
      exact ⟨Err.ConstraintError,
        by simp [addToStore, Store.add, Store.resolveKey, hk, ha, hg, hany]⟩
    · by_cases hv : Store.violatesUnique (schemaOf n) (db.store n) (Key.num (db.store n).keyGen)
          (data.setProp (schemaOf n).keyPath (Val.num (db.store n).keyGen)) = true
      · left
        exact ⟨Err.ConstraintError,
          by simp [addToStore, Store.add, Store.resolveKey, hk, ha, hg, hany, hv]⟩
      · right; simp [addToStore, Store.add, Store.resolveKey, hk, ha, hg, hany, hv, Key.toVal]

theorem eq_of_mem_of_length_le_one {α : Type} (l : List α) (h : l.length ≤ 1) (a b : α)
    (ha : a ∈ l) (hb : b ∈ l) : a = b := by
  match l, h with
  | [], _ => simp at ha
  | [x], _ =>
    simp only [List.mem_singleton] at ha hb
    rw [ha, hb]
  | _ :: _ :: _, h => simp at h

/-- C11, counterexample. On a likes store that holds two Like records of one
pair, `toggleLike` deletes the first and returns `false`, although a Like
record of the pair is still in the store after the call. -/
theorem toggleLike_false_with_like_left :
    (toggleLike (Key.num 1) (Key.str "a@x.com") 9
        (DB.empty.setStore StoreName.likes
          ⟨[[("postId", Val.num 1), ("userEmail", Val.str "a@x.com"), ("timestamp", Val.num 5),
              ("id", Val.num 1)],
            [("postId", Val.num 1), ("userEmail", Val.str "a@x.com"), ("timestamp", Val.num 6),
              ("id", Val.num 2)]], 3⟩)).1 = Except.ok false ∧
      ∃ r ∈ (toggleLike (Key.num 1) (Key.str "a@x.com") 9
        (DB.empty.setStore StoreName.likes
          ⟨[[("postId", Val.num 1), ("userEmail", Val.str "a@x.com"), ("timestamp", Val.num 5),
              ("id", Val.num 1)],
            [("postId", Val.num 1), ("userEmail", Val.str "a@x.com"), ("timestamp", Val.num 6),
              ("id", Val.num 2)]], 3⟩)).2.likes.records,
        isLikeOf (Key.num 1) (Key.str "a@x.com") r = true :=
  ⟨by decide,
    [("postId", Val.num 1), ("userEmail", Val.str "a@x.com"), ("timestamp", Val.num 6),
      ("id", Val.num 2)], by decide, by decide⟩

/-- C11, amended. On a likes store with at most one Like record of the pair
`(postId, userEmail)`, the boolean that `toggleLike` returns reports the
resulting state: it is `true` if and only if, after the call, a Like record of
the pair is in the likes store. -/
theorem toggleLike_reports_state (p u : Key) (now : Int) (db : DB) (b : Bool)
    (huniq : (db.likes.records.filter (isLikeOf p u)).length ≤ 1)
    (hres : (toggleLike p u now db).1 = Except.ok b) :
    b = true ↔ ∃ r ∈ (toggleLike p u now db).2.likes.records, isLikeOf p u r = true := by
  cases hget : getLike p u db with
  | some like =>
    have hfound : like ∈ db.likes.records ∧ isLikeOf p u like = true := by
      unfold getLike getAllFromStore at hget
      exact ⟨List.mem_of_find?_eq_some hget, List.find?_some hget⟩
    cases hk : (like.prop "id").toKey? with
    | none =>
      have : toggleLike p u now db = (Except.error Err.DataError, db) := by
        unfold toggleLike
        rw [hget]
        simp [deleteFromStore, hk]
      rw [this] at hres
      cases hres
    | some k =>
      have hid := Val.toKey?_eq_some hk
      have ht := toggleLike_of_some p u now db like k hget hid
      rw [ht] at hres ⊢
      have hb : b = false := by
        have : (Except.ok false : Except Err Bool) = Except.ok b := hres
        cases this; rfl
      subst hb
      simp only [Bool.false_eq_true, false_iff, not_exists, not_and]
      intro r hr hlike
      have hr' : r ∈ db.likes.records ∧
          ((schemaOf StoreName.likes).keyOf r != some k) = true := List.mem_filter.1 hr
      have hrl : r = like :=
        eq_of_mem_of_length_le_one _ huniq r like
          (List.mem_filter.2 ⟨hr'.1, hlike⟩) (List.mem_filter.2 hfound)
      have hkey : (schemaOf StoreName.likes).keyOf like = some k :=
        (Schema.keyOf_eq_some_iff _ _ _).2 hid
      rw [hrl, hkey] at hr'
      simp at hr'
  | none =>
    have hrec : Obj.prop [("postId", p.toVal), ("userEmail", u.toVal), ("timestamp", Val.num now)]
        (schemaOf StoreName.likes).keyPath = Val.undef := by
      simp [schemaOf, Obj.prop, Obj.lookup?]
    rcases addToStore_generate_cases StoreName.likes _ db rfl hrec with ⟨e, he⟩ | hok
    · have : toggleLike p u now db = (Except.error e, db) := by
        unfold toggleLike
        rw [hget]
        simp only
        rw [he]
      rw [this] at hres
      cases hres
    · have ht : toggleLike p u now db = (Except.ok true, (addToStore StoreName.likes
          [("postId", p.toVal), ("userEmail", u.toVal), ("timestamp", Val.num now)] db).2) := by
        unfold toggleLike
        rw [hget]
        simp only
        rw [hok]
      rw [ht] at hres ⊢
      rw [hok]
      have hb : b = true := by
        have : (Except.ok true : Except Err Bool) = Except.ok b := hres
        cases this; rfl
      subst hb
      simp only [true_iff]
      refine ⟨_, (Store.mem_insertByKey _ _ _ _ _).2 (Or.inl rfl), ?_⟩
      have := isLikeOf_new p u p u now (db.store StoreName.likes).keyGen
      simpa using this

/-- Witness for C11: the first like of post 1 by Ann reports `true`. -/
theorem toggleLike_reports_state_witness :
    ∃ r ∈ (toggleLike (Key.num 1) (Key.str "a@x.com") 7 DB.empty).2.likes.records,
      isLikeOf (Key.num 1) (Key.str "a@x.com") r = true :=
  (toggleLike_reports_state (Key.num 1) (Key.str "a@x.com") 7 DB.empty true
    (by decide) (by decide)).1 rfl

/-! ## Follows -/

theorem toKey?_beq_some_iff (v : Val) (k : Key) :
    (v.toKey? == some k) = decide (v = k.toVal) := by
  by_cases h : v = k.toVal
  · subst h; simp
  · have : ¬ v.toKey? = some k := fun e => h (Val.toKey?_eq_some e)
    simp [h, this]

theorem strictEq_toVal_eq_decide (v : Val) (k : Key) :
    Val.strictEq v k.toVal = decide (v = k.toVal) := by
  by_cases h : v = k.toVal
  · simp [h, (Val.strictEq_toVal _ _).2 rfl]
  · have : Val.strictEq v k.toVal = false := by
      rw [Bool.eq_false_iff]
      exact fun e => h ((Val.strictEq_toVal _ _).1 e)
    simp [h, this]

theorem getFollowing_eq (email : Key) (db : DB) :
    getFollowing email db = Except.ok
      (db.followers.records.filter (fun r => decide (r.prop "followerEmail" = email.toVal))) := by
  unfold getFollowing getAllFromIndex
  simp only [schemaOf, List.find?_cons]
  have h₁ : ("follower" == "follower") = true := by decide
  simp only [h₁, Except.ok.injEq]
  apply List.filter_congr
  intro r _
  exact toKey?_beq_some_iff _ _

theorem getFollowers_eq (email : Key) (db : DB) :
    getFollowers email db = Except.ok
      (db.followers.records.filter (fun r => decide (r.prop "followingEmail" = email.toVal))) := by
  unfold getFollowers getAllFromIndex
  simp only [schemaOf, List.find?_cons]
  have h₁ : ("follower" == "following") = false := by decide
  have h₂ : ("following" == "following") = true := by decide
  simp only [h₁, h₂, Except.ok.injEq]
  apply List.filter_congr
  intro r _
  exact toKey?_beq_some_iff _ _

/-- The first `toggleFollow` of a pair without a follow: the follow is added
under the next generated key. -/
theorem toggleFollow_of_none (a b : Key) (now : Int) (db : DB)
    (hno : getFollow a b db = none)
    (hgen : db.followers.keyGen ≤ maxGeneratedKey)
    (hfresh : ∀ r ∈ db.followers.records, r.prop "id" ≠ Val.num db.followers.keyGen) :
    toggleFollow a b now db =
      (Except.ok true, db.setStore StoreName.followers
        { records := Store.insertByKey (schemaOf StoreName.followers)
            (Key.num db.followers.keyGen)
            (Obj.setProp
              [("followerEmail", a.toVal), ("followingEmail", b.toVal), ("timestamp", Val.num now)]
              "id" (Val.num db.followers.keyGen)) db.followers.records,
          keyGen := db.followers.keyGen + 1 }) := by
  unfold toggleFollow
  rw [hno]
  simp only
  rw [addToStore_generate StoreName.followers _ db rfl
    (by simp [schemaOf, Obj.prop, Obj.lookup?]) hgen hfresh]
  rfl

/-- A `toggleFollow` of a pair with a follow whose `id` is the key `k`: the
record under `k` is deleted. -/
theorem toggleFollow_of_some (a b : Key) (now : Int) (db : DB) (f : Obj) (k : Key)
    (hsome : getFollow a b db = some f) (hid : f.prop "id" = k.toVal) :
    toggleFollow a b now db =
      (Except.ok false, db.setStore StoreName.followers
        ((db.store StoreName.followers).delete (schemaOf StoreName.followers) k)) := by
  unfold toggleFollow
  rw [hsome]
  simp [deleteFromStore, hid]

/-- C12. On a followers store with no Follow from `a` to `b` (and whose key
generator can still hand out its current number as a new key), `toggleFollow(a, b)`
returns `true` and `getFollowing(a)` then holds exactly one record with
`followingEmail = b`; a second `toggleFollow(a, b)` returns `false` and
`getFollowing(a)` then holds no record with `followingEmail = b`. -/
theorem toggleFollow_twice (a b : Key) (now₁ now₂ : Int) (db : DB)
    (hno : getFollow a b db = none)
    (hgen : db.followers.keyGen ≤ maxGeneratedKey)
    (hfresh : ∀ r ∈ db.followers.records, r.prop "id" ≠ Val.num db.followers.keyGen) :
    (toggleFollow a b now₁ db).1 = Except.ok true ∧
      (∃ l, getFollowing a (toggleFollow a b now₁ db).2 = Except.ok l ∧
        (l.filter (fun r => decide (r.prop "followingEmail" = b.toVal))).length = 1) ∧
      (toggleFollow a b now₂ (toggleFollow a b now₁ db).2).1 = Except.ok false ∧
      ∃ l, getFollowing a (toggleFollow a b now₂ (toggleFollow a b now₁ db).2).2 = Except.ok l ∧
        ∀ r ∈ l, r.prop "followingEmail" ≠ b.toVal := by
  have hold := (getFollow_eq_none_iff a b db).1 hno
  have h₁ := toggleFollow_of_none a b now₁ db hno hgen hfresh
  have hnew : isFollowOf a b (Obj.setProp
      [("followerEmail", a.toVal), ("followingEmail", b.toVal), ("timestamp", Val.num now₁)]
      "id" (Val.num db.followers.keyGen)) = true := by
    rw [isFollowOf_new]; simp
  have hget : getFollow a b (toggleFollow a b now₁ db).2 = some (Obj.setProp
      [("followerEmail", a.toVal), ("followingEmail", b.toVal), ("timestamp", Val.num now₁)]
      "id" (Val.num db.followers.keyGen)) := by
    rw [h₁]
    exact Store.find?_insertByKey_of_new _ _ _ _ (isFollowOf a b) hnew hold
  have h₂ := toggleFollow_of_some a b now₂ (toggleFollow a b now₁ db).2 _
    (Key.num db.followers.keyGen) hget (by simp [Key.toVal])
  have hpair : ∀ r : Obj, (decide (r.prop "followingEmail" = b.toVal) &&
      decide (r.prop "followerEmail" = a.toVal)) = isFollowOf a b r := by
    intro r
    unfold isFollowOf
    rw [strictEq_toVal_eq_decide, strictEq_toVal_eq_decide, Bool.and_comm]
  have hfun : (fun r : Obj => decide (r.prop "followingEmail" = b.toVal) &&
      decide (r.prop "followerEmail" = a.toVal)) = isFollowOf a b := funext hpair
  refine ⟨by rw [h₁], ⟨_, getFollowing_eq a _, ?_⟩, by rw [h₂], ⟨_, getFollowing_eq a _, ?_⟩⟩
  · rw [List.filter_filter, hfun, h₁]
    show ((Store.insertByKey _ _ _ db.followers.records).filter _).length = 1
    rw [Store.filter_insertByKey]
    have : db.followers.records.filter (isFollowOf a b) = [] := by
      rw [List.filter_eq_nil_iff]
      intro r hr
      simp [hold r hr]
    simp only [hnew, if_true, this]
    rfl
  · intro r hr hb
    have hr' := List.mem_filter.1 hr
    have ha : r.prop "followerEmail" = a.toVal := by simpa using hr'.2
    have hmem : r ∈ db.followers.records := by
      have := hr'.1
      rw [h₂, h₁] at this
      have h3 : r ∈ (Store.insertByKey (schemaOf StoreName.followers)
          (Key.num db.followers.keyGen) (Obj.setProp
            [("followerEmail", a.toVal), ("followingEmail", b.toVal),
              ("timestamp", Val.num now₁)]
            "id" (Val.num db.followers.keyGen)) db.followers.records).filter
          (fun r => (schemaOf StoreName.followers).keyOf r != some (Key.num db.followers.keyGen)) :=
        this
      obtain ⟨hin, hkey⟩ := List.mem_filter.1 h3
      rcases (Store.mem_insertByKey _ _ _ _ _).1 hin with rfl | hold'
      · have : (schemaOf StoreName.followers).keyOf (Obj.setProp
            [("followerEmail", a.toVal), ("followingEmail", b.toVal),
              ("timestamp", Val.num now₁)]
            "id" (Val.num db.followers.keyGen)) = some (Key.num db.followers.keyGen) :=
          (Schema.keyOf_eq_some_iff _ _ _).2 (by simp [schemaOf, Key.toVal])
        rw [this] at hkey
        simp at hkey
      · exact hold'
    have := hold r hmem
    rw [← hpair r] at this
    simp [ha, hb] at this

/-- Witness for C12: `a@x.com` follows `b@x.com` in a new database and then
unfollows. -/
theorem toggleFollow_twice_witness :
    (toggleFollow (Key.str "a@x.com") (Key.str "b@x.com") 7 DB.empty).1 = Except.ok true ∧
      (toggleFollow (Key.str "a@x.com") (Key.str "b@x.com") 8
        (toggleFollow (Key.str "a@x.com") (Key.str "b@x.com") 7 DB.empty).2).1 =
          Except.ok false ∧
      getFollowing (Key.str "a@x.com")
        (toggleFollow (Key.str "a@x.com") (Key.str "b@x.com") 8
          (toggleFollow (Key.str "a@x.com") (Key.str "b@x.com") 7 DB.empty).2).2 =
          Except.ok [] :=
  have h := toggleFollow_twice (Key.str "a@x.com") (Key.str "b@x.com") 7 8 DB.empty
    (by decide) (by decide) (by simp [DB.empty, Store.empty])
  ⟨h.1, h.2.2.1, by decide⟩

/-- C13. `getFollowers(email)` returns exactly the Follow records whose
`followingEmail` is `email`, and `getFollowing(email)` exactly those whose
`followerEmail` is `email`: each result is the followers store filtered by that
field, in store order. -/
theorem getFollowers_getFollowing_exact (email : Key) (db : DB) :
    getFollowers email db = Except.ok
        (db.followers.records.filter (fun r => decide (r.prop "followingEmail" = email.toVal))) ∧
      getFollowing email db = Except.ok
        (db.followers.records.filter (fun r => decide (r.prop "followerEmail" = email.toVal))) ∧
      (∀ l, getFollowers email db = Except.ok l →
        ∀ r, r ∈ l ↔ r ∈ db.followers.records ∧ r.prop "followingEmail" = email.toVal) ∧
      ∀ l, getFollowing email db = Except.ok l →
        ∀ r, r ∈ l ↔ r ∈ db.followers.records ∧ r.prop "followerEmail" = email.toVal := by
  refine ⟨getFollowers_eq email db, getFollowing_eq email db, ?_, ?_⟩
  · intro l hl r
    rw [getFollowers_eq] at hl
    cases hl
    simp [List.mem_filter]
  · intro l hl r
    rw [getFollowing_eq] at hl
    cases hl
    simp [List.mem_filter]

/-- C14. `deletePost(postId)` leaves the comments store and the likes store as
they were, whatever the state and the post id; the comments and the likes of
the deleted post are still returned by the index lookups under its id. -/
theorem deletePost_no_cascade (postId : Key) (db : DB) :
    (deletePost postId db).2.comments = db.comments ∧
      (deletePost postId db).2.likes = db.likes ∧
      getComments postId (deletePost postId db).2 = getComments postId db ∧
      getAllFromIndex StoreName.likes "post" postId (deletePost postId db).2 =
        getAllFromIndex StoreName.likes "post" postId db := by
  have h : (deletePost postId db).2 = db.setStore StoreName.posts
      ((db.store StoreName.posts).delete (schemaOf StoreName.posts) postId) := by
    simp [deletePost, deleteFromStore]
  rw [h]
  exact ⟨rfl, rfl, rfl, rfl⟩

/-! ## Adds to the auto-increment stores -/

theorem Store.sublist_insertByKey (sch : Schema) (k : Key) (v : Obj) (rs : List Obj) :
    rs.Sublist (Store.insertByKey sch k v rs) := by
  obtain ⟨l₁, l₂, h₁, h₂⟩ := Store.insertByKey_split sch k v rs
  rw [h₂]
  nth_rewrite 1 [h₁]
  exact List.Sublist.append_left (List.sublist_cons_self v l₂) l₁

/-- An add of a record without an id to an auto-increment store whose generator
is in use succeeds and inserts the record under the generated key. -/
theorem addToStore_insertedFresh (n : StoreName) (data : Obj) (db : DB)
    (ha : (schemaOf n).autoIncrement = true)
    (hk : data.prop (schemaOf n).keyPath = Val.undef)
    (hkb : KeysBelowGen n db) (hg : (db.store n).keyGen ≤ maxGeneratedKey) :
    ∃ key db', addToStore n data db = (Except.ok key, db') ∧ InsertedFresh n db db' key := by
  have hfresh := keysBelowGen_fresh n db hkb hg
  refine ⟨_, _, addToStore_generate n data db ha hk hg hfresh, (db.store n).keyGen,
    data.setProp (schemaOf n).keyPath (Val.num (db.store n).keyGen), rfl, by simp, hfresh,
    ?_, ?_, ?_⟩
  · intro x
    rw [DB.store_setStore_same]
    exact Store.mem_insertByKey _ _ _ _ _
  · rw [DB.store_setStore_same]
    exact Store.sublist_insertByKey _ _ _ _
  · intro m hm
    exact DB.store_setStore_other db n m _ hm

/-- C17, counterexample. A `postData` that carries the id of a stored post is
not given a new key: `createPost` fails with `ConstraintError`. -/
theorem createPost_with_stored_id_fails :
    (createPost [("content", Val.str "x")] 1 DB.empty).1 = Except.ok (Val.num 1) ∧
      createPost [("id", Val.num 1), ("content", Val.str "y")] 2
          (createPost [("content", Val.str "x")] 1 DB.empty).2 =
        (Except.error Err.ConstraintError, (createPost [("content", Val.str "x")] 1 DB.empty).2) :=
  ⟨by decide, by decide⟩

/-- C17, amended. In a database whose key generators are in use (numeric keys
below the current number, which is at most 2^53), the adds to the
auto-increment stores succeed for every input that carries no `id` of its own:
`createPost` and `addComment` for a record without `id`, `storeMedia` for every
blob, and the insert branch of `toggleLike` and `toggleFollow`.  Each inserts
its record under the generated key, a key that no record of the store had, and
keeps every record that was there. -/
theorem auto_increment_adds_succeed (db : DB) (hkb : ∀ n, KeysBelowGen n db)
    (hg : ∀ n, (db.store n).keyGen ≤ maxGeneratedKey) :
    (∀ (postData : Obj) (now : Int), postData.prop "id" = Val.undef →
        ∃ key db', createPost postData now db = (Except.ok key, db') ∧
          InsertedFresh StoreName.posts db db' key) ∧
      (∀ (comment : Obj) (now : Int), comment.prop "id" = Val.undef →
        ∃ key db', addComment comment now db = (Except.ok key, db') ∧
          InsertedFresh StoreName.comments db db' key) ∧
      (∀ (mime : String) (bytes : List Nat) (ownerEmail : Val) (now : Int),
        ∃ key db', storeMedia mime bytes ownerEmail now db = (Except.ok key, db') ∧
          InsertedFresh StoreName.media db db' key) ∧
      (∀ (p u : Key) (now : Int), getLike p u db = none →
        ∃ key db', toggleLike p u now db = (Except.ok true, db') ∧
          InsertedFresh StoreName.likes db db' key) ∧
      ∀ (a b : Key) (now : Int), getFollow a b db = none →
        ∃ key db', toggleFollow a b now db = (Except.ok true, db') ∧
          InsertedFresh StoreName.followers db db' key := by
  refine ⟨?_, ?_, ?_, ?_, ?_⟩
  · intro postData now hid
    simp only [createPost]
    exact addToStore_insertedFresh StoreName.posts _ db rfl (by simp [schemaOf, hid])
      (hkb _) (hg _)
  · intro comment now hid
    simp only [addComment]
    exact addToStore_insertedFresh StoreName.comments _ db rfl (by simp [schemaOf, hid])
      (hkb _) (hg _)
  · intro mime bytes ownerEmail now
    simp only [storeMedia]
    exact addToStore_insertedFresh StoreName.media _ db rfl
      (by simp [schemaOf, Obj.prop, Obj.lookup?]) (hkb _) (hg _)
  · intro p u now hno
    obtain ⟨key, db', hadd, hins⟩ := addToStore_insertedFresh StoreName.likes
      [("postId", p.toVal), ("userEmail", u.toVal), ("timestamp", Val.num now)] db rfl
      (by simp [schemaOf, Obj.prop, Obj.lookup?]) (hkb _) (hg _)
    refine ⟨key, db', ?_, hins⟩
    unfold toggleLike
    rw [hno]
    simp only
    rw [hadd]
  · intro a b now hno
    obtain ⟨key, db', hadd, hins⟩ := addToStore_insertedFresh StoreName.followers
      [("followerEmail", a.toVal), ("followingEmail", b.toVal), ("timestamp", Val.num now)] db
      rfl (by simp [schemaOf, Obj.prop, Obj.lookup?]) (hkb _) (hg _)
    refine ⟨key, db', ?_, hins⟩
    unfold toggleFollow
    rw [hno]
    simp only
    rw [hadd]

/-- Witness for C17: the first post of a new database gets the key 1. -/
theorem auto_increment_adds_succeed_witness :
    ∃ key db', createPost [("content", Val.str "x")] 1 DB.empty = (Except.ok key, db') ∧
      InsertedFresh StoreName.posts DB.empty db' key :=
  (auto_increment_adds_succeed DB.empty keysBelowGen_empty
    (fun n => by cases n <;> decide)).1 [("content", Val.str "x")] 1 (by decide)

/-! ## The key generator invariant under adds

Every add to an auto-increment store, with or without an explicit key, keeps the
numeric keys below the generator while the generator has not run out. -/

theorem bumpKeyGen_num_lt (g : Nat) (n₀ : Int)
    (hle : Store.bumpKeyGen g (Key.num n₀) ≤ maxGeneratedKey) :
    n₀ < (Store.bumpKeyGen g (Key.num n₀) : Int) ∧ g ≤ Store.bumpKeyGen g (Key.num n₀) := by
  unfold Store.bumpKeyGen at hle ⊢
  by_cases h : (g : Int) ≤ n₀
  · simp only [h, if_true] at hle ⊢
    have hmax : (0 : Int) ≤ (maxGeneratedKey : Int) := Int.ofNat_nonneg _
    have hn₀ : (0 : Int) ≤ n₀ := le_trans (Int.ofNat_nonneg g) h
    rcases le_total n₀ (maxGeneratedKey : Int) with hm | hm
    · rw [min_eq_left hm] at hle ⊢
      constructor
      · omega
      · omega
    · rw [min_eq_right hm] at hle
      simp at hle
  · simp only [h, if_false]
    constructor
    · omega
    · exact le_refl _

theorem addToStore_keysBelowGen (n : StoreName) (data : Obj) (db : DB)
    (ha : (schemaOf n).autoIncrement = true) (h : KeysBelowGen n db) :
    KeysBelowGen n (addToStore n data db).2 := by
  by_cases hk : data.prop (schemaOf n).keyPath = Val.undef
  · rcases addToStore_generate_cases n data db ha hk with ⟨e, he⟩ | hok
    · rw [he]; exact h
    · rw [hok]
      intro hg r hr m hm
      simp only [DB.store_setStore_same] at hg hr ⊢
      have hg' : (db.store n).keyGen ≤ maxGeneratedKey := Nat.le_of_succ_le hg
      rcases (Store.mem_insertByKey _ _ _ _ _).1 hr with rfl | hold
      · have : (Val.num ((db.store n).keyGen : Int)) = Val.num m := by
          rw [← hm]; simp
        have := Val.num.inj this
        omega
      · have := h hg' r hold m hm
        omega
  · cases hkey : (data.prop (schemaOf n).keyPath).toKey? with
    | none =>
      have : addToStore n data db = (Except.error Err.DataError, db) := by
        simp [addToStore, Store.add, Store.resolveKey, hk, hkey]
      rw [this]; exact h
    | some k =>
      have hkv := Val.toKey?_eq_some hkey
      by_cases hnew : ∀ r ∈ (db.store n).records, r.prop (schemaOf n).keyPath ≠ k.toVal
      · rw [addToStore_of_absent n data db k hkv hnew]
        simp only [ha, if_true]
        intro hg r hr m hm
        simp only [DB.store_setStore_same] at hg hr ⊢
        have hg₂ : Store.bumpKeyGen (db.store n).keyGen k ≤ maxGeneratedKey := hg
        cases k with
        | num n₀ =>
          obtain ⟨h₁, h₂⟩ := bumpKeyGen_num_lt _ n₀ hg₂
          rcases (Store.mem_insertByKey _ _ _ _ _).1 hr with rfl | hold
          · have : Val.num n₀ = Val.num m := by rw [← hm, hkv]; rfl
            have := Val.num.inj this
            omega
          · have := h (le_trans h₂ hg₂) r hold m hm
            omega
        | str s₀ =>
          have hb : Store.bumpKeyGen (db.store n).keyGen (Key.str s₀) = (db.store n).keyGen := rfl
          rw [hb] at hg₂ ⊢
          rcases (Store.mem_insertByKey _ _ _ _ _).1 hr with rfl | hold
          · rw [hkv] at hm
            cases hm
          · exact h hg₂ r hold m hm
      · have hex : ∃ r ∈ (db.store n).records, r.prop (schemaOf n).keyPath = k.toVal := by
          by_contra hc
          exact hnew (fun r hr e => hc ⟨r, hr, e⟩)
        obtain ⟨r, hr, hrk⟩ := hex
        rw [addToStore_of_present n data db k hkv r hr hrk]
        exact h

/-! ## The upgrade handler -/

theorem objectStoreNamesContains_append (db : IDBDatabase) (s : ObjectStore) (name : String) :
    objectStoreNamesContains (db ++ [s]) name =
      (objectStoreNamesContains db name || s.name == name) := by
  simp [objectStoreNamesContains]

theorem map_addIndex_of_absent (db : IDBDatabase) (name : String) (ix : IndexSpec)
    (h : objectStoreNamesContains db name = false) :
    db.map (fun s => if s.name = name then
      ({ s with schema := { s.schema with indexes := s.schema.indexes ++ [ix] } } : ObjectStore)
      else s) = db := by
  have h' : ∀ s ∈ db, ¬ s.name = name := by
    simpa [objectStoreNamesContains] using h
  calc db.map _ = db.map id := List.map_congr_left (fun s hs => by simp [h' s hs])
    _ = db := List.map_id db

/-- One block of the handler creates its store, with both indexes, exactly when
the database has no store of that name, and never fails. -/
theorem upgradeStore_eq (db : IDBDatabase) (name keyPath : String) (autoIncrement : Bool)
    (ix₁ ix₂ : IndexSpec) (hne : ix₁.name ≠ ix₂.name) :
    upgradeStore db name keyPath autoIncrement ix₁ ix₂ =
      Except.ok (if objectStoreNamesContains db name then db
        else db ++ [⟨name, ⟨keyPath, autoIncrement, [ix₁, ix₂]⟩, Store.empty⟩]) := by
  unfold upgradeStore
  cases hc : objectStoreNamesContains db name with
  | true => simp
  | false =>
    have hany : ∀ (l : List IndexSpec) (i : IndexSpec),
        (db.any fun s => s.name == name && s.schema.indexes.any fun j => j.name == i.name)
          = false := by
      intro l i
      rw [List.any_eq_false]
      intro s hs
      have : ¬ s.name = name := by
        have := hc
        simp only [objectStoreNamesContains, List.any_eq_false, beq_iff_eq] at this
        exact this s hs
      simp [this]
    have hmap := map_addIndex_of_absent db name
    have hne' : (ix₁.name == ix₂.name) = false := by simpa using hne
    simp [createObjectStore, createIndex, hc, objectStoreNamesContains_append, List.any_append,
      hany [] ix₁, hany [] ix₂, hmap, hne']

theorem addMissing_cons (db : IDBDatabase) (s : ObjectStore) (decl : List ObjectStore) :
    addMissing db (s :: decl) =
      addMissing (if objectStoreNamesContains db s.name then db else db ++ [s]) decl := rfl

/-- The handler never fails: it extends the database by the declared stores
whose name the database lacks. -/
theorem onupgradeneeded_eq (db : IDBDatabase) :
    onupgradeneeded db = Except.ok (addMissing db declaredStores) := by
  unfold onupgradeneeded
  simp only [bind, Except.bind]
  rw [upgradeStore_eq _ _ _ _ _ _ (by decide)]
  simp only
  rw [upgradeStore_eq _ _ _ _ _ _ (by decide)]
  simp only
  rw [upgradeStore_eq _ _ _ _ _ _ (by decide)]
  simp only
  rw [upgradeStore_eq _ _ _ _ _ _ (by decide)]
  simp only
  rw [upgradeStore_eq _ _ _ _ _ _ (by decide)]
  simp only
  rw [upgradeStore_eq _ _ _ _ _ _ (by decide)]
  rfl

theorem addMissing_eq_append (decl : List ObjectStore) (hnd : (decl.map (fun s => s.name)).Nodup)
    (db : IDBDatabase) :
    addMissing db decl = db ++ decl.filter (fun s => !objectStoreNamesContains db s.name) := by
  induction decl generalizing db with
  | nil => simp [addMissing]
  | cons s decl ih =>
    have hnd' : (decl.map (fun s => s.name)).Nodup := (List.nodup_cons.1 hnd).2
    have hs : ∀ r ∈ decl, ¬ s.name = r.name := by
      intro r hr e
      exact (List.nodup_cons.1 hnd).1 (List.mem_map.2 ⟨r, hr, e.symm⟩)
    rw [addMissing_cons, ih hnd']
    cases hc : objectStoreNamesContains db s.name with
    | true => simp [List.filter_cons, hc]
    | false =>
      simp only [Bool.false_eq_true, if_false, List.filter_cons, hc, Bool.not_false, if_true,
        List.append_assoc, List.singleton_append]
      congr 2
      apply List.filter_congr
      intro r hr
      rw [objectStoreNamesContains_append]
      simp [hs r hr]

theorem objectStoreNamesContains_addMissing (decl : List ObjectStore) (db : IDBDatabase)
    (s : ObjectStore) (hs : s ∈ decl) :
    objectStoreNamesContains (addMissing db decl) s.name = true := by
  induction decl generalizing db with
  | nil => simp at hs
  | cons t decl ih =>
    have hmono : ∀ (l : List ObjectStore) (d : IDBDatabase) (n : String),
        objectStoreNamesContains d n = true → objectStoreNamesContains (addMissing d l) n = true := by
      intro l
      induction l with
      | nil => intro d n h; exact h
      | cons u l ihl =>
        intro d n h
        rw [addMissing_cons]
        apply ihl
        split
        · exact h
        · rw [objectStoreNamesContains_append, h]; rfl
    rw [addMissing_cons]
    rcases List.mem_cons.1 hs with rfl | hin
    · apply hmono
      split
      · assumption
      · rw [objectStoreNamesContains_append]; simp
    · exact ih _ hin

theorem addMissing_idem (decl : List ObjectStore) (db : IDBDatabase)
    (h : ∀ s ∈ decl, objectStoreNamesContains db s.name = true) : addMissing db decl = db := by
  induction decl with
  | nil => rfl
  | cons s decl ih =>
    rw [addMissing_cons, h s (List.mem_cons_self _ _)]
    exact ih (fun r hr => h r (List.mem_cons_of_mem _ hr))

/-- C15. The upgrade handler is additive and idempotent.  Run on a database with
any object stores, it succeeds and returns the database followed by newly
created stores: exactly the stores among the six whose name the database
lacks, each empty and with its declaration; the existing stores, their
declarations and their records are as they were.  Run on its own result, it
changes nothing. -/
theorem onupgradeneeded_additive_idempotent (db : IDBDatabase) :
    ∃ created : List ObjectStore,
      onupgradeneeded db = Except.ok (db ++ created) ∧
      created = declaredStores.filter (fun s => !objectStoreNamesContains db s.name) ∧
      created.map (fun s => s.name) =
        ["users", "posts", "media", "comments", "likes", "followers"].filter
          (fun n => !objectStoreNamesContains db n) ∧
      (∀ s ∈ created, s.store = Store.empty ∧
        ∃ n : StoreName, s.name = n.name ∧ s.schema = schemaOf n) ∧
      onupgradeneeded (db ++ created) = Except.ok (db ++ created) := by
  have hnd : (declaredStores.map (fun s => s.name)).Nodup := by decide
  have heq := addMissing_eq_append declaredStores hnd db
  refine ⟨_, by rw [onupgradeneeded_eq, heq], rfl, ?_, ?_, ?_⟩
  · have hnames : ["users", "posts", "media", "comments", "likes", "followers"] =
        declaredStores.map (fun s => s.name) := by decide
    rw [hnames, List.filter_map]
    rfl
  · intro s hs
    have hmem := (List.mem_filter.1 hs).1
    simp only [declaredStores, List.map_cons, List.map_nil, List.mem_cons, List.mem_singleton,
      List.not_mem_nil, or_false] at hmem
    rcases hmem with rfl | rfl | rfl | rfl | rfl | rfl
    · exact ⟨rfl, StoreName.users, rfl, rfl⟩
    · exact ⟨rfl, StoreName.posts, rfl, rfl⟩
    · exact ⟨rfl, StoreName.media, rfl, rfl⟩
    · exact ⟨rfl, StoreName.comments, rfl, rfl⟩
    · exact ⟨rfl, StoreName.likes, rfl, rfl⟩
    · exact ⟨rfl, StoreName.followers, rfl, rfl⟩
  · rw [onupgradeneeded_eq, ← heq,
      addMissing_idem declaredStores (addMissing db declaredStores)
        (fun s hs => objectStoreNamesContains_addMissing declaredStores db s hs)]

/-- C16, counterexample. After the handler ran on an empty database, the users
store has two indexes, `name` and `email`: `name` is not its only index. -/
theorem onupgradeneeded_users_has_email_index :
    ∃ db' s, onupgradeneeded [] = Except.ok db' ∧ s ∈ db' ∧ s.name = "users" ∧
      s.schema.indexes.map (fun ix => ix.name) = ["name", "email"] ∧
      s.schema.indexes.map (fun ix => ix.name) ≠ ["name"] :=
  ⟨declaredStores, ⟨"users", schemaOf StoreName.users, Store.empty⟩, by decide, by decide,
    rfl, by decide, by decide⟩

/-- C16, amended. After the handler ran on an empty database, the schema is: six
stores; `users` keyed by `email` without key generator, the other five keyed by
an auto-increment `id`; and the indexes are exactly users: `name` (on
`firstName`, `lastName`) and `email` (unique); posts: `author`, `timestamp`;
media: `owner`, `type`; comments: `post`, `author`; likes: `post`, `user`;
followers: `follower`, `following`.  Each store is empty and has the declaration
that `schemaOf` gives it. -/
theorem onupgradeneeded_empty_schema :
    onupgradeneeded [] = Except.ok
      [⟨"users", ⟨"email", false,
          [⟨"name", ["firstName", "lastName"], false⟩, ⟨"email", ["email"], true⟩]⟩, Store.empty⟩,
        ⟨"posts", ⟨"id", true,
          [⟨"author", ["authorEmail"], false⟩, ⟨"timestamp", ["timestamp"], false⟩]⟩, Store.empty⟩,
        ⟨"media", ⟨"id", true,
          [⟨"owner", ["ownerEmail"], false⟩, ⟨"type", ["type"], false⟩]⟩, Store.empty⟩,
        ⟨"comments", ⟨"id", true,
          [⟨"post", ["postId"], false⟩, ⟨"author", ["authorEmail"], false⟩]⟩, Store.empty⟩,
        ⟨"likes", ⟨"id", true,
          [⟨"post", ["postId"], false⟩, ⟨"user", ["userEmail"], false⟩]⟩, Store.empty⟩,
        ⟨"followers", ⟨"id", true,
          [⟨"follower", ["followerEmail"], false⟩, ⟨"following", ["followingEmail"], false⟩]⟩,
          Store.empty⟩] ∧
      ∀ n : StoreName, ∃ db', onupgradeneeded [] = Except.ok db' ∧
        (⟨n.name, schemaOf n, Store.empty⟩ : ObjectStore) ∈ db' := by
  refine ⟨by decide, fun n => ⟨declaredStores, by decide, ?_⟩⟩
  cases n <;> decide

/-! ## The service worker: activation -/

theorem foldl_delete_eq_filter (cacheName : String) (names : List String)
    (caches : CacheStorage) :
    names.foldl (fun cs name => if name ≠ cacheName then cachesDelete cs name else cs) caches =
      caches.filter (fun c => c.1 == cacheName || !decide (c.1 ∈ names)) := by
  induction names generalizing caches with
  | nil => simp
  | cons n ns ih =>
    rw [List.foldl_cons, ih]
    by_cases hn : n = cacheName
    · subst hn
      simp only [ne_eq, not_true_eq_false, if_false]
      apply List.filter_congr
      intro c _
      by_cases hc : c.1 = n <;> simp [hc]
    · simp only [ne_eq, hn, not_false_eq_true, if_true, cachesDelete, List.filter_filter]
      apply List.filter_congr
      intro c _
      by_cases hc : c.1 = n
      · have : ¬ c.1 = cacheName := fun e => hn (hc ▸ e)
        simp [hc, hn]
      · by_cases hc' : c.1 = cacheName
        · have : ¬ cacheName = n := fun e => hn e.symm
          simp [hc', this]
        · simp [hc, hc']

/-- C18. After the `activate` listener, the cache storage holds exactly its
caches of the name `CACHE_NAME` (here `cacheName`), with their entries: no cache
of another name remains, and a cache of that name is kept with its entries
unchanged.  After an activation with `v2` over the caches `v1` and `v2`, only
`v2` remains. -/
theorem onActivate_keeps_only_current (cacheName : String) (caches : CacheStorage) :
    onActivate cacheName caches = caches.filter (fun c => c.1 == cacheName) ∧
      (∀ c ∈ onActivate cacheName caches, c.1 = cacheName) ∧
      (∀ entries, (cacheName, entries) ∈ caches →
        (cacheName, entries) ∈ onActivate cacheName caches) ∧
      ∀ old current : Cache,
        onActivate "v2" [("v1", old), ("v2", current)] = [("v2", current)] := by
  have h : ∀ cn (cs : CacheStorage), onActivate cn cs = cs.filter (fun c => c.1 == cn) := by
    intro cn cs
    unfold onActivate
    rw [foldl_delete_eq_filter]
    apply List.filter_congr
    intro c hc
    have : c.1 ∈ cachesKeys cs := List.mem_map.2 ⟨c, hc, rfl⟩
    simp [this]
  refine ⟨h _ _, ?_, ?_, ?_⟩
  · intro c hc
    rw [h] at hc
    simpa using (List.mem_filter.1 hc).2
  · intro entries he
    rw [h]
    exact List.mem_filter.2 ⟨he, by simp⟩
  · intro old current
    rw [h]
    simp [List.filter_cons]

/-! ## The service worker: static assets -/

theorem cacheMatch_eq_some (cache : Cache) (request : Request) (response : Response)
    (h : cacheMatch cache request = some response) :
    request.method = "GET" ∧ ∃ e ∈ cache, e.1.url = request.url ∧ e.2 = response := by
  unfold cacheMatch at h
  by_cases hm : request.method = "GET"
  · simp only [hm, if_true, Option.map_eq_some'] at h
    obtain ⟨e, he, hr⟩ := h
    exact ⟨hm, e, List.mem_of_find?_eq_some he, by simpa using List.find?_some he, hr⟩
  · simp [hm] at h

/-- C19. Cache-first: for a same-origin, non-API request for which
`caches.match` finds an entry, the `fetch` listener answers with the response of
that entry, issues no network fetch and leaves the cache storage unchanged.
The entry found is one of a cache of the storage, stored under the URL of the
request, and the request is a `GET`. -/
theorem onFetch_cache_first (origin cacheName : String) (fetch : Request → Option Response)
    (handleApiRequest : Request → CacheStorage → FetchOutcome) (request : Request)
    (caches : CacheStorage) (response : Response)
    (hso : startsWith request.url origin = true)
    (hapi : includes request.url "/api/" = false)
    (hhit : cachesMatch caches request = some response) :
    onFetch origin cacheName fetch handleApiRequest request caches =
        ⟨Responded.response response, [], caches⟩ ∧
      request.method = "GET" ∧
      ∃ c ∈ caches, ∃ e ∈ c.2, e.1.url = request.url ∧ e.2 = response := by
  refine ⟨?_, ?_⟩
  · simp [onFetch, hso, hapi, respondStatic, hhit]
  · unfold cachesMatch at hhit
    obtain ⟨c, hc, hm⟩ := List.exists_of_findSome?_eq_some hhit
    obtain ⟨hget, e, he, hu, hr⟩ := cacheMatch_eq_some _ _ _ hm
    exact ⟨hget, c, hc, e, he, hu, hr⟩

/-- Witness for C19: a style sheet that the current cache holds. -/
theorem onFetch_cache_first_witness :
    onFetch "https://moji.example" CACHE_NAME (fun _ => none)
        (fun _ cs => ⟨Responded.networkError, [], cs⟩)
        ⟨"https://moji.example/client/css/effects.css", "GET", [], ""⟩
        [(CACHE_NAME, [(⟨"https://moji.example/client/css/effects.css", "GET", [], ""⟩,
          ⟨200, ResponseType.basic, "css"⟩)])] =
      ⟨Responded.response ⟨200, ResponseType.basic, "css"⟩, [],
        [(CACHE_NAME, [(⟨"https://moji.example/client/css/effects.css", "GET", [], ""⟩,
          ⟨200, ResponseType.basic, "css"⟩)])]⟩ :=
  (onFetch_cache_first "https://moji.example" CACHE_NAME (fun _ => none)
    (fun _ cs => ⟨Responded.networkError, [], cs⟩)
    ⟨"https://moji.example/client/css/effects.css", "GET", [], ""⟩ _
    ⟨200, ResponseType.basic, "css"⟩ (by decide) (by decide) (by decide)).1

theorem findSome?_eq_some_of_forall {α β : Type} (f : α → Option β) (x : β) (l : List α)
    (hall : ∀ a ∈ l, f a = none ∨ f a = some x) (hex : ∃ a ∈ l, f a = some x) :
    l.findSome? f = some x := by
  induction l with
  | nil => obtain ⟨a, ha, _⟩ := hex; simp at ha
  | cons a l ih =>
    rw [List.findSome?_cons]
    rcases hall a (List.mem_cons_self _ _) with h | h
    · rw [h]
      apply ih (fun b hb => hall b (List.mem_cons_of_mem _ hb))
      obtain ⟨b, hb, hfb⟩ := hex
      rcases List.mem_cons.1 hb with rfl | hbl
      · rw [h] at hfb; cases hfb
      · exact ⟨b, hbl, hfb⟩
    · rw [h]

theorem cacheMatch_put (cache : Cache) (request : Request) (response : Response)
    (hget : request.method = "GET") :
    cacheMatch (cache.filter (fun e => e.1.url != request.url) ++ [(request, response)]) request
      = some response := by
  unfold cacheMatch
  simp only [hget, if_true, List.find?_append]
  have : (cache.filter (fun e => e.1.url != request.url)).find?
      (fun e => e.1.url == request.url) = none := by
    rw [List.find?_eq_none]
    intro e he
    have := (List.mem_filter.1 he).2
    simpa using this
  simp [this]

theorem mem_cachesOpen (caches : CacheStorage) (cacheName : String) (c : String × Cache) :
    c ∈ cachesOpen caches cacheName → c ∈ caches ∨ c = (cacheName, []) := by
  unfold cachesOpen
  split
  · exact fun h => Or.inl h
  · intro h
    rcases List.mem_append.1 h with h | h
    · exact Or.inl h
    · exact Or.inr (by simpa using h)

theorem exists_mem_cachesOpen (caches : CacheStorage) (cacheName : String) :
    ∃ c ∈ cachesOpen caches cacheName, c.1 = cacheName := by
  unfold cachesOpen
  split
  · rename_i h
    obtain ⟨c, hc, hn⟩ := List.any_eq_true.1 h
    exact ⟨c, hc, by simpa using hn⟩
  · exact ⟨(cacheName, []), by simp, rfl⟩

/-- C20, counterexample. A same-origin, non-API `POST` request has no cached
entry and gets a successful `basic` response from the network; the `fetch`
listener passes the response on, but no copy is stored: the cache is as it
was and still has no entry for the request. -/
theorem onFetch_post_not_stored :
    startsWith "https://moji.example/contact" "https://moji.example" = true ∧
      includes "https://moji.example/contact" "/api/" = false ∧
      cachesMatch [(CACHE_NAME, [])] ⟨"https://moji.example/contact", "POST", [], "hello"⟩ = none ∧
      onFetch "https://moji.example" CACHE_NAME (fun _ => some ⟨200, ResponseType.basic, "ok"⟩)
          (fun _ cs => ⟨Responded.networkError, [], cs⟩)
          ⟨"https://moji.example/contact", "POST", [], "hello"⟩ [(CACHE_NAME, [])] =
        ⟨Responded.response ⟨200, ResponseType.basic, "ok"⟩,
          [⟨"https://moji.example/contact", "POST", [], "hello"⟩], [(CACHE_NAME, [])]⟩ :=
  ⟨by decide, by decide, by decide, by decide⟩

/-- C20, amended. For a same-origin, non-API `GET` request with no cached entry,
the `fetch` listener issues one network fetch.  A failed fetch is a network
error for the page.  A response is returned unchanged; if its status is 200 and
its type is `basic`, a copy is stored under the request in the cache
`CACHE_NAME` (created if there was none), so that `caches.match` then finds it,
and every cache of another name is as it was; a response of another status or
type is passed through and the cache storage is left unchanged. -/
theorem onFetch_network (origin cacheName : String) (fetch : Request → Option Response)
    (handleApiRequest : Request → CacheStorage → FetchOutcome) (request : Request)
    (caches : CacheStorage)
    (hso : startsWith request.url origin = true)
    (hapi : includes request.url "/api/" = false)
    (hget : request.method = "GET")
    (hmiss : cachesMatch caches request = none) :
    (fetch request = none →
        onFetch origin cacheName fetch handleApiRequest request caches =
          ⟨Responded.networkError, [request], caches⟩) ∧
      (∀ response, fetch request = some response →
        ¬ (response.status = 200 ∧ response.type = ResponseType.basic) →
        onFetch origin cacheName fetch handleApiRequest request caches =
          ⟨Responded.response response, [request], caches⟩) ∧
      ∀ response, fetch request = some response →
        response.status = 200 → response.type = ResponseType.basic →
        ∃ caches', onFetch origin cacheName fetch handleApiRequest request caches =
            ⟨Responded.response response, [request], caches'⟩ ∧
          cachesMatch caches' request = some response ∧
          (∃ c ∈ caches', c.1 = cacheName ∧ (request, response) ∈ c.2) ∧
          (∀ entries, (cacheName, entries) ∈ caches →
            (cacheName, entries ++ [(request, response)]) ∈ caches') ∧
          ∀ c : String × Cache, c.1 ≠ cacheName → (c ∈ caches' ↔ c ∈ caches) := by
  have hnone : ∀ c ∈ caches, cacheMatch c.2 request = none := by
    unfold cachesMatch at hmiss
    exact List.findSome?_eq_none_iff.1 hmiss
  have hnourl : ∀ c ∈ caches, ∀ e ∈ c.2, (e.1.url != request.url) = true := by
    intro c hc e he
    have := hnone c hc
    simp only [cacheMatch, hget, if_true, Option.map_eq_none', List.find?_eq_none] at this
    simpa using this e he
  refine ⟨?_, ?_, ?_⟩
  · intro hf
    simp [onFetch, hso, hapi, respondStatic, hmiss, hf]
  · intro response hf hbad
    have : response.status ≠ 200 ∨ response.type ≠ ResponseType.basic := by
      by_cases h₁ : response.status = 200
      · exact Or.inr (fun h₂ => hbad ⟨h₁, h₂⟩)
      · exact Or.inl h₁
    simp [onFetch, hso, hapi, respondStatic, hmiss, hf, this]
  · intro response hf hs ht
    have hput : ∀ cache : Cache, cachePut cache request response =
        some (cache.filter (fun e => e.1.url != request.url) ++ [(request, response)]) := by
      intro cache
      simp [cachePut, hget, hs]
    refine ⟨openAndPut caches cacheName request response, ?_, ?_, ?_, ?_, ?_⟩
    · simp [onFetch, hso, hapi, respondStatic, hmiss, hf, hs, ht]
    · unfold cachesMatch openAndPut
      rw [List.findSome?_map]
      apply findSome?_eq_some_of_forall
      · intro c hc
        by_cases hn : c.1 = cacheName
        · right
          simp only [Function.comp, hn, if_true, hput, Option.getD_some]
          exact cacheMatch_put _ _ _ hget
        · left
          simp only [Function.comp, hn, if_false]
          rcases mem_cachesOpen _ _ _ hc with h | h
          · exact hnone c h
          · rw [h] at hn
            exact absurd rfl hn
      · obtain ⟨c, hc, hn⟩ := exists_mem_cachesOpen caches cacheName
        refine ⟨c, hc, ?_⟩
        simp only [Function.comp, hn, if_true, hput, Option.getD_some]
        exact cacheMatch_put _ _ _ hget
    · obtain ⟨c, hc, hn⟩ := exists_mem_cachesOpen caches cacheName
      refine ⟨(c.1, (cachePut c.2 request response).getD c.2), ?_, hn, ?_⟩
      · unfold openAndPut
        exact List.mem_map.2 ⟨c, hc, by simp [hn]⟩
      · simp [hput]
    · intro entries he
      unfold openAndPut
      refine List.mem_map.2 ⟨(cacheName, entries), ?_, ?_⟩
      · unfold cachesOpen
        have : caches.any (fun c => c.1 == cacheName) = true :=
          List.any_eq_true.2 ⟨_, he, by simp⟩
        simp [this, he]
      · have hfil : entries.filter (fun e => e.1.url != request.url) = entries :=
          List.filter_eq_self.2 (hnourl _ he)
        simp [hput, hfil]
    · intro c hn
      unfold openAndPut
      constructor
      · intro hc
        obtain ⟨d, hd, hdc⟩ := List.mem_map.1 hc
        by_cases hdn : d.1 = cacheName
        · simp only [hdn, if_true] at hdc
          rw [← hdc] at hn
          exact absurd rfl hn
        · simp only [hdn, if_false] at hdc
          rw [← hdc]
          rcases mem_cachesOpen _ _ _ hd with h | h
          · exact h
          · rw [h] at hdn
            exact absurd rfl hdn
      · intro hc
        refine List.mem_map.2 ⟨c, ?_, by simp [hn]⟩
        unfold cachesOpen
        split
        · exact hc
        · exact List.mem_append_left _ hc

/-- Witness for C20: a script that no cache holds is fetched and stored. -/
theorem onFetch_network_witness :
    ∃ caches', onFetch "https://moji.example" CACHE_NAME
        (fun _ => some ⟨200, ResponseType.basic, "js"⟩)
        (fun _ cs => ⟨Responded.networkError, [], cs⟩)
        ⟨"https://moji.example/client/js/ui.js", "GET", [], ""⟩ [] =
          ⟨Responded.response ⟨200, ResponseType.basic, "js"⟩,
            [⟨"https://moji.example/client/js/ui.js", "GET", [], ""⟩], caches'⟩ ∧
      cachesMatch caches' ⟨"https://moji.example/client/js/ui.js", "GET", [], ""⟩ =
        some ⟨200, ResponseType.basic, "js"⟩ := by
  obtain ⟨caches', h₁, h₂, _⟩ := (onFetch_network "https://moji.example" CACHE_NAME
    (fun _ => some ⟨200, ResponseType.basic, "js"⟩)
    (fun _ cs => ⟨Responded.networkError, [], cs⟩)
    ⟨"https://moji.example/client/js/ui.js", "GET", [], ""⟩ []
    (by decide) (by decide) rfl (by decide)).2.2 ⟨200, ResponseType.basic, "js"⟩ rfl rfl rfl
  exact ⟨caches', h₁, h₂⟩

/-! ## The toggle step by step -/

/-- `toggleLike` is its check followed by the write that the check decides. -/
theorem toggleLike_eq_check_write (p u : Key) (now : Int) (db : DB) :
    toggleLike p u now db = toggleLikeWrite p u now (getLike p u db) db := by
  unfold toggleLike toggleLikeWrite
  cases getLike p u db with
  | some like => simp only
  | none => simp only

theorem toggleLikeWrite_none (p u : Key) (now : Int) (db : DB)
    (hgen : db.likes.keyGen ≤ maxGeneratedKey)
    (hfresh : ∀ r ∈ db.likes.records, r.prop "id" ≠ Val.num db.likes.keyGen) :
    toggleLikeWrite p u now none db =
      (Except.ok true, db.setStore StoreName.likes
        { records := Store.insertByKey (schemaOf StoreName.likes) (Key.num db.likes.keyGen)
            (Obj.setProp [("postId", p.toVal), ("userEmail", u.toVal), ("timestamp", Val.num now)]
              "id" (Val.num db.likes.keyGen)) db.likes.records,
          keyGen := db.likes.keyGen + 1 }) := by
  unfold toggleLikeWrite
  simp only
  rw [addToStore_generate StoreName.likes _ db rfl (by simp [schemaOf, Obj.prop, Obj.lookup?])
    hgen hfresh]
  rfl

theorem toggleLikeWrite_some (p u : Key) (now : Int) (db : DB) (like : Obj) (k : Key)
    (hid : like.prop "id" = k.toVal) :
    toggleLikeWrite p u now (some like) db =
      (Except.ok false, db.setStore StoreName.likes
        ((db.store StoreName.likes).delete (schemaOf StoreName.likes) k)) := by
  unfold toggleLikeWrite
  simp [deleteFromStore, hid]

/-- C25. The toggle is not atomic.  Take two `toggleLike` calls on one pair and
the interleaving in which both existence checks run, on the same state, before
either write.  From a likes store with no Like of the pair (whose key generator
can hand out two more keys), both calls return `true` and the store ends with
two Like records of the pair.  From a likes store with one Like of the pair,
both calls return `false` and the store ends with none. -/
theorem toggleLike_interleaved (p u : Key) (now₁ now₂ : Int) (db : DB) :
    (getLike p u db = none → db.likes.keyGen + 1 ≤ maxGeneratedKey →
        KeysBelowGen StoreName.likes db →
        (toggleLikeWrite p u now₁ (getLike p u db) db).1 = Except.ok true ∧
        (toggleLikeWrite p u now₂ (getLike p u db)
          (toggleLikeWrite p u now₁ (getLike p u db) db).2).1 = Except.ok true ∧
        ((toggleLikeWrite p u now₂ (getLike p u db)
          (toggleLikeWrite p u now₁ (getLike p u db) db).2).2.likes.records.filter
            (isLikeOf p u)).length = 2) ∧
      ∀ (like : Obj) (k : Key), getLike p u db = some like → like.prop "id" = k.toVal →
        (db.likes.records.filter (isLikeOf p u)).length = 1 →
        (toggleLikeWrite p u now₁ (getLike p u db) db).1 = Except.ok false ∧
        (toggleLikeWrite p u now₂ (getLike p u db)
          (toggleLikeWrite p u now₁ (getLike p u db) db).2).1 = Except.ok false ∧
        ((toggleLikeWrite p u now₂ (getLike p u db)
          (toggleLikeWrite p u now₁ (getLike p u db) db).2).2.likes.records.filter
            (isLikeOf p u)).length = 0 := by
  constructor
  · intro hno hgen hkb
    have hgen₁ : db.likes.keyGen ≤ maxGeneratedKey := Nat.le_of_succ_le hgen
    have hfresh := keysBelowGen_fresh StoreName.likes db hkb hgen₁
    have h₁ := toggleLikeWrite_none p u now₁ db hgen₁ hfresh
    have hkb₁ : KeysBelowGen StoreName.likes (toggleLikeWrite p u now₁ none db).2 := by
      have := toggleLike_keysBelowGen p u now₁ db hkb
      rw [toggleLike_eq_check_write, hno] at this
      exact this
    rw [hno]
    have hg₂ : (toggleLikeWrite p u now₁ none db).2.likes.keyGen ≤ maxGeneratedKey := by
      rw [h₁]; exact hgen
    have hfresh₂ := keysBelowGen_fresh StoreName.likes _ hkb₁ hg₂
    have h₂ := toggleLikeWrite_none p u now₂ (toggleLikeWrite p u now₁ none db).2 hg₂ hfresh₂
    refine ⟨by rw [h₁], by rw [h₂], ?_⟩
    rw [h₂]
    show ((Store.insertByKey _ _ _ (toggleLikeWrite p u now₁ none db).2.likes.records).filter
      (isLikeOf p u)).length = 2
    rw [Store.filter_insertByKey, h₁]
    show ((Store.insertByKey _ _ _ db.likes.records).filter (isLikeOf p u)).length + _ = 2
    rw [Store.filter_insertByKey]
    have hold : db.likes.records.filter (isLikeOf p u) = [] := by
      rw [List.filter_eq_nil_iff]
      intro r hr
      simp [(getLike_eq_none_iff p u db).1 hno r hr]
    have hn₁ := isLikeOf_new p u p u now₁ db.likes.keyGen
    have hn₂ := isLikeOf_new p u p u now₂
      (db.setStore StoreName.likes
        { records := Store.insertByKey (schemaOf StoreName.likes) (Key.num db.likes.keyGen)
            (Obj.setProp [("postId", p.toVal), ("userEmail", u.toVal),
              ("timestamp", Val.num now₁)] "id" (Val.num db.likes.keyGen)) db.likes.records,
          keyGen := db.likes.keyGen + 1 }).likes.keyGen
    simp only [and_self, decide_True] at hn₁ hn₂
    rw [hold, hn₁]
    simp only [Prod.snd] at hn₂ ⊢
    rw [hn₂]
    rfl
  · intro like k hsome hid hone
    have hfound : like ∈ db.likes.records ∧ isLikeOf p u like = true := by
      unfold getLike getAllFromStore at hsome
      exact ⟨List.mem_of_find?_eq_some hsome, List.find?_some hsome⟩
    have hkey : (schemaOf StoreName.likes).keyOf like = some k :=
      (Schema.keyOf_eq_some_iff _ _ _).2 hid
    have h₁ := toggleLikeWrite_some p u now₁ db like k hid
    have h₂ := toggleLikeWrite_some p u now₂ (toggleLikeWrite p u now₁ (some like) db).2 like k hid
    rw [hsome]
    refine ⟨by rw [h₁], by rw [h₂], ?_⟩
    rw [h₂, h₁]
    rw [List.length_eq_zero, List.filter_eq_nil_iff]
    intro r hr hlike
    have hr₁ : r ∈ (db.likes.records.filter
        (fun r => (schemaOf StoreName.likes).keyOf r != some k)).filter
        (fun r => (schemaOf StoreName.likes).keyOf r != some k) := hr
    obtain ⟨hr₂, hk₂⟩ := List.mem_filter.1 (List.mem_filter.1 hr₁).1
    have hrl : r = like :=
      eq_of_mem_of_length_le_one _ (le_of_eq hone) r like
        (List.mem_filter.2 ⟨hr₂, hlike⟩) (List.mem_filter.2 hfound)
    rw [hrl, hkey] at hk₂
    simp at hk₂

/-- Witness for C25: two interleaved likes of post 1 by Ann in a new database
leave two Like records; two interleaved toggles on a store with her one Like
leave none. -/
theorem toggleLike_interleaved_witness :
    ((toggleLikeWrite (Key.num 1) (Key.str "a@x.com") 8
        (getLike (Key.num 1) (Key.str "a@x.com") DB.empty)
        (toggleLikeWrite (Key.num 1) (Key.str "a@x.com") 7
          (getLike (Key.num 1) (Key.str "a@x.com") DB.empty) DB.empty).2).2.likes.records.filter
      (isLikeOf (Key.num 1) (Key.str "a@x.com"))).length = 2 ∧
    ((toggleLikeWrite (Key.num 1) (Key.str "a@x.com") 8
        (getLike (Key.num 1) (Key.str "a@x.com")
          (DB.empty.setStore StoreName.likes
            ⟨[[("postId", Val.num 1), ("userEmail", Val.str "a@x.com"),
              ("timestamp", Val.num 5), ("id", Val.num 1)]], 2⟩))
        (toggleLikeWrite (Key.num 1) (Key.str "a@x.com") 7
          (getLike (Key.num 1) (Key.str "a@x.com")
            (DB.empty.setStore StoreName.likes
              ⟨[[("postId", Val.num 1), ("userEmail", Val.str "a@x.com"),
                ("timestamp", Val.num 5), ("id", Val.num 1)]], 2⟩))
          (DB.empty.setStore StoreName.likes
            ⟨[[("postId", Val.num 1), ("userEmail", Val.str "a@x.com"),
              ("timestamp", Val.num 5), ("id", Val.num 1)]], 2⟩)).2).2.likes.records.filter
      (isLikeOf (Key.num 1) (Key.str "a@x.com"))).length = 0 :=
  ⟨((toggleLike_interleaved (Key.num 1) (Key.str "a@x.com") 7 8 DB.empty).1 (by decide)
      (by decide) (keysBelowGen_empty StoreName.likes)).2.2,
    ((toggleLike_interleaved (Key.num 1) (Key.str "a@x.com") 7 8
      (DB.empty.setStore StoreName.likes
        ⟨[[("postId", Val.num 1), ("userEmail", Val.str "a@x.com"),
          ("timestamp", Val.num 5), ("id", Val.num 1)]], 2⟩)).2
      [("postId", Val.num 1), ("userEmail", Val.str "a@x.com"),
        ("timestamp", Val.num 5), ("id", Val.num 1)] (Key.num 1)
      (by decide) (by decide) (by decide)).2.2⟩

/-! ## Keys are unique within a store

An object store holds one record per key.  The invariant holds in the empty
database and every add and delete keeps it. -/

theorem keysUnique_empty (n : StoreName) : KeysUnique n DB.empty := by
  cases n <;> exact ⟨fun r hr => (by cases hr), List.Pairwise.nil⟩

theorem Store.resolveKey_keyOf (sch : Schema) (s : Store) (value : Obj) (k : Key) (v : Obj)
    (g : Nat) (h : Store.resolveKey sch s value = Except.ok (k, v, g)) :
    sch.keyOf v = some k := by
  unfold Store.resolveKey at h
  split at h
  · split at h
    · split at h
      · cases h
      · cases h
        unfold Schema.keyOf
        rw [Obj.prop_setProp]
        simp [Val.toKey?]
    · cases h
  · cases hk : (value.prop sch.keyPath).toKey? with
    | none => rw [hk] at h; cases h
    | some k' =>
      rw [hk] at h
      cases h
      exact hk

theorem Store.add_eq_ok (sch : Schema) (s : Store) (value : Obj) (k : Key) (s' : Store)
    (h : Store.add sch s value = Except.ok (k, s')) :
    ∃ v, sch.keyOf v = some k ∧ (∀ r ∈ s.records, sch.keyOf r ≠ some k) ∧
      s'.records = Store.insertByKey sch k v s.records := by
  unfold Store.add at h
  cases hr : Store.resolveKey sch s value with
  | error e => rw [hr] at h; cases h
  | ok t =>
    obtain ⟨k₀, v, g⟩ := t
    rw [hr] at h
    simp only at h
    by_cases hany : s.records.any (fun r => sch.keyOf r == some k₀) = true
    · rw [if_pos hany] at h; cases h
    · rw [if_neg hany] at h
      by_cases hv : Store.violatesUnique sch s k₀ v = true
      · rw [if_pos hv] at h; cases h
      · rw [if_neg hv] at h
        cases h
        refine ⟨v, Store.resolveKey_keyOf sch s value _ v g hr, ?_, rfl⟩
        intro r hr' hk
        apply hany
        rw [List.any_eq_true]
        exact ⟨r, hr', by simp [hk]⟩

theorem keysUnique_insertByKey (sch : Schema) (k : Key) (v : Obj) (rs : List Obj)
    (hv : sch.keyOf v = some k) (hnew : ∀ r ∈ rs, sch.keyOf r ≠ some k)
    (hall : ∀ r ∈ rs, sch.keyOf r ≠ none)
    (hpw : rs.Pairwise (fun a b => sch.keyOf a ≠ sch.keyOf b)) :
    (∀ r ∈ Store.insertByKey sch k v rs, sch.keyOf r ≠ none) ∧
      (Store.insertByKey sch k v rs).Pairwise (fun a b => sch.keyOf a ≠ sch.keyOf b) := by
  constructor
  · intro r hr
    rcases (Store.mem_insertByKey sch k v rs r).1 hr with h | h
    · rw [h, hv]; simp
    · exact hall r h
  · obtain ⟨l₁, l₂, h₁, h₂⟩ := Store.insertByKey_split sch k v rs
    rw [h₂]
    rw [h₁] at hpw hnew
    rw [List.pairwise_append] at hpw ⊢
    obtain ⟨hp₁, hp₂, hp₁₂⟩ := hpw
    refine ⟨hp₁, ?_, ?_⟩
    · rw [List.pairwise_cons]
      refine ⟨?_, hp₂⟩
      intro b hb
      rw [hv]
      exact fun e => hnew b (List.mem_append_right _ hb) e.symm
    · intro a ha b hb
      rcases List.mem_cons.1 hb with e | hb'
      · rw [e, hv]
        exact hnew a (List.mem_append_left _ ha)
      · exact hp₁₂ a ha b hb'

theorem keysUnique_addToStore (n : StoreName) (data : Obj) (db : DB) (h : KeysUnique n db) :
    KeysUnique n (addToStore n data db).2 := by
  unfold addToStore
  cases hadd : (db.store n).add (schemaOf n) data with
  | error e => exact h
  | ok t =>
    obtain ⟨k, s'⟩ := t
    obtain ⟨v, hv, hnew, hrec⟩ := Store.add_eq_ok _ _ _ _ _ hadd
    have := keysUnique_insertByKey (schemaOf n) k v (db.store n).records hv hnew h.1 h.2
    unfold KeysUnique
    simp only [DB.store_setStore_same]
    rw [hrec]
    exact this

theorem keysUnique_delete (n : StoreName) (k : Key) (db : DB) (h : KeysUnique n db) :
    KeysUnique n (db.setStore n ((db.store n).delete (schemaOf n) k)) := by
  unfold KeysUnique
  simp only [DB.store_setStore_same]
  unfold Store.delete
  exact ⟨fun r hr => h.1 r (List.mem_filter.1 hr).1, h.2.filter _⟩

theorem keysUnique_deleteFromStore (n : StoreName) (key : Val) (db : DB)
    (h : KeysUnique n db) : KeysUnique n (deleteFromStore n key db).2 := by
  rcases deleteFromStore_state n key db with hs | ⟨k, hs⟩
  · rw [hs]; exact h
  · rw [hs]; exact keysUnique_delete n k db h

theorem toggleLikeWrite_snd (p u : Key) (now : Int) (o : Option Obj) (db : DB) :
    (toggleLikeWrite p u now o db).2 =
      match o with
      | some like => (deleteFromStore StoreName.likes (like.prop "id") db).2
      | none => (addToStore StoreName.likes
          [("postId", p.toVal), ("userEmail", u.toVal), ("timestamp", Val.num now)] db).2 := by
  unfold toggleLikeWrite
  cases o with
  | some like =>
    simp only
    generalize deleteFromStore StoreName.likes (like.prop "id") db = x
    rcases x with ⟨_ | _, db'⟩ <;> rfl
  | none =>
    simp only
    generalize addToStore StoreName.likes
      [("postId", p.toVal), ("userEmail", u.toVal), ("timestamp", Val.num now)] db = x
    rcases x with ⟨_ | _, db'⟩ <;> rfl

theorem toggleLike_keysUnique (p u : Key) (now : Int) (db : DB)
    (h : KeysUnique StoreName.likes db) :
    KeysUnique StoreName.likes (toggleLike p u now db).2 := by
  rw [toggleLike_eq_check_write, toggleLikeWrite_snd]
  cases getLike p u db with
  | some like => exact keysUnique_deleteFromStore _ _ db h
  | none => exact keysUnique_addToStore _ _ db h

/-- The first element that `find?` returns splits the list: nothing before it
passes the test. -/
theorem find?_eq_some_split {α : Type} (q : α → Bool) (l : List α) (a : α)
    (h : l.find? q = some a) :
    ∃ l₁ l₂, l = l₁ ++ a :: l₂ ∧ (∀ x ∈ l₁, q x = false) ∧ q a = true := by
  induction l with
  | nil => cases h
  | cons x xs ih =>
    cases hx : q x with
    | true =>
      rw [List.find?_cons, hx] at h
      cases h
      exact ⟨[], xs, rfl, fun y hy => (by cases hy), hx⟩
    | false =>
      rw [List.find?_cons, hx] at h
      obtain ⟨l₁, l₂, h₁, h₂, h₃⟩ := ih h
      refine ⟨x :: l₁, l₂, by rw [h₁]; rfl, ?_, h₃⟩
      intro y hy
      rcases List.mem_cons.1 hy with e | hy'
      · rw [e]; exact hx
      · exact h₂ y hy'

/-- C28. When the likes store (one record per key) holds two or more Like
records of the pair `(postId, userEmail)`, one `toggleLike` on the pair returns
`false` and deletes exactly one record, the first Like of the pair in store
order: the records before it and after it are kept as they were, so one Like of
the pair fewer is left, and at least one. -/
theorem toggleLike_duplicates (p u : Key) (now : Int) (db : DB)
    (huniq : KeysUnique StoreName.likes db)
    (hdup : 2 ≤ (db.likes.records.filter (isLikeOf p u)).length) :
    ∃ l₁ first l₂ db',
      db.likes.records = l₁ ++ first :: l₂ ∧
      (∀ r ∈ l₁, isLikeOf p u r = false) ∧ isLikeOf p u first = true ∧
      toggleLike p u now db = (Except.ok false, db') ∧
      db' = db.setStore StoreName.likes ⟨l₁ ++ l₂, db.likes.keyGen⟩ ∧
      (db'.likes.records.filter (isLikeOf p u)).length + 1 =
        (db.likes.records.filter (isLikeOf p u)).length ∧
      1 ≤ (db'.likes.records.filter (isLikeOf p u)).length := by
  cases hget : getLike p u db with
  | none =>
    have hnil : db.likes.records.filter (isLikeOf p u) = [] := by
      rw [List.filter_eq_nil_iff]
      intro r hr
      simp [(getLike_eq_none_iff p u db).1 hget r hr]
    rw [hnil] at hdup
    simp at hdup
  | some first =>
    obtain ⟨l₁, l₂, hsplit, hbefore, hfirst⟩ :=
      find?_eq_some_split (isLikeOf p u) db.likes.records first hget
    have hmem : first ∈ db.likes.records := by rw [hsplit]; simp
    obtain ⟨hall, hpw⟩ := huniq
    have hall' : ∀ r ∈ db.likes.records, (schemaOf StoreName.likes).keyOf r ≠ none := hall
    have hpw' : db.likes.records.Pairwise
        (fun a b => (schemaOf StoreName.likes).keyOf a ≠ (schemaOf StoreName.likes).keyOf b) := hpw
    obtain ⟨k, hk⟩ := Option.ne_none_iff_exists'.1 (hall' first hmem)
    have hid : first.prop "id" = k.toVal := (Schema.keyOf_eq_some_iff _ _ _).1 hk
    rw [hsplit, List.pairwise_append, List.pairwise_cons] at hpw'
    obtain ⟨_, ⟨hf₂, _⟩, h₁₂⟩ := hpw'
    have hfilter : db.likes.records.filter
        (fun r => (schemaOf StoreName.likes).keyOf r != some k) = l₁ ++ l₂ := by
      rw [hsplit, List.filter_append, List.filter_cons]
      have e₁ : l₁.filter (fun r => (schemaOf StoreName.likes).keyOf r != some k) = l₁ := by
        rw [List.filter_eq_self]
        intro r hr
        have := h₁₂ r hr first (List.mem_cons_self _ _)
        rw [hk] at this
        simpa using this
      have e₂ : l₂.filter (fun r => (schemaOf StoreName.likes).keyOf r != some k) = l₂ := by
        rw [List.filter_eq_self]
        intro r hr
        have := hf₂ r hr
        rw [hk] at this
        simpa using fun e => this e.symm
      rw [e₁, e₂]
      simp [hk]
    have hcount : (db.likes.records.filter (isLikeOf p u)).length =
        ((l₁ ++ l₂).filter (isLikeOf p u)).length + 1 := by
      rw [hsplit]
      simp [List.filter_append, List.filter_cons, hfirst]
      omega
    refine ⟨l₁, first, l₂, _, hsplit, hbefore, hfirst,
      toggleLike_of_some p u now db first k hget hid, ?_, ?_, ?_⟩
    · exact congrArg (fun l => db.setStore StoreName.likes ⟨l, db.likes.keyGen⟩) hfilter
    · exact (congrArg (fun l => (List.filter (isLikeOf p u) l).length + 1) hfilter).trans
        hcount.symm
    · have e := congrArg (fun l => (List.filter (isLikeOf p u) l).length) hfilter
      have e' : ((db.setStore StoreName.likes ((db.store StoreName.likes).delete
          (schemaOf StoreName.likes) k)).likes.records.filter (isLikeOf p u)).length =
          ((l₁ ++ l₂).filter (isLikeOf p u)).length := e
      omega

/-- Witness for C28: of two Like records of one pair, the toggle deletes the
first and keeps the second. -/
theorem toggleLike_duplicates_witness :
    ∃ db', toggleLike (Key.num 1) (Key.str "a@x.com") 9
        (DB.empty.setStore StoreName.likes
          ⟨[[("postId", Val.num 1), ("userEmail", Val.str "a@x.com"), ("timestamp", Val.num 5),
              ("id", Val.num 1)],
            [("postId", Val.num 1), ("userEmail", Val.str "a@x.com"), ("timestamp", Val.num 6),
              ("id", Val.num 2)]], 3⟩) = (Except.ok false, db') ∧
      1 ≤ (db'.likes.records.filter (isLikeOf (Key.num 1) (Key.str "a@x.com"))).length := by
  obtain ⟨l₁, first, l₂, db', _, _, _, h, _, _, h'⟩ :=
    toggleLike_duplicates (Key.num 1) (Key.str "a@x.com") 9
      (DB.empty.setStore StoreName.likes
        ⟨[[("postId", Val.num 1), ("userEmail", Val.str "a@x.com"), ("timestamp", Val.num 5),
            ("id", Val.num 1)],
          [("postId", Val.num 1), ("userEmail", Val.str "a@x.com"), ("timestamp", Val.num 6),
            ("id", Val.num 2)]], 3⟩)
      (by unfold KeysUnique; decide) (by decide)
  exact ⟨db', h, h'⟩

/-- C29. `toggleLike` never touches the posts store: for every database state
and every pair, the posts store after the call is the one before it, so every
read of a post returns the same record, with the same `likes` counter; this holds
in particular right after `createPost`, which sets the counter to 0, and a toggle
on the post just created leaves the counter at 0. -/
theorem toggleLike_posts_unchanged (p u : Key) (now : Int) (db : DB) :
    (toggleLike p u now db).2.posts = db.posts ∧
      (∀ key, getFromStore StoreName.posts key (toggleLike p u now db).2 =
        getFromStore StoreName.posts key db) ∧
      getAllFromStore StoreName.posts (toggleLike p u now db).2 =
        getAllFromStore StoreName.posts db ∧
      (∀ (postData : Obj) (now₀ : Int),
        (toggleLike p u now (createPost postData now₀ db).2).2.posts =
          (createPost postData now₀ db).2.posts) ∧
      (getFromStore StoreName.posts (Val.num 1)
          (toggleLike (Key.num 1) (Key.str "a@x.com") 2
            (createPost [("content", Val.str "x")] 1 DB.empty).2).2).map
        (fun r => r.map (fun post => post.prop "likes")) = Except.ok (some (Val.num 0)) := by
  have key : ∀ db : DB, (toggleLike p u now db).2.posts = db.posts := by
    intro db
    rcases toggleLike_state p u now db with h | ⟨k, h⟩ | ⟨_, h⟩ <;> rw [h] <;> rfl
  have hstore : ∀ db : DB, (toggleLike p u now db).2.store StoreName.posts =
      db.store StoreName.posts := key
  refine ⟨key db, ?_, ?_, fun postData now₀ => key _, by decide⟩
  · intro k
    unfold getFromStore
    rw [hstore]
  · unfold getAllFromStore
    rw [hstore]

/-! ## Passwords after an update -/

/-- The outcome of `updateUser` for an existing user and an update without an
`email` field: the record under the email is replaced by the overlay. -/
theorem updateUser_of_present (email : Key) (updates : Obj) (now : Int) (db : DB) (user : Obj)
    (hget : getFromStore StoreName.users email.toVal db = Except.ok (some user))
    (hemail : updates.hasProp "email" = false) :
    updateUser email updates now db =
        (Except.ok email.toVal, db.setStore StoreName.users
          { records := Store.replaceByKey (schemaOf StoreName.users) email
              ((Obj.assign (Obj.assign [] user) updates).setProp "updatedAt" (Val.num now))
              (db.store StoreName.users).records,
            keyGen := (db.store StoreName.users).keyGen }) ∧
      getFromStore StoreName.users email.toVal (updateUser email updates now db).2 =
        Except.ok (some
          ((Obj.assign (Obj.assign [] user) updates).setProp "updatedAt" (Val.num now))) := by
  obtain ⟨hmem, hkey⟩ := getFromStore_eq_some _ _ _ _ hget
  have hkey' : user.prop "email" = email.toVal := hkey
  have hk : ((Obj.assign (Obj.assign [] user) updates).setProp "updatedAt" (Val.num now)).prop
      (schemaOf StoreName.users).keyPath = email.toVal := by
    show Obj.prop _ "email" = _
    rw [Obj.prop_setProp, Obj.prop_assign]
    simp [hemail, hkey']
  have hex : (db.store StoreName.users).records.any
      (fun r => (schemaOf StoreName.users).keyOf r == some email) = true := by
    rw [List.any_eq_true]
    exact ⟨user, hmem, by simpa using (Schema.keyOf_eq_some_iff _ user email).2 hkey⟩
  have hupd : updateUser email updates now db =
      updateInStore StoreName.users email.toVal
        ((Obj.assign (Obj.assign [] user) updates).setProp "updatedAt" (Val.num now)) db := by
    unfold updateUser
    rw [hget]
  rw [updateInStore_of_present StoreName.users _ _ db email hk hex] at hupd
  have hupd' : updateUser email updates now db =
      (Except.ok email.toVal, db.setStore StoreName.users
        { records := Store.replaceByKey (schemaOf StoreName.users) email
            ((Obj.assign (Obj.assign [] user) updates).setProp "updatedAt" (Val.num now))
            (db.store StoreName.users).records,
          keyGen := (db.store StoreName.users).keyGen }) := hupd
  refine ⟨hupd', ?_⟩
  rw [hupd']
  exact getFromStore_replace_same StoreName.users db email _ _ hk hex

/-- C27. `updateUser` does not hash: for an existing user and a string `p`,
`updateUser(email, {password: p})` succeeds and the stored record's `password`
field is then `p` itself; so `authenticateUser(email, p)` on the resulting
database succeeds exactly when `hashPassword(p)` is the string `p`, and fails
with `'Invalid password'` otherwise. -/
theorem updateUser_password_verbatim (sha256 : List Nat → List Nat) (email : Key) (p : String)
    (now : Int) (db : DB) (user : Obj)
    (hget : getFromStore StoreName.users email.toVal db = Except.ok (some user)) :
    ∃ db' user',
      updateUser email [("password", Val.str p)] now db = (Except.ok email.toVal, db') ∧
      getFromStore StoreName.users email.toVal db' = Except.ok (some user') ∧
      user'.prop "password" = Val.str p ∧
      ((∃ u, authenticateUser sha256 email (Val.str p) db' = Except.ok u) ↔
        hashPassword sha256 (Val.str p) = p) ∧
      (hashPassword sha256 (Val.str p) ≠ p →
        authenticateUser sha256 email (Val.str p) db' =
          Except.error (Err.Error "Invalid password")) := by
  obtain ⟨hupd, hget'⟩ := updateUser_of_present email [("password", Val.str p)] now db user hget
    (by simp [Obj.hasProp, Obj.lookup?])
  rw [hupd] at hget'
  have hpw : ((Obj.assign (Obj.assign [] user) [("password", Val.str p)]).setProp "updatedAt"
      (Val.num now)).prop "password" = Val.str p := by
    rw [Obj.prop_setProp, Obj.prop_assign]
    simp [Obj.hasProp, Obj.prop, Obj.lookup?]
  have hver : verifyPassword sha256 (Val.str p) (Val.str p) = true ↔
      hashPassword sha256 (Val.str p) = p := by
    unfold verifyPassword
    rw [Val.strictEq_str]
    constructor
    · intro h; injection h with h; exact h.symm
    · intro h; rw [h]
  refine ⟨_, _, hupd, hget', hpw, ?_, ?_⟩
  · unfold authenticateUser
    rw [hget']
    simp only [hpw]
    by_cases h : hashPassword sha256 (Val.str p) = p
    · simp [hver.2 h, h]
    · have : verifyPassword sha256 (Val.str p) (Val.str p) = false := by
        rw [Bool.eq_false_iff]; exact fun hv => h (hver.1 hv)
      simp [this, h]
  · intro h
    have : verifyPassword sha256 (Val.str p) (Val.str p) = false := by
      rw [Bool.eq_false_iff]; exact fun hv => h (hver.1 hv)
    unfold authenticateUser
    rw [hget']
    simp [hpw, this]

/-- Witness for C27: Ann sets the password `pw` through `updateUser`; with the
sample digest the login with `pw` is refused. -/
theorem updateUser_password_verbatim_witness :
    ∃ db', updateUser (Key.str "a@x.com") [("password", Val.str "pw")] 9 sampleUsers =
        (Except.ok (Val.str "a@x.com"), db') ∧
      authenticateUser sampleDigest (Key.str "a@x.com") (Val.str "pw") db' =
        Except.error (Err.Error "Invalid password") := by
  obtain ⟨db', user', h₁, _, _, _, h₂⟩ := updateUser_password_verbatim sampleDigest
    (Key.str "a@x.com") "pw" 9 sampleUsers
    [("email", Val.str "a@x.com"), ("firstName", Val.str "Ann"),
      ("password", Val.str "h"), ("createdAt", Val.num 1), ("updatedAt", Val.num 1)]
    (by decide)
  exact ⟨db', h₁, h₂ (by decide)⟩

/-! ## API requests and the pending-request list -/

/-- C21, counterexample. An API request whose fetch fails is answered from the
cache: with an entry for the request in the cache the page gets the cached
response, with an empty cache storage it gets the network failure, so the
handling does read the cache. -/
theorem handleApiRequest_reads_cache :
    (handleApiRequest true (fun _ => none) (fun r q => q ++ [r])
        ⟨"https://moji.example/api/posts", "GET", [], ""⟩
        [(CACHE_NAME, [(⟨"https://moji.example/api/posts", "GET", [], ""⟩,
          ⟨200, ResponseType.basic, "old"⟩)])] []).responded =
        Responded.response ⟨200, ResponseType.basic, "old"⟩ ∧
      (handleApiRequest true (fun _ => none) (fun r q => q ++ [r])
        ⟨"https://moji.example/api/posts", "GET", [], ""⟩ [] []).responded =
        Responded.networkError ∧
      (onFetch "https://moji.example" CACHE_NAME (fun _ => none)
        (fun r c => (handleApiRequest true (fun _ => none) (fun r q => q ++ [r]) r c []).toFetchOutcome)
        ⟨"https://moji.example/api/posts", "GET", [], ""⟩
        [(CACHE_NAME, [(⟨"https://moji.example/api/posts", "GET", [], ""⟩,
          ⟨200, ResponseType.basic, "old"⟩)])]).responded =
        Responded.response ⟨200, ResponseType.basic, "old"⟩ := by
  decide

/-- C21, amended. For a same-origin request with `/api/` in its URL the `fetch`
listener does what `handleApiRequest` does, and that never writes to the cache:
the cache storage afterwards is the one before, whatever the fetch gives.  When
the fetch succeeds, or Background Sync is not supported, the cache is not read
either.  When Background Sync is supported and the fetch fails, the cache is
read once, by `caches.match` on the request, and the page gets the response
found there, or the network failure when there is none. -/
theorem handleApiRequest_cache_use (syncSupported : Bool) (fetch : Request → Option Response)
    (save : Request → List Request → List Request) (origin cacheName : String)
    (request : Request) (caches : CacheStorage) (pending : List Request) :
    (startsWith request.url origin = true → includes request.url "/api/" = true →
        onFetch origin cacheName fetch
          (fun r c => (handleApiRequest syncSupported fetch save r c pending).toFetchOutcome)
          request caches =
        (handleApiRequest syncSupported fetch save request caches pending).toFetchOutcome) ∧
      (handleApiRequest syncSupported fetch save request caches pending).caches = caches ∧
      (∀ response, fetch request = some response →
        (handleApiRequest syncSupported fetch save request caches pending).matched = [] ∧
        ∀ caches', (handleApiRequest syncSupported fetch save request caches' pending).responded =
          (handleApiRequest syncSupported fetch save request caches pending).responded) ∧
      (syncSupported = false →
        (handleApiRequest syncSupported fetch save request caches pending).matched = []) ∧
      (syncSupported = true → fetch request = none →
        (handleApiRequest syncSupported fetch save request caches pending).matched = [request] ∧
        (handleApiRequest syncSupported fetch save request caches pending).responded =
          match cachesMatch caches request with
          | some cached => Responded.response cached
          | none => Responded.networkError) := by
  refine ⟨?_, ?_, ?_, ?_, ?_⟩
  · intro ho ha
    unfold onFetch
    simp [ho, ha]
  · unfold handleApiRequest
    cases syncSupported with
    | false => rfl
    | true =>
      simp only [if_true]
      cases fetch request with
      | some response => rfl
      | none => cases cachesMatch caches request <;> rfl
  · intro response hf
    unfold handleApiRequest
    rw [hf]
    cases syncSupported <;> exact ⟨rfl, fun _ => rfl⟩
  · intro hs
    unfold handleApiRequest
    rw [hs]
    rfl
  · intro hs hf
    unfold handleApiRequest
    rw [hs, hf]
    simp only [if_true]
    cases cachesMatch caches request <;> exact ⟨rfl, rfl⟩

/-- Witness for C21: an API request that the network answers, with an entry for
it in the cache; the cache is not looked at and stays as it was. -/
theorem handleApiRequest_cache_use_witness :
    (handleApiRequest true (fun _ => some ⟨201, ResponseType.basic, "new"⟩)
        (fun r q => q ++ [r])
        ⟨"https://moji.example/api/posts", "GET", [], ""⟩
        [(CACHE_NAME, [(⟨"https://moji.example/api/posts", "GET", [], ""⟩,
          ⟨200, ResponseType.basic, "old"⟩)])] []).matched = [] :=
  ((handleApiRequest_cache_use true (fun _ => some ⟨201, ResponseType.basic, "new"⟩)
    (fun r q => q ++ [r]) "https://moji.example" CACHE_NAME
    ⟨"https://moji.example/api/posts", "GET", [], ""⟩
    [(CACHE_NAME, [(⟨"https://moji.example/api/posts", "GET", [], ""⟩,
      ⟨200, ResponseType.basic, "old"⟩)])] []).2.2.1 ⟨201, ResponseType.basic, "new"⟩ rfl).1

/-- C22, counterexample. Without Background Sync (`'sync' in self.registration`
is false) an API request whose fetch fails is not handled at all: nothing is
appended to the pending-request list. -/
theorem handleApiRequest_without_sync_not_queued :
    (handleApiRequest false (fun _ => none) saveRequestForSync
        ⟨"https://moji.example/api/posts", "POST", [], "hello"⟩ [] []).pending = [] ∧
      (handleApiRequest false (fun _ => none) saveRequestForSync
        ⟨"https://moji.example/api/posts", "POST", [], "hello"⟩ [] []).responded =
        Responded.notIntercepted := by
  decide

/-- C22, amended. When Background Sync is supported, an API request whose fetch
fails is appended to the pending-request list, as an entry with its method, URL,
headers and body, behind the entries that were there; the page gets the cached
response of the request when `caches.match` finds one, and the network failure
otherwise.  A request whose fetch succeeds is not appended. -/
theorem handleApiRequest_fetch_fails (fetch : Request → Option Response) (request : Request)
    (caches : CacheStorage) (pending : List Request) :
    (fetch request = none →
        (∃ entry, (handleApiRequest true fetch saveRequestForSync request caches pending).pending =
            pending ++ [entry] ∧
          entry.method = request.method ∧ entry.url = request.url ∧
          entry.headers = request.headers ∧ entry.body = request.body) ∧
        (∀ cached, cachesMatch caches request = some cached →
          (handleApiRequest true fetch saveRequestForSync request caches pending).responded =
            Responded.response cached) ∧
        (cachesMatch caches request = none →
          (handleApiRequest true fetch saveRequestForSync request caches pending).responded =
            Responded.networkError)) ∧
      ∀ response, fetch request = some response →
        (handleApiRequest true fetch saveRequestForSync request caches pending).pending =
            pending ∧
          (handleApiRequest true fetch saveRequestForSync request caches pending).responded =
            Responded.response response := by
  constructor
  · intro hf
    unfold handleApiRequest
    rw [hf]
    simp only [if_true]
    refine ⟨⟨request, ?_, rfl, rfl, rfl, rfl⟩, ?_, ?_⟩
    · cases cachesMatch caches request <;> rfl
    · intro cached hc
      rw [hc]
    · intro hc
      rw [hc]
  · intro response hf
    unfold handleApiRequest
    rw [hf]
    exact ⟨rfl, rfl⟩

/-- Witness for C22: a POST that fails at the network is queued behind the
entry that was pending, and the page gets the network failure. -/
theorem handleApiRequest_fetch_fails_witness :
    (handleApiRequest true (fun _ => none) saveRequestForSync
        ⟨"https://moji.example/api/posts", "POST", [], "hello"⟩ []
        [⟨"https://moji.example/api/likes", "POST", [], "1"⟩]).responded =
      Responded.networkError :=
  ((handleApiRequest_fetch_fails (fun _ => none)
    ⟨"https://moji.example/api/posts", "POST", [], "hello"⟩ []
    [⟨"https://moji.example/api/likes", "POST", [], "1"⟩]).1 rfl).2.2 rfl

/-! ## Background sync -/

/-- C23. For every pending-request list, one `sync` event with the tag
`sync-posts` issues one fetch for each pending request, in the order of the
list, which is the order of queueing: with A queued before B, A is issued before
B.  A `sync` event with another tag issues no request. -/
theorem onSync_replays_in_order (fetch : Request → Option Response) (pending : List Request) :
    (onSync "sync-posts" fetch getPendingRequests pending).fetched = pending ∧
      (onSync "sync-posts" fetch getPendingRequests pending).responses = pending.map fetch ∧
      (∀ a b : Request,
        (onSync "sync-posts" fetch getPendingRequests
          (saveRequestForSync b (saveRequestForSync a pending))).fetched = pending ++ [a, b]) ∧
      ∀ tag, tag ≠ "sync-posts" → (onSync tag fetch getPendingRequests pending).fetched = [] := by
  refine ⟨rfl, rfl, ?_, ?_⟩
  · intro a b
    simp [onSync, getPendingRequests, saveRequestForSync]
  · intro tag ht
    simp [onSync, ht]

/-- Witness for C23: a `sync` event with the tag `other` issues nothing. -/
theorem onSync_replays_in_order_witness :
    (onSync "other" (fun _ => none) getPendingRequests
      [⟨"https://moji.example/api/posts", "POST", [], "hello"⟩]).fetched = [] :=
  (onSync_replays_in_order (fun _ => none)
    [⟨"https://moji.example/api/posts", "POST", [], "hello"⟩]).2.2.2 "other" (by decide)

/-- C24, counterexample. After a replay in which the one pending request got a
response, the pending-request list still holds the request. -/
theorem onSync_answered_request_stays :
    (onSync "sync-posts" (fun _ => some ⟨201, ResponseType.basic, "ok"⟩) getPendingRequests
        [⟨"https://moji.example/api/posts", "POST", [], "hello"⟩]).responses =
        [some ⟨201, ResponseType.basic, "ok"⟩] ∧
      (onSync "sync-posts" (fun _ => some ⟨201, ResponseType.basic, "ok"⟩) getPendingRequests
        [⟨"https://moji.example/api/posts", "POST", [], "hello"⟩]).pending =
        [⟨"https://moji.example/api/posts", "POST", [], "hello"⟩] := by
  decide

/-- C24, amended. The `sync` listener removes nothing from the pending-request
list: after a replay the list is the one before it, whether the requests got a
response or not, for every tag; a request whose replay produced no response
stays in the list, and so does one whose replay was answered. -/
theorem onSync_keeps_pending (tag : String) (fetch : Request → Option Response)
    (pending : List Request) :
    (onSync tag fetch getPendingRequests pending).pending = pending := by
  unfold onSync
  split <;> rfl

/-! ## The sanitizer of the assistant -/

/-- C26. The patterns that `sanitizeInput` removes can survive in its output:
each replacement goes over the input once, and what is left around a removed
match can form the pattern again.  On `javajavascript:script:alert(1)` the code
returns `javascript:alert(1)`, which contains `javascript:`; on
`oonclick=nclick=alert(1)` it returns `onclick=alert(1)`, which starts with `on`,
word characters and `=`. -/
theorem sanitizeInput_pattern_survives :
    sanitizeInput "javajavascript:script:alert(1)" = "javascript:alert(1)" ∧
      includes (sanitizeInput "javajavascript:script:alert(1)") "javascript:" = true ∧
      sanitizeInput "oonclick=nclick=alert(1)" = "onclick=alert(1)" ∧
      matchOnHandler (sanitizeInput "oonclick=nclick=alert(1)").toList = some 8 := by
  decide

/-! ## Undo and redo through `executeCommand` -/

theorem saveToHistory_getLast? (e : Editor) :
    (saveToHistory e).undoStack.getLast? = some e.innerHTML := by
  unfold saveToHistory
  simp only
  split
  · rename_i h
    cases hu : e.undoStack with
    | nil => rw [hu] at h; simp at h
    | cons a u => simp
  · simp

/-- C30. For every editor state, `executeCommand('undo')` leaves the content as
it was: `saveToHistory` pushes the current content on the undo stack and `undo`
pops that same entry (and pushes the content on the redo stack, which
`saveToHistory` had emptied).  `executeCommand('redo')` leaves the content as it
was, because `saveToHistory` has just emptied the redo stack and `redo` finds
nothing to pop. -/
theorem executeCommand_undo_redo_keep_content (dom : String → String → String) (e : Editor) :
    (executeCommand dom "undo" e).innerHTML = e.innerHTML ∧
      (saveToHistory e).undoStack.getLast? = some e.innerHTML ∧
      (executeCommand dom "undo" e).undoStack = (saveToHistory e).undoStack.dropLast ∧
      (executeCommand dom "undo" e).redoStack = [e.innerHTML] ∧
      (executeCommand dom "redo" e).innerHTML = e.innerHTML ∧
      (saveToHistory e).redoStack = [] ∧
      executeCommand dom "redo" e = saveToHistory e := by
  have hlast := saveToHistory_getLast? e
  have hredo : (saveToHistory e).redoStack = [] := rfl
  have hinner : (saveToHistory e).innerHTML = e.innerHTML := rfl
  have hu : executeCommand dom "undo" e = undo (saveToHistory e) := by
    simp [executeCommand]
  have hr : executeCommand dom "redo" e = redo (saveToHistory e) := by
    simp [executeCommand]
  have hundo : undo (saveToHistory e) =
      { innerHTML := e.innerHTML, undoStack := (saveToHistory e).undoStack.dropLast,
        redoStack := [e.innerHTML] } := by
    unfold undo
    rw [hlast, hredo, hinner]
    rfl
  have hredo' : redo (saveToHistory e) = saveToHistory e := by
    unfold redo
    rw [hredo]
    rfl
  rw [hu, hr, hundo, hredo']
  exact ⟨rfl, hlast, rfl, rfl, rfl, rfl, rfl⟩

end BQI
